import Mathlib

/-
Shallow embedding of the int64 limit order book from `orderbook.go`
(package hftorderbook) together with the collaborating components that the
orderbook file uses: the `Order` record, the per-price FIFO `LimitOrder`,
the threaded red-black tree `redBlackBST` and the `sync.Pool` free-list.
Only `orderbook.go` is available as source; the collaborators are modelled
from the specification (sections 3, 4.B, 4.C and 4.D).

Modelling conventions:
- Go pointers are modelled by heaps: `ordersHeap` maps an order tag (the
  identity of a `*Order`) to its current record, `limitsHeap` does the same
  for `*LimitOrder`.  Fresh tags come from the counters `nextOrderTag` and
  `nextLimitTag`.
- Go maps are association lists with first-match lookup; `ainsert` models
  `m[k] = v` and `aerase` models `delete(m, k)`.
- The red-black tree is modelled by its observable contract (spec 4.D): an
  ordered map, kept as a list of key/value pairs sorted strictly by key.
  `MinPointer`/`MaxPointer` plus `Next`/`Prev` walks become the sorted list
  and its reverse.
- int64 prices and volumes are embedded as `Int`; the one explicit
  narrowing in the source, `int16(limit.Size())` in `getBest20`, is
  modelled by `wrap16`.
- A Go panic is modelled by `none`: `clearLimit` panics on a missing price
  (orderbook.go line 427) and `Cancel` dereferences a nil `o.Limit` when a
  registered order was detached by a wipe.
-/

namespace Hft

/-- Keys of an association list. -/
def keysOf {α β : Type} (l : List (α × β)) : List α := l.map Prod.fst

/-- Values of an association list. -/
def valsOf {α β : Type} (l : List (α × β)) : List β := l.map Prod.snd

/-- First-match lookup in an association list (Go map read). -/
def alookup {α β : Type} [DecidableEq α] (k : α) : List (α × β) → Option β
  | [] => none
  | e :: rest => if e.1 = k then some e.2 else alookup k rest

/-- Remove every entry with the given key (Go `delete(m, k)`). -/
def aerase {α β : Type} [DecidableEq α] (k : α) : List (α × β) → List (α × β)
  | [] => []
  | e :: rest => if e.1 = k then aerase k rest else e :: aerase k rest

/-- Write a key (Go `m[k] = v`): the new binding shadows and drops any old one. -/
def ainsert {α β : Type} [DecidableEq α] (k : α) (v : β) (l : List (α × β)) : List (α × β) :=
  (k, v) :: aerase k l

/-- Replace the value stored under an existing key, keeping the list shape
(mutation of the object a pointer refers to). -/
def aupdate {α β : Type} [DecidableEq α] (k : α) (v : β) : List (α × β) → List (α × β)
  | [] => []
  | e :: rest => if e.1 = k then (k, v) :: rest else e :: aupdate k v rest

/-- Insert into the sorted pair list that models `redBlackBST.Put`
(modelled from the spec, section 4.D: ordered map keyed by price;
on a duplicate key the value is replaced). -/
def treePut (price : Int) (lt : Nat) : List (Int × Nat) → List (Int × Nat)
  | [] => [(price, lt)]
  | e :: rest =>
    if price < e.1 then (price, lt) :: e :: rest
    else if price = e.1 then (price, lt) :: rest
    else e :: treePut price lt rest

/-- Removal of the node at a price, `redBlackBST.Delete` (modelled from the
spec, section 4.D: no-op if the key is absent). -/
def treeDelete (price : Int) (l : List (Int × Nat)) : List (Int × Nat) :=
  aerase price l

/-- Signed 16-bit wrap-around, the `int16(...)` conversion in `getBest20`. -/
def wrap16 (n : Int) : Int := (n + 32768) % 65536 - 32768

/-- The `Order` record (modelled from the spec, section 3): id, side
(`true` = bid as in the source's `BidOrAsk`), remaining volume and the
back-reference `Limit` to the level holding it (a limit tag; `none` when
the order is not resting). -/
structure Order where
  id : Int
  bidOrAsk : Bool
  volume : Int
  limit : Option Nat
deriving Repr, DecidableEq

/-- The `LimitOrder` price level (modelled from the spec, sections 3 and
4.B): price, FIFO of resting order tags (head = front), and the
incrementally maintained `size` and `totalVolume`. -/
structure LimitOrder where
  price : Int
  orders : List Nat
  size : Int
  totalVolume : Int
deriving Repr, DecidableEq

/-- One row of a depth report, `OrderDepth` in the source (int64 version:
Price, Volume, OrderCount; OrderCount is an int16 there). -/
structure OrderDepth where
  price : Int
  volume : Int
  orderCount : Int
deriving Repr, DecidableEq

/-- Result record of `GetDepthRank`. -/
structure DepthRank where
  volumeAhead : Int
  totalVolume : Int
  depthLevel : Int
  totalDepth : Int
deriving Repr, DecidableEq

/-- The orderbook state: the fields of the Go `Orderbook` struct plus the
two heaps and tag counters that model pointer identity. -/
structure Book where
  bids : List (Int × Nat)
  asks : List (Int × Nat)
  idToOrderMap : List (Int × Nat)
  bidLimitsCache : List (Int × Nat)
  askLimitsCache : List (Int × Nat)
  ordersHeap : List (Nat × Order)
  limitsHeap : List (Nat × LimitOrder)
  pool : List Nat
  totalBuyVolume : Int
  totalSellVolume : Int
  nextOrderTag : Nat
  nextLimitTag : Nat
deriving Repr, DecidableEq

/-- `NewLimitOrder` (modelled from the spec: a fresh empty level). -/
def NewLimitOrder (price : Int) : LimitOrder := ⟨price, [], 0, 0⟩

/-- `NewOrderbook`: empty trees, empty maps, empty pool, zero totals. -/
def NewOrderbook : Book := ⟨[], [], [], [], [], [], [], [], 0, 0, 0, 0⟩

/-- Dereference a limit tag (a `*LimitOrder`). -/
def limAt (b : Book) (lt : Nat) : LimitOrder := (alookup lt b.limitsHeap).getD (NewLimitOrder 0)

/-- Dereference an order tag (a `*Order`). -/
def ordAt (b : Book) (t : Nat) : Order := (alookup t b.ordersHeap).getD ⟨0, true, 0, none⟩

/-- Store through a limit pointer. -/
def setLim (b : Book) (lt : Nat) (lim : LimitOrder) : Book :=
  {b with limitsHeap := aupdate lt lim b.limitsHeap}

/-- Store through an order pointer. -/
def setOrd (b : Book) (t : Nat) (o : Order) : Book :=
  {b with ordersHeap := aupdate t o b.ordersHeap}

/-- The price-to-level cache of one side (`bidLimitsCache` / `askLimitsCache`). -/
def sideCache (b : Book) (s : Bool) : List (Int × Nat) :=
  if s then b.bidLimitsCache else b.askLimitsCache

/-- The tree of one side (`Bids` / `Asks`). -/
def sideTree (b : Book) (s : Bool) : List (Int × Nat) :=
  if s then b.bids else b.asks

/-- The running per-side volume (`TotalBuyVolume` / `TotalSellVolume`). -/
def sideTotal (b : Book) (s : Bool) : Int :=
  if s then b.totalBuyVolume else b.totalSellVolume

/-- Insert a fresh level into the tree and cache of one side
(`this.Bids.Put(price, limit); this.bidLimitsCache[price] = limit` and the
ask branch, orderbook.go lines 328-334). -/
def putSide (b : Book) (s : Bool) (price : Int) (lt : Nat) : Book :=
  if s then {b with bids := treePut price lt b.bids,
                    bidLimitsCache := ainsert price lt b.bidLimitsCache}
  else {b with asks := treePut price lt b.asks,
               askLimitsCache := ainsert price lt b.askLimitsCache}

/-- Remove an emptied level from the tree and cache of one side
(orderbook.go lines 381-387). -/
def dropSide (b : Book) (s : Bool) (price : Int) : Book :=
  if s then {b with bids := treeDelete price b.bids,
                    bidLimitsCache := aerase price b.bidLimitsCache}
  else {b with asks := treeDelete price b.asks,
               askLimitsCache := aerase price b.askLimitsCache}

/-- Add to the per-side running volume (orderbook.go lines 337-341). -/
def bumpTotal (b : Book) (s : Bool) (v : Int) : Book :=
  if s then {b with totalBuyVolume := b.totalBuyVolume + v}
  else {b with totalSellVolume := b.totalSellVolume + v}

/-- Subtract from the per-side running volume (orderbook.go lines 392-396). -/
def cutTotal (b : Book) (s : Bool) (v : Int) : Book :=
  if s then {b with totalBuyVolume := b.totalBuyVolume - v}
  else {b with totalSellVolume := b.totalSellVolume - v}

/-- `pool.Get` (modelled from the spec, section 4.C: the free-list is a
LIFO stack; when it is empty a fresh `NewLimitOrder(0)` is allocated). -/
def poolGet (b : Book) : Nat × Book :=
  match b.pool with
  | lt :: rest => (lt, {b with pool := rest})
  | [] => (b.nextLimitTag,
           {b with limitsHeap := (b.nextLimitTag, NewLimitOrder 0) :: b.limitsHeap,
                   nextLimitTag := b.nextLimitTag + 1})

/-- `LimitOrder.Enqueue` (modelled from the spec, section 4.B): append the
order at the tail, set its back-reference, bump size and total volume. -/
def Enqueue (b : Book) (lt : Nat) (t : Nat) : Book :=
  let lim := limAt b lt
  let o := ordAt b t
  let b1 := setOrd b t {o with limit := some lt}
  setLim b1 lt {lim with orders := lim.orders ++ [t],
                         size := lim.size + 1,
                         totalVolume := lim.totalVolume + o.volume}

/-- `LimitOrder.Delete` (modelled from the spec, section 4.B): unlink the
order, decrement size and total volume, clear its back-reference. -/
def LimDelete (b : Book) (lt : Nat) (t : Nat) : Book :=
  let lim := limAt b lt
  let o := ordAt b t
  let b1 := setOrd b t {o with limit := none}
  setLim b1 lt {lim with orders := lim.orders.erase t,
                         size := lim.size - 1,
                         totalVolume := lim.totalVolume - o.volume}

/-- Detach a list of orders: reset each back-reference to `none`. -/
def detachAll (ts : List Nat) (b : Book) : Book :=
  ts.foldl (fun acc t => setOrd acc t {ordAt acc t with limit := none}) b

/-- `LimitOrder.Clear` (modelled from the spec, section 4.B): detach every
order in the FIFO (resetting its back-reference) and reset the FIFO, size
and total volume; the price field is kept. -/
def LimClear (b : Book) (lt : Nat) : Book :=
  let lim := limAt b lt
  let b1 := detachAll lim.orders b
  setLim b1 lt {lim with orders := [], size := 0, totalVolume := 0}

/-- `Orderbook.Add` (orderbook.go lines 313-345): find or create the level
on the order's side, register the order by id, bump the per-side total and
enqueue the order.  A fresh heap cell models the caller's `*Order`. -/
def Add (b : Book) (price : Int) (o : Order) : Book :=
  let found := alookup price (sideCache b o.bidOrAsk)
  let step1 : Nat × Book :=
    match found with
    | some lt => (lt, b)
    | none =>
      let got := poolGet b
      let b2 := setLim got.2 got.1 {limAt got.2 got.1 with price := price}
      (got.1, putSide b2 o.bidOrAsk price got.1)
  let lt := step1.1
  let b3 := step1.2
  let t := b3.nextOrderTag
  let b4 := {b3 with ordersHeap := (t, {o with limit := none}) :: b3.ordersHeap,
                     nextOrderTag := b3.nextOrderTag + 1,
                     idToOrderMap := ainsert o.id t b3.idToOrderMap}
  let b5 := bumpTotal b4 o.bidOrAsk o.volume
  Enqueue b5 lt t

/-- `Orderbook.Cancel` (orderbook.go lines 375-400): no-op when the id is
unknown; otherwise unlink from the level's FIFO, drop the level when it
became empty (returning it to the pool), subtract the per-side total and
unregister the id.  `none` models the nil-pointer panic that Go raises
when the registered order was detached by a wipe. -/
def Cancel (b : Book) (order : Order) : Option Book :=
  match alookup order.id b.idToOrderMap with
  | none => some b
  | some t =>
    let o := ordAt b t
    match o.limit with
    | none => none
    | some lt =>
      let b1 := LimDelete b lt t
      let lim := limAt b1 lt
      let b2 :=
        if lim.size = 0 then
          let bd := dropSide b1 o.bidOrAsk lim.price
          {bd with pool := lt :: bd.pool}
        else b1
      let b3 := cutTotal b2 o.bidOrAsk o.volume
      some {b3 with idToOrderMap := aerase o.id b3.idToOrderMap}

/-- `Orderbook.Modify` (orderbook.go lines 347-354): no-op when the id is
unknown, otherwise cancel the resting order and add the new one. -/
def Modify (b : Book) (price : Int) (o : Order) : Option Book :=
  match alookup o.id b.idToOrderMap with
  | none => some b
  | some t =>
    match Cancel b (ordAt b t) with
    | none => none
    | some b1 => some (Add b1 price o)

/-- `Orderbook.Execute` (orderbook.go lines 358-373): for each passed-in
order, if its id is registered cancel the resting order, and when the
resting volume strictly exceeds the passed-in volume re-add the passed-in
order with the residual volume at `price`. -/
def Execute (b : Book) (price : Int) (buyOrder sellOrder : Order) : Option Book :=
  let half1 : Option Book :=
    match alookup buyOrder.id b.idToOrderMap with
    | none => some b
    | some t =>
      let orderBid := ordAt b t
      match Cancel b orderBid with
      | none => none
      | some b1 =>
        if buyOrder.volume < orderBid.volume then
          some (Add b1 price {buyOrder with volume := orderBid.volume - buyOrder.volume})
        else some b1
  match half1 with
  | none => none
  | some b1 =>
    match alookup sellOrder.id b1.idToOrderMap with
    | none => some b1
    | some t =>
      let orderAsk := ordAt b1 t
      match Cancel b1 orderAsk with
      | none => none
      | some b2 =>
        if sellOrder.volume < orderAsk.volume then
          some (Add b2 price {sellOrder with volume := orderAsk.volume - sellOrder.volume})
        else some b2

/-- `Orderbook.clearLimit` (orderbook.go lines 418-431): panic (`none`)
when no level exists at the price, otherwise clear the level's FIFO while
keeping the level in the tree and cache.  The per-side totals are not
touched. -/
def clearLimit (b : Book) (price : Int) (bidOrAsk : Bool) : Option Book :=
  match alookup price (sideCache b bidOrAsk) with
  | none => none
  | some lt => some (LimClear b lt)

/-- `Orderbook.ClearBidLimit`. -/
def ClearBidLimit (b : Book) (price : Int) : Option Book := clearLimit b price true

/-- `Orderbook.ClearAskLimit`. -/
def ClearAskLimit (b : Book) (price : Int) : Option Book := clearLimit b price false

/-- `Orderbook.deleteLimit` (orderbook.go lines 462-468). -/
def deleteLimit (b : Book) (price : Int) (bidOrAsk : Bool) : Book :=
  if bidOrAsk then {b with bids := treeDelete price b.bids}
  else {b with asks := treeDelete price b.asks}

/-- `Orderbook.DeleteBidLimit` (orderbook.go lines 433-446): no-op when
the price is absent; otherwise remove the level from tree and cache, clear
it and return it to the pool.  The per-side totals and the order registry
are not touched. -/
def DeleteBidLimit (b : Book) (price : Int) : Book :=
  match alookup price b.bidLimitsCache with
  | none => b
  | some lt =>
    let b1 := deleteLimit b price true
    let b2 := {b1 with bidLimitsCache := aerase price b1.bidLimitsCache}
    let b3 := LimClear b2 lt
    {b3 with pool := lt :: b3.pool}

/-- `Orderbook.DeleteAskLimit` (orderbook.go lines 448-460). -/
def DeleteAskLimit (b : Book) (price : Int) : Book :=
  match alookup price b.askLimitsCache with
  | none => b
  | some lt =>
    let b1 := deleteLimit b price false
    let b2 := {b1 with askLimitsCache := aerase price b1.askLimitsCache}
    let b3 := LimClear b2 lt
    {b3 with pool := lt :: b3.pool}

/-- Best-to-worst walk of one side: for bids start at `MaxPointer` and
follow `Prev`, for asks start at `MinPointer` and follow `Next`
(spec section 4.D: the neighbor pointers enumerate the nodes in order). -/
def sideWalk (b : Book) (isBuyDepth : Bool) : List (Int × Nat) :=
  if isBuyDepth then b.bids.reverse else b.asks

/-- The depth row emitted for one level (orderbook.go lines 507-510,
including the `int16` narrowing of the size). -/
def depthOfLimit (lim : LimitOrder) : OrderDepth :=
  ⟨lim.price, lim.totalVolume, wrap16 lim.size⟩

/-- `Orderbook.getBest20` (orderbook.go lines 486-520): a slice of exactly
`n` rows; row `i` reports the `i`-th level of the best-to-worst walk and
stays the zero row once the walk is exhausted (or the side is empty). -/
def getBest20 (b : Book) (n : Nat) (isBuyDepth : Bool) : List OrderDepth :=
  (List.range n).map (fun i =>
    match (sideWalk b isBuyDepth).get? i with
    | some e => depthOfLimit (limAt b e.2)
    | none => ⟨0, 0, 0⟩)

/-- `Orderbook.GetNBestBid`. -/
def GetNBestBid (b : Book) (n : Nat) : List OrderDepth := getBest20 b n true

/-- `Orderbook.GetNBestOffer`. -/
def GetNBestOffer (b : Book) (n : Nat) : List OrderDepth := getBest20 b n false

/-- `Orderbook.GetDepthRank` (orderbook.go lines 538-582): walk the whole
side best to worst; every level adds to `totalVolume` and `totalDepth`,
and the levels whose price is at least as favorable as `price` (`≥` for
bids, `≤` for asks, compared on the level's price field) also add to
`volumeAhead` and `depthLevel`. -/
def GetDepthRank (b : Book) (price : Int) (isBuyDepth : Bool) : DepthRank :=
  (sideWalk b isBuyDepth).foldl
    (fun dr e =>
      let lim := limAt b e.2
      let dr1 := {dr with totalVolume := dr.totalVolume + lim.totalVolume,
                          totalDepth := dr.totalDepth + 1}
      if (if isBuyDepth then price ≤ lim.price else lim.price ≤ price) then
        {dr1 with volumeAhead := dr1.volumeAhead + lim.totalVolume,
                  depthLevel := dr1.depthLevel + 1}
      else dr1)
    ⟨0, 0, 0, 0⟩

/-- An order record as a caller constructs it (`Limit` unset). -/
def mkOrder (id : Int) (s : Bool) (v : Int) : Order := ⟨id, s, v, none⟩

/-- One public operation on the book. -/
inductive Op where
  | add (price : Int) (id : Int) (s : Bool) (v : Int)
  | cancel (id : Int)
  | modify (price : Int) (id : Int) (s : Bool) (v : Int)
  | execute (price : Int) (bid : Int) (bs : Bool) (bv : Int) (sid : Int) (ss : Bool) (sv : Int)
  | clearBid (price : Int)
  | clearAsk (price : Int)
  | deleteBid (price : Int)
  | deleteAsk (price : Int)
deriving Repr, DecidableEq

/-- Apply one operation; `none` is a Go panic. -/
def stepOp (b : Book) : Op → Option Book
  | .add price id s v => some (Add b price (mkOrder id s v))
  | .cancel id => Cancel b (mkOrder id true 0)
  | .modify price id s v => Modify b price (mkOrder id s v)
  | .execute price bid bs bv sid ss sv => Execute b price (mkOrder bid bs bv) (mkOrder sid ss sv)
  | .clearBid price => ClearBidLimit b price
  | .clearAsk price => ClearAskLimit b price
  | .deleteBid price => some (DeleteBidLimit b price)
  | .deleteAsk price => some (DeleteAskLimit b price)

/-- Run a sequence of public operations; a panicking call leaves the book
unchanged (every panic in the source fires before any mutation). -/
def run (b : Book) : List Op → Book
  | [] => b
  | op :: ops => run ((stepOp b op).getD b) ops

/-- A book state that some sequence of public operations produces from a
new book. -/
def Reachable (b : Book) : Prop := ∃ ops, run NewOrderbook ops = b

/-- Sum of the levels' `totalVolume` fields over one side's tree. -/
def sumTV (b : Book) (side : List (Int × Nat)) : Int :=
  (side.map (fun e => (limAt b e.2).totalVolume)).sum

/-- The side-total bookkeeping invariant of the claim: each running
per-side volume equals the sum over that side's levels. -/
def VolConsistent (b : Book) : Prop :=
  b.totalBuyVolume = sumTV b b.bids ∧ b.totalSellVolume = sumTV b b.asks

instance (b : Book) : Decidable (VolConsistent b) := by
  unfold VolConsistent; infer_instance

/-- Wipe operations: the two clear paths and the two delete paths. -/
def isWipe : Op → Bool
  | .clearBid _ => true
  | .clearAsk _ => true
  | .deleteBid _ => true
  | .deleteAsk _ => true
  | _ => false

/-- One half of `Execute` as the spec words it (section 4.E), written from
the spec sentences alone for the refinement comparison: if an order with
the given id is registered, cancel the resting order; if the formerly
resting order had strictly more volume than the execution quantity, re-add
the residual at `price`; an unregistered id leaves the book unchanged. -/
def executeSideSpec (b : Book) (price : Int) (o : Order) : Option Book :=
  match alookup o.id b.idToOrderMap with
  | none => some b
  | some t =>
    let resting := ordAt b t
    match Cancel b resting with
    | none => none
    | some b1 =>
      if o.volume < resting.volume then
        some (Add b1 price {o with volume := resting.volume - o.volume})
      else some b1

/-- Sortedness of the list modelling a tree: keys strictly increase. -/
def TSorted (l : List (Int × Nat)) : Prop := l.Pairwise (fun a c => a.1 < c.1)

theorem alookup_eq_none {α β : Type} [DecidableEq α] {k : α} {l : List (α × β)} :
    alookup k l = none ↔ k ∉ keysOf l := by
  induction l with
  | nil => simp [alookup, keysOf]
  | cons e rest ih =>
    by_cases h : e.1 = k
    · simp [alookup, keysOf, h]
    · have hne : k ≠ e.1 := fun hh => h hh.symm
      simp only [alookup, if_neg h, keysOf, List.map_cons, List.mem_cons]
      rw [ih]
      simp [keysOf, hne]

theorem alookup_mem {α β : Type} [DecidableEq α] {k : α} {v : β} {l : List (α × β)}
    (h : alookup k l = some v) : (k, v) ∈ l := by
  induction l with
  | nil => simp [alookup] at h
  | cons e rest ih =>
    by_cases he : e.1 = k <;> simp [alookup, he] at h
    · subst he; cases e; cases h; simp
    · simp [ih h]

theorem alookup_aerase_self {α β : Type} [DecidableEq α] (k : α) (l : List (α × β)) :
    alookup k (aerase k l) = none := by
  induction l with
  | nil => simp [alookup, aerase]
  | cons e rest ih =>
    by_cases he : e.1 = k <;> simp [aerase, he, alookup, ih]

theorem alookup_aerase_ne {α β : Type} [DecidableEq α] {k k' : α} (hne : k' ≠ k)
    (l : List (α × β)) : alookup k' (aerase k l) = alookup k' l := by
  induction l with
  | nil => simp [aerase]
  | cons e rest ih =>
    by_cases he : e.1 = k
    · have h1 : e.1 ≠ k' := by rw [he]; exact fun hh => hne hh.symm
      have h2 : ¬(k = k') := fun hh => hne hh.symm
      simp [aerase, he, alookup, h1, h2, ih]
    · simp [aerase, he, alookup, ih]

theorem aerase_of_none {α β : Type} [DecidableEq α] {k : α} {l : List (α × β)}
    (h : alookup k l = none) : aerase k l = l := by
  induction l with
  | nil => rfl
  | cons e rest ih =>
    by_cases he : e.1 = k <;> simp [alookup, he] at h
    · simp [aerase, he, ih h]

theorem mem_aerase {α β : Type} [DecidableEq α] {k : α} {e : α × β} {l : List (α × β)} :
    e ∈ aerase k l ↔ e ∈ l ∧ e.1 ≠ k := by
  induction l with
  | nil => simp [aerase]
  | cons f rest ih =>
    by_cases hf : f.1 = k
    · rw [aerase, if_pos hf, ih]
      constructor
      · intro hh; exact ⟨List.mem_cons_of_mem f hh.1, hh.2⟩
      · rintro ⟨hm, hne⟩
        cases List.mem_cons.mp hm with
        | inl hh => subst hh; exact absurd hf hne
        | inr hh => exact ⟨hh, hne⟩
    · rw [aerase, if_neg hf, List.mem_cons, List.mem_cons, ih]
      constructor
      · rintro (hh | hh)
        · subst hh; exact ⟨Or.inl rfl, hf⟩
        · exact ⟨Or.inr hh.1, hh.2⟩
      · rintro ⟨hh | hh, hne⟩
        · exact Or.inl hh
        · exact Or.inr ⟨hh, hne⟩

theorem aerase_sublist {α β : Type} [DecidableEq α] (k : α) (l : List (α × β)) :
    (aerase k l).Sublist l := by
  induction l with
  | nil => simp [aerase]
  | cons e rest ih =>
    by_cases he : e.1 = k
    · simp only [aerase, if_pos he]
      exact ih.cons e
    · simp only [aerase, if_neg he]
      exact ih.cons₂ e

theorem alookup_ainsert_self {α β : Type} [DecidableEq α] (k : α) (v : β) (l : List (α × β)) :
    alookup k (ainsert k v l) = some v := by
  simp [ainsert, alookup]

theorem alookup_ainsert_ne {α β : Type} [DecidableEq α] {k k' : α} (hne : k' ≠ k) (v : β)
    (l : List (α × β)) : alookup k' (ainsert k v l) = alookup k' l := by
  have : k ≠ k' := fun hh => hne hh.symm
  simp [ainsert, alookup, this, alookup_aerase_ne hne]

theorem aupdate_of_none {α β : Type} [DecidableEq α] {k : α} {l : List (α × β)} (v : β)
    (h : alookup k l = none) : aupdate k v l = l := by
  induction l with
  | nil => rfl
  | cons e rest ih =>
    by_cases he : e.1 = k <;> simp [alookup, he] at h
    · simp [aupdate, he, ih h]

theorem alookup_aupdate_self {α β : Type} [DecidableEq α] {k : α} {l : List (α × β)} (v : β)
    (h : alookup k l ≠ none) : alookup k (aupdate k v l) = some v := by
  induction l with
  | nil => simp [alookup] at h
  | cons e rest ih =>
    by_cases he : e.1 = k
    · simp [aupdate, he, alookup]
    · simp [alookup, he] at h
      simp [aupdate, he, alookup, ih h]

theorem alookup_aupdate_ne {α β : Type} [DecidableEq α] {k k' : α} (hne : k' ≠ k) (v : β)
    (l : List (α × β)) : alookup k' (aupdate k v l) = alookup k' l := by
  induction l with
  | nil => rfl
  | cons e rest ih =>
    by_cases he : e.1 = k
    · have h2 : ¬(k = k') := fun hh => hne hh.symm
      have h3 : ¬(e.1 = k') := by rw [he]; exact h2
      simp [aupdate, he, alookup, h2, h3]
    · simp [aupdate, he, alookup, ih]

theorem perm_cons_aerase {α β : Type} [DecidableEq α] {k : α} {v : β} {l : List (α × β)}
    (hnd : (keysOf l).Nodup) (h : alookup k l = some v) :
    l.Perm ((k, v) :: aerase k l) := by
  induction l with
  | nil => simp [alookup] at h
  | cons e rest ih =>
    by_cases he : e.1 = k
    · simp only [alookup, if_pos he] at h
      cases h
      have hk : k ∉ keysOf rest := by
        subst he
        simp [keysOf] at hnd
        simpa [keysOf] using hnd.1
      have : aerase k rest = rest := aerase_of_none (alookup_eq_none.mpr hk)
      cases e
      simp only at he
      subst he
      simp [aerase, this]
    · simp only [alookup, if_neg he] at h
      simp only [keysOf, List.map_cons, List.nodup_cons] at hnd
      have hp := ih hnd.2 h
      have h1 : (e :: rest).Perm (e :: (k, v) :: aerase k rest) := hp.cons e
      have h2 : (e :: (k, v) :: aerase k rest).Perm ((k, v) :: e :: aerase k rest) :=
        List.Perm.swap _ _ _
      have h3 : aerase k (e :: rest) = e :: aerase k rest := by simp [aerase, he]
      rw [h3]
      exact h1.trans h2

theorem keysOf_Nodup_ainsert {α β : Type} [DecidableEq α] (k : α) (v : β) {l : List (α × β)}
    (h : (keysOf l).Nodup) : (keysOf (ainsert k v l)).Nodup := by
  have hsub : (keysOf (aerase k l)).Sublist (keysOf l) := (aerase_sublist k l).map Prod.fst
  have hnd : (keysOf (aerase k l)).Nodup := hsub.nodup h
  have hk : k ∉ keysOf (aerase k l) := alookup_eq_none.mp (alookup_aerase_self k l)
  simpa [ainsert, keysOf] using And.intro hk hnd

theorem keysOf_Nodup_aerase {α β : Type} [DecidableEq α] (k : α) {l : List (α × β)}
    (h : (keysOf l).Nodup) : (keysOf (aerase k l)).Nodup :=
  ((aerase_sublist k l).map Prod.fst).nodup h

theorem mem_keysOf_treePut {p q : Int} {lt : Nat} {l : List (Int × Nat)}
    (h : q ∈ keysOf (treePut p lt l)) : q = p ∨ q ∈ keysOf l := by
  induction l with
  | nil => simpa [treePut, keysOf] using h
  | cons e rest ih =>
    by_cases h1 : p < e.1
    · simpa [treePut, h1, keysOf] using h
    · by_cases h2 : p = e.1
      · simp only [treePut, if_neg h1, if_pos h2, keysOf, List.map_cons, List.mem_cons] at h ⊢
        rcases h with h | h
        · exact Or.inl h
        · exact Or.inr (Or.inr h)
      · simp only [treePut, if_neg h1, if_neg h2, keysOf, List.map_cons, List.mem_cons] at h ⊢
        rcases h with h | h
        · exact Or.inr (Or.inl h)
        · rcases ih h with h | h
          · exact Or.inl h
          · exact Or.inr (Or.inr h)

theorem treePut_sorted {p : Int} {lt : Nat} {l : List (Int × Nat)} (hs : TSorted l) :
    TSorted (treePut p lt l) := by
  induction l with
  | nil => simp [treePut, TSorted]
  | cons e rest ih =>
    rw [TSorted, List.pairwise_cons] at hs
    by_cases h1 : p < e.1
    · rw [TSorted, treePut, if_pos h1, List.pairwise_cons]
      refine ⟨?_, ?_⟩
      · intro c hc
        rcases List.mem_cons.mp hc with hh | hh
        · subst hh; exact h1
        · exact h1.trans (hs.1 c hh)
      · rw [List.pairwise_cons]; exact hs
    · by_cases h2 : p = e.1
      · rw [TSorted, treePut, if_neg h1, if_pos h2, List.pairwise_cons]
        exact ⟨fun c hc => h2 ▸ hs.1 c hc, hs.2⟩
      · have hgt : e.1 < p := by omega
        rw [TSorted, treePut, if_neg h1, if_neg h2, List.pairwise_cons]
        refine ⟨?_, ih hs.2⟩
        intro c hc
        have : c.1 = p ∨ c.1 ∈ keysOf rest :=
          mem_keysOf_treePut (by simp [keysOf]; exact ⟨c.2, by simpa using hc⟩)
        rcases this with hh | hh
        · omega
        · simp only [keysOf, List.mem_map] at hh
          obtain ⟨d, hd, hde⟩ := hh
          have := hs.1 d hd
          omega

theorem alookup_treePut_self (p : Int) (lt : Nat) (l : List (Int × Nat)) :
    alookup p (treePut p lt l) = some lt := by
  induction l with
  | nil => simp [treePut, alookup]
  | cons e rest ih =>
    by_cases h1 : p < e.1
    · simp [treePut, h1, alookup]
    · by_cases h2 : p = e.1
      · simp [treePut, h1, h2, alookup]
      · have : e.1 ≠ p := fun hh => h2 hh.symm
        simp [treePut, h1, h2, alookup, this, ih]

theorem alookup_treePut_ne {p q : Int} (hne : q ≠ p) (lt : Nat) (l : List (Int × Nat)) :
    alookup q (treePut p lt l) = alookup q l := by
  have hpq : p ≠ q := fun hh => hne hh.symm
  induction l with
  | nil => simp [treePut, alookup, hpq]
  | cons e rest ih =>
    by_cases h1 : p < e.1
    · simp [treePut, h1, alookup, hpq]
    · by_cases h2 : p = e.1
      · have : e.1 ≠ q := by rw [← h2]; exact hpq
        simp [treePut, h1, h2, alookup, hpq, this]
      · simp [treePut, h1, h2, alookup, ih]

theorem aerase_treePut {p : Int} {l : List (Int × Nat)} (lt : Nat)
    (h : alookup p l = none) : aerase p (treePut p lt l) = l := by
  induction l with
  | nil => simp [treePut, aerase]
  | cons e rest ih =>
    simp only [alookup] at h
    by_cases he : e.1 = p
    · simp [he] at h
    · simp only [if_neg he] at h
      by_cases h1 : p < e.1
      · simp [treePut, h1, aerase, he, aerase_of_none h]
      · by_cases h2 : p = e.1
        · exact absurd h2.symm he
        · simp [treePut, h1, h2, aerase, he, ih h]

theorem treePut_perm {p : Int} {l : List (Int × Nat)} (lt : Nat)
    (h : alookup p l = none) : (treePut p lt l).Perm ((p, lt) :: l) := by
  induction l with
  | nil => simp [treePut]
  | cons e rest ih =>
    simp only [alookup] at h
    by_cases he : e.1 = p
    · simp [he] at h
    · simp only [if_neg he] at h
      by_cases h1 : p < e.1
      · simp [treePut, h1]
      · by_cases h2 : p = e.1
        · exact absurd h2.symm he
        · rw [treePut, if_neg h1, if_neg h2]
          have h4 : (e :: treePut p lt rest).Perm (e :: (p, lt) :: rest) := (ih h).cons e
          have h5 : (e :: (p, lt) :: rest).Perm ((p, lt) :: e :: rest) :=
            List.Perm.swap _ _ _
          exact h4.trans h5

theorem keysOf_Nodup_of_TSorted {l : List (Int × Nat)} (h : TSorted l) :
    (keysOf l).Nodup := by
  have : (keysOf l).Pairwise (fun a c => a < c) := by
    rw [TSorted] at h
    exact (List.pairwise_map).mpr h
  exact this.imp (fun hh => Int.ne_of_lt hh)

theorem alookup_of_mem_nodup {α β : Type} [DecidableEq α] {k : α} {v : β} {l : List (α × β)}
    (hnd : (keysOf l).Nodup) (h : (k, v) ∈ l) : alookup k l = some v := by
  induction l with
  | nil => simp at h
  | cons e rest ih =>
    simp only [keysOf, List.map_cons, List.nodup_cons] at hnd
    rcases List.mem_cons.mp h with hh | hh
    · subst hh; simp [alookup]
    · have hne : e.1 ≠ k := by
        intro hk
        exact hnd.1 (hk ▸ (by simp [keysOf]; exact ⟨v, by simpa using hh⟩))
      simp [alookup, hne, ih hnd.2 hh]

theorem sideCache_true (b : Book) : sideCache b true = b.bidLimitsCache := rfl

theorem sideCache_false (b : Book) : sideCache b false = b.askLimitsCache := rfl

theorem sideTree_true (b : Book) : sideTree b true = b.bids := rfl

theorem sideTree_false (b : Book) : sideTree b false = b.asks := rfl

theorem sideTotal_true (b : Book) : sideTotal b true = b.totalBuyVolume := rfl

theorem sideTotal_false (b : Book) : sideTotal b false = b.totalSellVolume := rfl

theorem alookup_ne_none {α β : Type} [DecidableEq α] {k : α} {l : List (α × β)} :
    alookup k l ≠ none ↔ k ∈ keysOf l := by
  rw [← not_iff_not]
  simpa using alookup_eq_none

theorem keysOf_aupdate {α β : Type} [DecidableEq α] (k : α) (v : β) (l : List (α × β)) :
    keysOf (aupdate k v l) = keysOf l := by
  induction l with
  | nil => rfl
  | cons e rest ih =>
    by_cases he : e.1 = k
    · simp [aupdate, he, keysOf]
    · simp only [aupdate, if_neg he, keysOf, List.map_cons] at ih ⊢
      rw [ih]

theorem aupdate_present {α β : Type} [DecidableEq α] {k k' : α} {l : List (α × β)} (v : β) :
    alookup k (aupdate k' v l) ≠ none ↔ alookup k l ≠ none := by
  rw [alookup_ne_none, alookup_ne_none, keysOf_aupdate]

theorem sideCache_putSide (b : Book) (s s' : Bool) (price : Int) (lt : Nat) :
    sideCache (putSide b s price lt) s' =
      if s' = s then ainsert price lt (sideCache b s') else sideCache b s' := by
  cases s <;> cases s' <;> simp [putSide, sideCache]

theorem sideTree_putSide (b : Book) (s s' : Bool) (price : Int) (lt : Nat) :
    sideTree (putSide b s price lt) s' =
      if s' = s then treePut price lt (sideTree b s') else sideTree b s' := by
  cases s <;> cases s' <;> simp [putSide, sideTree]

theorem sideCache_dropSide (b : Book) (s s' : Bool) (price : Int) :
    sideCache (dropSide b s price) s' =
      if s' = s then aerase price (sideCache b s') else sideCache b s' := by
  cases s <;> cases s' <;> simp [dropSide, sideCache]

theorem sideTree_dropSide (b : Book) (s s' : Bool) (price : Int) :
    sideTree (dropSide b s price) s' =
      if s' = s then treeDelete price (sideTree b s') else sideTree b s' := by
  cases s <;> cases s' <;> simp [dropSide, sideTree]

theorem sideTotal_bumpTotal (b : Book) (s s' : Bool) (v : Int) :
    sideTotal (bumpTotal b s v) s' =
      if s' = s then sideTotal b s' + v else sideTotal b s' := by
  cases s <;> cases s' <;> simp [bumpTotal, sideTotal]

theorem sideTotal_cutTotal (b : Book) (s s' : Bool) (v : Int) :
    sideTotal (cutTotal b s v) s' =
      if s' = s then sideTotal b s' - v else sideTotal b s' := by
  cases s <;> cases s' <;> simp [cutTotal, sideTotal]

theorem putSide_frame (b : Book) (s : Bool) (price : Int) (lt : Nat) :
    (putSide b s price lt).ordersHeap = b.ordersHeap ∧
    (putSide b s price lt).limitsHeap = b.limitsHeap ∧
    (putSide b s price lt).idToOrderMap = b.idToOrderMap ∧
    (putSide b s price lt).pool = b.pool ∧
    (putSide b s price lt).totalBuyVolume = b.totalBuyVolume ∧
    (putSide b s price lt).totalSellVolume = b.totalSellVolume ∧
    (putSide b s price lt).nextOrderTag = b.nextOrderTag ∧
    (putSide b s price lt).nextLimitTag = b.nextLimitTag := by
  cases s <;> simp [putSide]

theorem dropSide_frame (b : Book) (s : Bool) (price : Int) :
    (dropSide b s price).ordersHeap = b.ordersHeap ∧
    (dropSide b s price).limitsHeap = b.limitsHeap ∧
    (dropSide b s price).idToOrderMap = b.idToOrderMap ∧
    (dropSide b s price).pool = b.pool ∧
    (dropSide b s price).totalBuyVolume = b.totalBuyVolume ∧
    (dropSide b s price).totalSellVolume = b.totalSellVolume ∧
    (dropSide b s price).nextOrderTag = b.nextOrderTag ∧
    (dropSide b s price).nextLimitTag = b.nextLimitTag := by
  cases s <;> simp [dropSide]

theorem bumpTotal_frame (b : Book) (s : Bool) (v : Int) :
    (bumpTotal b s v).bids = b.bids ∧
    (bumpTotal b s v).asks = b.asks ∧
    (bumpTotal b s v).idToOrderMap = b.idToOrderMap ∧
    (bumpTotal b s v).bidLimitsCache = b.bidLimitsCache ∧
    (bumpTotal b s v).askLimitsCache = b.askLimitsCache ∧
    (bumpTotal b s v).ordersHeap = b.ordersHeap ∧
    (bumpTotal b s v).limitsHeap = b.limitsHeap ∧
    (bumpTotal b s v).pool = b.pool ∧
    (bumpTotal b s v).nextOrderTag = b.nextOrderTag ∧
    (bumpTotal b s v).nextLimitTag = b.nextLimitTag := by
  cases s <;> simp [bumpTotal]

theorem cutTotal_frame (b : Book) (s : Bool) (v : Int) :
    (cutTotal b s v).bids = b.bids ∧
    (cutTotal b s v).asks = b.asks ∧
    (cutTotal b s v).idToOrderMap = b.idToOrderMap ∧
    (cutTotal b s v).bidLimitsCache = b.bidLimitsCache ∧
    (cutTotal b s v).askLimitsCache = b.askLimitsCache ∧
    (cutTotal b s v).ordersHeap = b.ordersHeap ∧
    (cutTotal b s v).limitsHeap = b.limitsHeap ∧
    (cutTotal b s v).pool = b.pool ∧
    (cutTotal b s v).nextOrderTag = b.nextOrderTag ∧
    (cutTotal b s v).nextLimitTag = b.nextLimitTag := by
  cases s <;> simp [cutTotal]

theorem limAt_setOrd (b : Book) (t : Nat) (o : Order) (lt : Nat) :
    limAt (setOrd b t o) lt = limAt b lt := rfl

theorem ordAt_setLim (b : Book) (lt : Nat) (lim : LimitOrder) (t : Nat) :
    ordAt (setLim b lt lim) t = ordAt b t := rfl

theorem limAt_setLim_self {b : Book} {lt : Nat} (lim : LimitOrder)
    (h : alookup lt b.limitsHeap ≠ none) : limAt (setLim b lt lim) lt = lim := by
  simp [limAt, setLim, alookup_aupdate_self lim h]

theorem limAt_setLim_ne {b : Book} {lt lt' : Nat} (lim : LimitOrder) (h : lt' ≠ lt) :
    limAt (setLim b lt lim) lt' = limAt b lt' := by
  simp [limAt, setLim, alookup_aupdate_ne h]

theorem ordAt_setOrd_self {b : Book} {t : Nat} (o : Order)
    (h : alookup t b.ordersHeap ≠ none) : ordAt (setOrd b t o) t = o := by
  simp [ordAt, setOrd, alookup_aupdate_self o h]

theorem ordAt_setOrd_ne {b : Book} {t t' : Nat} (o : Order) (h : t' ≠ t) :
    ordAt (setOrd b t o) t' = ordAt b t' := by
  simp [ordAt, setOrd, alookup_aupdate_ne h]

theorem setLim_frame (b : Book) (lt : Nat) (lim : LimitOrder) :
    (setLim b lt lim).bids = b.bids ∧
    (setLim b lt lim).asks = b.asks ∧
    (setLim b lt lim).idToOrderMap = b.idToOrderMap ∧
    (setLim b lt lim).bidLimitsCache = b.bidLimitsCache ∧
    (setLim b lt lim).askLimitsCache = b.askLimitsCache ∧
    (setLim b lt lim).ordersHeap = b.ordersHeap ∧
    (setLim b lt lim).pool = b.pool ∧
    (setLim b lt lim).totalBuyVolume = b.totalBuyVolume ∧
    (setLim b lt lim).totalSellVolume = b.totalSellVolume ∧
    (setLim b lt lim).nextOrderTag = b.nextOrderTag ∧
    (setLim b lt lim).nextLimitTag = b.nextLimitTag := by
  simp [setLim]

theorem setOrd_frame (b : Book) (t : Nat) (o : Order) :
    (setOrd b t o).bids = b.bids ∧
    (setOrd b t o).asks = b.asks ∧
    (setOrd b t o).idToOrderMap = b.idToOrderMap ∧
    (setOrd b t o).bidLimitsCache = b.bidLimitsCache ∧
    (setOrd b t o).askLimitsCache = b.askLimitsCache ∧
    (setOrd b t o).limitsHeap = b.limitsHeap ∧
    (setOrd b t o).pool = b.pool ∧
    (setOrd b t o).totalBuyVolume = b.totalBuyVolume ∧
    (setOrd b t o).totalSellVolume = b.totalSellVolume ∧
    (setOrd b t o).nextOrderTag = b.nextOrderTag ∧
    (setOrd b t o).nextLimitTag = b.nextLimitTag := by
  simp [setOrd]

theorem aupdate_aupdate {α β : Type} [DecidableEq α] (k : α) (v1 v2 : β) (l : List (α × β)) :
    aupdate k v2 (aupdate k v1 l) = aupdate k v2 l := by
  induction l with
  | nil => rfl
  | cons e rest ih =>
    by_cases he : e.1 = k
    · simp [aupdate, he]
    · simp [aupdate, he, ih]

theorem detachAll_frame (ts : List Nat) (b : Book) :
    (detachAll ts b).bids = b.bids ∧
    (detachAll ts b).asks = b.asks ∧
    (detachAll ts b).idToOrderMap = b.idToOrderMap ∧
    (detachAll ts b).bidLimitsCache = b.bidLimitsCache ∧
    (detachAll ts b).askLimitsCache = b.askLimitsCache ∧
    (detachAll ts b).limitsHeap = b.limitsHeap ∧
    (detachAll ts b).pool = b.pool ∧
    (detachAll ts b).totalBuyVolume = b.totalBuyVolume ∧
    (detachAll ts b).totalSellVolume = b.totalSellVolume ∧
    (detachAll ts b).nextOrderTag = b.nextOrderTag ∧
    (detachAll ts b).nextLimitTag = b.nextLimitTag := by
  induction ts generalizing b with
  | nil => simp [detachAll]
  | cons t0 rest ih =>
    have := ih (setOrd b t0 {ordAt b t0 with limit := none})
    simpa [detachAll, setOrd] using this

theorem detachAll_keys (ts : List Nat) (b : Book) :
    keysOf (detachAll ts b).ordersHeap = keysOf b.ordersHeap := by
  induction ts generalizing b with
  | nil => rfl
  | cons t0 rest ih =>
    have := ih (setOrd b t0 {ordAt b t0 with limit := none})
    rw [detachAll, List.foldl_cons] at *
    rw [this]
    simp [setOrd, keysOf_aupdate]

theorem detachAll_present {ts : List Nat} {b : Book} {t : Nat} :
    alookup t (detachAll ts b).ordersHeap ≠ none ↔ alookup t b.ordersHeap ≠ none := by
  rw [alookup_ne_none, alookup_ne_none, detachAll_keys]

theorem ordAt_detachAll_notmem {ts : List Nat} {b : Book} {t : Nat} (h : t ∉ ts) :
    ordAt (detachAll ts b) t = ordAt b t := by
  induction ts generalizing b with
  | nil => rfl
  | cons t0 rest ih =>
    have hne : t ≠ t0 := fun hh => h (hh ▸ List.mem_cons_self t0 rest)
    have hrest : t ∉ rest := fun hh => h (List.mem_cons_of_mem t0 hh)
    simp only [detachAll, List.foldl_cons]
    simp only [detachAll] at ih
    rw [ih hrest]
    exact ordAt_setOrd_ne _ hne

theorem ordAt_detachAll_mem {ts : List Nat} {b : Book} {t : Nat} (h : t ∈ ts)
    (hpres : alookup t b.ordersHeap ≠ none) :
    ordAt (detachAll ts b) t = {ordAt b t with limit := none} := by
  induction ts generalizing b with
  | nil => simp at h
  | cons t0 rest ih =>
    simp only [detachAll, List.foldl_cons]
    simp only [detachAll] at ih
    by_cases hr : t ∈ rest
    · by_cases ht0 : t = t0
      · subst ht0
        have hpres2 : alookup t (setOrd b t {ordAt b t with limit := none}).ordersHeap ≠ none := by
          simpa [setOrd] using
            (@aupdate_present Nat Order _ t t b.ordersHeap
              {ordAt b t with limit := none}).mpr hpres
        rw [ih hr hpres2, ordAt_setOrd_self _ hpres]
      · have hpres2 : alookup t (setOrd b t0 {ordAt b t0 with limit := none}).ordersHeap ≠ none := by
          simpa [setOrd] using
            (@aupdate_present Nat Order _ t t0 b.ordersHeap
              {ordAt b t0 with limit := none}).mpr hpres
        rw [ih hr hpres2, ordAt_setOrd_ne _ ht0]
    · have ht0 : t = t0 := by
        cases List.mem_cons.mp h with
        | inl hh => exact hh
        | inr hh => exact absurd hh hr
      subst ht0
      have hnm := @ordAt_detachAll_notmem rest
        (setOrd b t {ordAt b t with limit := none}) t hr
      simp only [detachAll] at hnm
      rw [hnm, ordAt_setOrd_self _ hpres]

theorem limAt_detachAll (ts : List Nat) (b : Book) (lt : Nat) :
    limAt (detachAll ts b) lt = limAt b lt := by
  rw [limAt, limAt, (detachAll_frame ts b).2.2.2.2.2.1]

theorem limClear_frame (b : Book) (lt : Nat) :
    (LimClear b lt).bids = b.bids ∧
    (LimClear b lt).asks = b.asks ∧
    (LimClear b lt).idToOrderMap = b.idToOrderMap ∧
    (LimClear b lt).bidLimitsCache = b.bidLimitsCache ∧
    (LimClear b lt).askLimitsCache = b.askLimitsCache ∧
    (LimClear b lt).pool = b.pool ∧
    (LimClear b lt).totalBuyVolume = b.totalBuyVolume ∧
    (LimClear b lt).totalSellVolume = b.totalSellVolume ∧
    (LimClear b lt).nextOrderTag = b.nextOrderTag ∧
    (LimClear b lt).nextLimitTag = b.nextLimitTag := by
  have hf := detachAll_frame (limAt b lt).orders b
  simp [LimClear, setLim]
  exact ⟨hf.1, hf.2.1, hf.2.2.1, hf.2.2.2.1, hf.2.2.2.2.1, hf.2.2.2.2.2.2.1,
    hf.2.2.2.2.2.2.2.1, hf.2.2.2.2.2.2.2.2.1, hf.2.2.2.2.2.2.2.2.2.1,
    hf.2.2.2.2.2.2.2.2.2.2⟩

theorem limClear_ordersHeap (b : Book) (lt : Nat) :
    (LimClear b lt).ordersHeap = (detachAll (limAt b lt).orders b).ordersHeap := by
  simp [LimClear, setLim]

theorem limAt_limClear_self {b : Book} {lt : Nat} (hpres : alookup lt b.limitsHeap ≠ none) :
    limAt (LimClear b lt) lt = {limAt b lt with orders := [], size := 0, totalVolume := 0} := by
  have hpres2 : alookup lt (detachAll (limAt b lt).orders b).limitsHeap ≠ none := by
    rw [(detachAll_frame (limAt b lt).orders b).2.2.2.2.2.1]; exact hpres
  rw [LimClear]
  have := @limAt_setLim_self (detachAll (limAt b lt).orders b) lt
    {limAt b lt with orders := [], size := 0, totalVolume := 0} hpres2
  simpa using this

theorem limAt_limClear_ne {b : Book} {lt lt' : Nat} (h : lt' ≠ lt) :
    limAt (LimClear b lt) lt' = limAt b lt' := by
  rw [LimClear]
  have h1 := @limAt_setLim_ne (detachAll (limAt b lt).orders b) lt lt'
    {limAt b lt with orders := [], size := 0, totalVolume := 0} h
  simp only at h1 ⊢
  rw [h1, limAt_detachAll]

theorem Add_found {b : Book} {p : Int} {o : Order} {lt : Nat}
    (hfound : alookup p (sideCache b o.bidOrAsk) = some lt) :
    Add b p o = {b with
      idToOrderMap := ainsert o.id b.nextOrderTag b.idToOrderMap,
      ordersHeap := (b.nextOrderTag, {o with limit := some lt}) :: b.ordersHeap,
      limitsHeap := aupdate lt {limAt b lt with
        orders := (limAt b lt).orders ++ [b.nextOrderTag],
        size := (limAt b lt).size + 1,
        totalVolume := (limAt b lt).totalVolume + o.volume} b.limitsHeap,
      totalBuyVolume := if o.bidOrAsk then b.totalBuyVolume + o.volume else b.totalBuyVolume,
      totalSellVolume := if o.bidOrAsk then b.totalSellVolume else b.totalSellVolume + o.volume,
      nextOrderTag := b.nextOrderTag + 1} := by
  cases o with
  | mk oid os ov olim =>
    cases os
    all_goals
      simp only [sideCache_true, sideCache_false] at hfound
      simp [Add, sideCache, hfound, Enqueue, bumpTotal, setOrd, setLim, ordAt, limAt, aupdate]
      try simp [alookup]

theorem Add_new_pool {b : Book} {p : Int} {o : Order} {lt : Nat} {rest : List Nat}
    (hmiss : alookup p (sideCache b o.bidOrAsk) = none)
    (hpool : b.pool = lt :: rest)
    (hpres : alookup lt b.limitsHeap ≠ none) :
    Add b p o = {b with
      bids := if o.bidOrAsk then treePut p lt b.bids else b.bids,
      asks := if o.bidOrAsk then b.asks else treePut p lt b.asks,
      bidLimitsCache := if o.bidOrAsk then ainsert p lt b.bidLimitsCache else b.bidLimitsCache,
      askLimitsCache := if o.bidOrAsk then b.askLimitsCache else ainsert p lt b.askLimitsCache,
      idToOrderMap := ainsert o.id b.nextOrderTag b.idToOrderMap,
      ordersHeap := (b.nextOrderTag, {o with limit := some lt}) :: b.ordersHeap,
      limitsHeap := aupdate lt {limAt b lt with
        price := p,
        orders := (limAt b lt).orders ++ [b.nextOrderTag],
        size := (limAt b lt).size + 1,
        totalVolume := (limAt b lt).totalVolume + o.volume} b.limitsHeap,
      pool := rest,
      totalBuyVolume := if o.bidOrAsk then b.totalBuyVolume + o.volume else b.totalBuyVolume,
      totalSellVolume := if o.bidOrAsk then b.totalSellVolume else b.totalSellVolume + o.volume,
      nextOrderTag := b.nextOrderTag + 1} := by
  have hsetp : limAt (setLim {b with pool := rest} lt
      {limAt b lt with price := p}) lt = {limAt b lt with price := p} := by
    exact limAt_setLim_self _ hpres
  cases o with
  | mk oid os ov olim =>
    cases os
    all_goals
      simp only [sideCache_true, sideCache_false] at hmiss
      simp only [Add, sideCache, hmiss, poolGet, hpool, putSide, Enqueue, bumpTotal,
        setOrd, setLim, if_true, if_false] at hsetp ⊢
      simp only [limAt, setLim] at hsetp
      simp [ordAt, limAt, hsetp, aupdate_aupdate, alookup, aupdate, hmiss]
      try simp [alookup]

theorem Add_new_fresh {b : Book} {p : Int} {o : Order}
    (hmiss : alookup p (sideCache b o.bidOrAsk) = none)
    (hpool : b.pool = []) :
    Add b p o = {b with
      bids := if o.bidOrAsk then treePut p b.nextLimitTag b.bids else b.bids,
      asks := if o.bidOrAsk then b.asks else treePut p b.nextLimitTag b.asks,
      bidLimitsCache := if o.bidOrAsk then ainsert p b.nextLimitTag b.bidLimitsCache
        else b.bidLimitsCache,
      askLimitsCache := if o.bidOrAsk then b.askLimitsCache
        else ainsert p b.nextLimitTag b.askLimitsCache,
      idToOrderMap := ainsert o.id b.nextOrderTag b.idToOrderMap,
      ordersHeap := (b.nextOrderTag, {o with limit := some b.nextLimitTag}) :: b.ordersHeap,
      limitsHeap := (b.nextLimitTag, ⟨p, [b.nextOrderTag], 1, o.volume⟩) :: b.limitsHeap,
      totalBuyVolume := if o.bidOrAsk then b.totalBuyVolume + o.volume else b.totalBuyVolume,
      totalSellVolume := if o.bidOrAsk then b.totalSellVolume else b.totalSellVolume + o.volume,
      nextOrderTag := b.nextOrderTag + 1,
      nextLimitTag := b.nextLimitTag + 1} := by
  cases o with
  | mk oid os ov olim =>
    cases os
    all_goals
      simp only [sideCache_true, sideCache_false] at hmiss
      simp [Add, sideCache, hmiss, poolGet, hpool, putSide, Enqueue, bumpTotal,
        setOrd, setLim, ordAt, limAt, aupdate, alookup, NewLimitOrder]
      try simp [alookup]

theorem Cancel_notfound {b : Book} {order : Order}
    (h : alookup order.id b.idToOrderMap = none) : Cancel b order = some b := by
  simp [Cancel, h]

theorem Cancel_detached {b : Book} {order : Order} {t : Nat}
    (hreg : alookup order.id b.idToOrderMap = some t)
    (hlim : (ordAt b t).limit = none) : Cancel b order = none := by
  simp [Cancel, hreg, hlim]

theorem Cancel_found {b : Book} {order : Order} {t lt : Nat}
    (hreg : alookup order.id b.idToOrderMap = some t)
    (hlim : (ordAt b t).limit = some lt)
    (hpres : alookup lt b.limitsHeap ≠ none) :
    Cancel b order = some (
      if (limAt b lt).size - 1 = 0 then
        {b with
          bids := if (ordAt b t).bidOrAsk then treeDelete (limAt b lt).price b.bids else b.bids,
          asks := if (ordAt b t).bidOrAsk then b.asks else treeDelete (limAt b lt).price b.asks,
          bidLimitsCache := if (ordAt b t).bidOrAsk then
            aerase (limAt b lt).price b.bidLimitsCache else b.bidLimitsCache,
          askLimitsCache := if (ordAt b t).bidOrAsk then b.askLimitsCache
            else aerase (limAt b lt).price b.askLimitsCache,
          idToOrderMap := aerase (ordAt b t).id b.idToOrderMap,
          ordersHeap := aupdate t {ordAt b t with limit := none} b.ordersHeap,
          limitsHeap := aupdate lt {limAt b lt with
            orders := (limAt b lt).orders.erase t,
            size := (limAt b lt).size - 1,
            totalVolume := (limAt b lt).totalVolume - (ordAt b t).volume} b.limitsHeap,
          pool := lt :: b.pool,
          totalBuyVolume := if (ordAt b t).bidOrAsk then
            b.totalBuyVolume - (ordAt b t).volume else b.totalBuyVolume,
          totalSellVolume := if (ordAt b t).bidOrAsk then b.totalSellVolume
            else b.totalSellVolume - (ordAt b t).volume}
      else
        {b with
          idToOrderMap := aerase (ordAt b t).id b.idToOrderMap,
          ordersHeap := aupdate t {ordAt b t with limit := none} b.ordersHeap,
          limitsHeap := aupdate lt {limAt b lt with
            orders := (limAt b lt).orders.erase t,
            size := (limAt b lt).size - 1,
            totalVolume := (limAt b lt).totalVolume - (ordAt b t).volume} b.limitsHeap,
          totalBuyVolume := if (ordAt b t).bidOrAsk then
            b.totalBuyVolume - (ordAt b t).volume else b.totalBuyVolume,
          totalSellVolume := if (ordAt b t).bidOrAsk then b.totalSellVolume
            else b.totalSellVolume - (ordAt b t).volume}) := by
  have hdel : limAt (LimDelete b lt t) lt = {limAt b lt with
      orders := (limAt b lt).orders.erase t,
      size := (limAt b lt).size - 1,
      totalVolume := (limAt b lt).totalVolume - (ordAt b t).volume} := by
    have hpres2 : alookup lt (setOrd b t {ordAt b t with limit := none}).limitsHeap ≠ none := by
      simpa [setOrd] using hpres
    have := @limAt_setLim_self (setOrd b t {ordAt b t with limit := none}) lt
      {limAt b lt with
        orders := (limAt b lt).orders.erase t,
        size := (limAt b lt).size - 1,
        totalVolume := (limAt b lt).totalVolume - (ordAt b t).volume} hpres2
    simpa [LimDelete, limAt_setOrd] using this
  by_cases hsz : (limAt b lt).size - 1 = 0 <;> cases hs : (ordAt b t).bidOrAsk
  all_goals
    simp only [Cancel, hreg, hlim]
    rw [hdel]
    simp only [hs, hsz]
    simp [LimDelete, dropSide, cutTotal, setLim, setOrd, hs, hsz]
    try simp [alookup, aupdate]

/-- All limit tags owned by the book: the live levels of both caches plus
the free-list (spec section 3: no level is simultaneously in the free-list
and in either index). -/
def limTags (b : Book) : List Nat :=
  valsOf b.bidLimitsCache ++ valsOf b.askLimitsCache ++ b.pool

/-- Well-formedness of one live price level: the heap holds its record,
the record's price is the index key, size and total volume agree with the
FIFO, and every FIFO member is a heap-resident order of the right side
whose back-reference points here. -/
structure LimOK (b : Book) (s : Bool) (p : Int) (lt : Nat) : Prop where
  present : alookup lt b.limitsHeap ≠ none
  priceEq : (limAt b lt).price = p
  sizeEq : (limAt b lt).size = ((limAt b lt).orders.length : Int)
  volEq : (limAt b lt).totalVolume =
    (((limAt b lt).orders).map (fun u => (ordAt b u).volume)).sum
  nodup : (limAt b lt).orders.Nodup
  mem : ∀ u ∈ (limAt b lt).orders,
    alookup u b.ordersHeap ≠ none ∧ (ordAt b u).limit = some lt ∧
    (ordAt b u).bidOrAsk = s ∧ u < b.nextOrderTag

/-- The structural invariant every reachable book satisfies. -/
structure Inv (b : Book) : Prop where
  sorted : ∀ s, TSorted (sideTree b s)
  mirror : ∀ s p, alookup p (sideCache b s) = alookup p (sideTree b s)
  cacheNodup : ∀ s, (keysOf (sideCache b s)).Nodup
  lims : ∀ s p lt, alookup p (sideCache b s) = some lt → LimOK b s p lt
  liveNodup : (limTags b).Nodup
  poolOK : ∀ lt ∈ b.pool, alookup lt b.limitsHeap ≠ none ∧
    (limAt b lt).orders = [] ∧ (limAt b lt).size = 0 ∧ (limAt b lt).totalVolume = 0
  limBound : ∀ lt ∈ limTags b, lt < b.nextLimitTag
  regOK : ∀ i t, alookup i b.idToOrderMap = some t →
    alookup t b.ordersHeap ≠ none ∧ (ordAt b t).id = i ∧ t < b.nextOrderTag ∧
    ∀ lt, (ordAt b t).limit = some lt →
      alookup ((limAt b lt).price) (sideCache b (ordAt b t).bidOrAsk) = some lt ∧
      t ∈ (limAt b lt).orders

theorem Inv_new : Inv NewOrderbook := by
  refine ⟨?_, ?_, ?_, ?_, ?_, ?_, ?_, ?_⟩
  · intro s; cases s <;> simp [sideTree, NewOrderbook, TSorted]
  · intro s p; cases s <;> simp [sideTree, sideCache, NewOrderbook, alookup]
  · intro s; cases s <;> simp [sideCache, NewOrderbook, keysOf]
  · intro s p lt h; cases s <;> simp [sideCache, NewOrderbook, alookup] at h
  · simp [limTags, NewOrderbook, valsOf]
  · intro lt h; simp [NewOrderbook] at h
  · intro lt h; simp [limTags, NewOrderbook, valsOf] at h
  · intro i t h; simp [NewOrderbook, alookup] at h

theorem vals_inj {α β : Type} [DecidableEq α] {l : List (α × β)} {k1 k2 : α} {v : β}
    (hnd : (valsOf l).Nodup) (h1 : (k1, v) ∈ l) (h2 : (k2, v) ∈ l) : k1 = k2 := by
  induction l with
  | nil => simp at h1
  | cons e rest ih =>
    simp only [valsOf, List.map_cons, List.nodup_cons] at hnd
    rcases List.mem_cons.mp h1 with hh1 | hh1 <;> rcases List.mem_cons.mp h2 with hh2 | hh2
    · rw [← hh2] at hh1; exact congrArg Prod.fst hh1
    · exfalso
      refine hnd.1 ?_
      rw [← hh1]
      simp only [valsOf, List.mem_map]
      exact ⟨(k2, v), hh2, rfl⟩
    · exfalso
      refine hnd.1 ?_
      rw [← hh2]
      simp only [valsOf, List.mem_map]
      exact ⟨(k1, v), hh1, rfl⟩
    · exact ih hnd.2 hh1 hh2

theorem mem_valsOf_of_alookup {α β : Type} [DecidableEq α] {l : List (α × β)} {k : α} {v : β}
    (h : alookup k l = some v) : v ∈ valsOf l := by
  simp only [valsOf, List.mem_map]
  exact ⟨(k, v), alookup_mem h, rfl⟩

theorem mem_limTags_cache {b : Book} {s : Bool} {p : Int} {lt : Nat}
    (h : alookup p (sideCache b s) = some lt) : lt ∈ limTags b := by
  have hv := mem_valsOf_of_alookup h
  cases s <;> simp [sideCache] at hv <;> simp [limTags, hv]

theorem mem_limTags_pool {b : Book} {lt : Nat} (h : lt ∈ b.pool) : lt ∈ limTags b := by
  simp [limTags, h]

/-- Decomposition of the live-tag distinctness invariant. -/
theorem liveNodup_parts {b : Book} (h : Inv b) :
    (valsOf b.bidLimitsCache).Nodup ∧ (valsOf b.askLimitsCache).Nodup ∧ b.pool.Nodup ∧
    (valsOf b.bidLimitsCache).Disjoint (valsOf b.askLimitsCache) ∧
    (valsOf b.bidLimitsCache).Disjoint b.pool ∧
    (valsOf b.askLimitsCache).Disjoint b.pool := by
  have h0 := h.liveNodup
  rw [limTags, List.nodup_append] at h0
  obtain ⟨hAB, hP, hdisj⟩ := h0
  rw [List.nodup_append] at hAB
  obtain ⟨hA, hB, hABdis⟩ := hAB
  rw [List.disjoint_append_left] at hdisj
  exact ⟨hA, hB, hP, hABdis, hdisj.1, hdisj.2⟩

/-- Inside one book, live cache entries on the two sides and the pool are
pairwise disjoint, and a tag determines its side and price. -/
theorem live_tag_inj {b : Book} (h : Inv b) {s1 s2 : Bool} {p1 p2 : Int} {lt : Nat}
    (h1 : alookup p1 (sideCache b s1) = some lt)
    (h2 : alookup p2 (sideCache b s2) = some lt) : s1 = s2 ∧ p1 = p2 := by
  obtain ⟨hA, hB, hP, hAB, hAP, hBP⟩ := liveNodup_parts h
  have hm1 := mem_valsOf_of_alookup h1
  have hm2 := mem_valsOf_of_alookup h2
  by_cases hs : s1 = s2
  · subst hs
    refine ⟨rfl, ?_⟩
    cases s1
    · simp only [sideCache_false] at h1 h2
      exact vals_inj hB (alookup_mem h1) (alookup_mem h2)
    · simp only [sideCache_true] at h1 h2
      exact vals_inj hA (alookup_mem h1) (alookup_mem h2)
  · exfalso
    cases s1 <;> cases s2 <;> try exact hs rfl
    · simp only [sideCache_false] at hm1
      simp only [sideCache_true] at hm2
      exact hAB hm2 hm1
    · simp only [sideCache_true] at hm1
      simp only [sideCache_false] at hm2
      exact hAB hm1 hm2

/-- A live tag is never in the pool. -/
theorem live_not_pool {b : Book} (h : Inv b) {s : Bool} {p : Int} {lt : Nat}
    (hc : alookup p (sideCache b s) = some lt) : lt ∉ b.pool := by
  intro hp
  obtain ⟨hA, hB, hP, hAB, hAP, hBP⟩ := liveNodup_parts h
  have hm := mem_valsOf_of_alookup hc
  cases s
  · simp only [sideCache_false] at hm
    exact hBP hm hp
  · simp only [sideCache_true] at hm
    exact hAP hm hp

/-- Transfer well-formedness of an untouched level to a changed book. -/
theorem LimOK_transfer {b b2 : Book} {s : Bool} {p : Int} {lt : Nat}
    (hk : LimOK b s p lt)
    (hlim : limAt b2 lt = limAt b lt)
    (hpres : alookup lt b2.limitsHeap ≠ none)
    (hords : ∀ u ∈ (limAt b lt).orders, ordAt b2 u = ordAt b u ∧
      alookup u b2.ordersHeap ≠ none)
    (hmono : b.nextOrderTag ≤ b2.nextOrderTag) : LimOK b2 s p lt := by
  refine ⟨hpres, ?_, ?_, ?_, ?_, ?_⟩
  · rw [hlim]; exact hk.priceEq
  · rw [hlim]; exact hk.sizeEq
  · rw [hlim]
    rw [hk.volEq]
    refine congrArg List.sum ?_
    refine List.map_congr_left ?_
    intro u hu
    rw [(hords u hu).1]
  · rw [hlim]; exact hk.nodup
  · rw [hlim]
    intro u hu
    obtain ⟨hp1, hp2, hp3, hp4⟩ := hk.mem u hu
    obtain ⟨ho1, ho2⟩ := hords u hu
    exact ⟨ho2, by rw [ho1]; exact hp2, by rw [ho1]; exact hp3, lt_of_lt_of_le hp4 hmono⟩

theorem alookup_cons_self {α β : Type} [DecidableEq α] (k : α) (v : β) (l : List (α × β)) :
    alookup k ((k, v) :: l) = some v := by simp [alookup]

theorem alookup_cons_ne {α β : Type} [DecidableEq α] {k k2 : α} (v : β) (l : List (α × β))
    (h : k2 ≠ k) : alookup k ((k2, v) :: l) = alookup k l := by simp [alookup, h]

theorem Inv_Add_found_gen {b b2 : Book} {o : Order} {p : Int} {lt : Nat} (h : Inv b)
    (hc : alookup p (sideCache b o.bidOrAsk) = some lt)
    (hbids : b2.bids = b.bids) (hasks : b2.asks = b.asks)
    (hbc : b2.bidLimitsCache = b.bidLimitsCache) (hac : b2.askLimitsCache = b.askLimitsCache)
    (hreg : b2.idToOrderMap = ainsert o.id b.nextOrderTag b.idToOrderMap)
    (hoh : b2.ordersHeap = (b.nextOrderTag, {o with limit := some lt}) :: b.ordersHeap)
    (hlh : b2.limitsHeap = aupdate lt {limAt b lt with
      orders := (limAt b lt).orders ++ [b.nextOrderTag],
      size := (limAt b lt).size + 1,
      totalVolume := (limAt b lt).totalVolume + o.volume} b.limitsHeap)
    (hpool : b2.pool = b.pool)
    (hnot : b2.nextOrderTag = b.nextOrderTag + 1)
    (hnlt : b2.nextLimitTag = b.nextLimitTag) :
    Inv b2 := by
  have hKold := h.lims _ _ _ hc
  have hpres := hKold.present
  have hsc : ∀ s, sideCache b2 s = sideCache b s := by
    intro s; cases s <;> simp [sideCache, hbc, hac]
  have hst : ∀ s, sideTree b2 s = sideTree b s := by
    intro s; cases s <;> simp [sideTree, hbids, hasks]
  have hlim2 : limAt b2 lt = {limAt b lt with
      orders := (limAt b lt).orders ++ [b.nextOrderTag],
      size := (limAt b lt).size + 1,
      totalVolume := (limAt b lt).totalVolume + o.volume} := by
    rw [limAt, hlh, alookup_aupdate_self _ hpres]
    rfl
  have hlimne : ∀ lt2, lt2 ≠ lt → limAt b2 lt2 = limAt b lt2 := by
    intro lt2 hne
    rw [limAt, hlh, alookup_aupdate_ne hne, limAt]
  have hpres2 : ∀ lt2, alookup lt2 b.limitsHeap ≠ none → alookup lt2 b2.limitsHeap ≠ none := by
    intro lt2 hp
    rw [hlh]
    exact (aupdate_present _).mpr hp
  have hordne : ∀ u, u < b.nextOrderTag → ordAt b2 u = ordAt b u := by
    intro u hu
    rw [ordAt, hoh, alookup_cons_ne _ _ (Nat.ne_of_gt hu), ordAt]
  have hordpres : ∀ u, alookup u b.ordersHeap ≠ none → alookup u b2.ordersHeap ≠ none := by
    intro u hp
    rw [hoh]
    by_cases hu : u = b.nextOrderTag
    · subst hu; rw [alookup_cons_self]; simp
    · rw [alookup_cons_ne _ _ (fun hh => hu hh.symm)]; exact hp
  have hordT : ordAt b2 b.nextOrderTag = {o with limit := some lt} := by
    rw [ordAt, hoh, alookup_cons_self]
    rfl
  have hlt : limTags b2 = limTags b := by
    rw [limTags, limTags, hbc, hac, hpool]
  refine ⟨?_, ?_, ?_, ?_, ?_, ?_, ?_, ?_⟩
  · intro s; rw [hst]; exact h.sorted s
  · intro s q; rw [hsc, hst]; exact h.mirror s q
  · intro s; rw [hsc]; exact h.cacheNodup s
  · intro s q lt2 hcl
    rw [hsc] at hcl
    have hK := h.lims _ _ _ hcl
    by_cases hne : lt2 = lt
    · subst hne
      obtain ⟨hs, hq⟩ := live_tag_inj h hcl hc
      subst hs; subst hq
      refine ⟨hpres2 _ hpres, ?_, ?_, ?_, ?_, ?_⟩
      · rw [hlim2]; exact hK.priceEq
      · rw [hlim2]
        simp only [List.length_append, List.length_cons, List.length_nil]
        rw [hK.sizeEq]
        push_cast
        ring
      · have hmap : ((limAt b lt2).orders).map (fun u => (ordAt b2 u).volume)
            = ((limAt b lt2).orders).map (fun u => (ordAt b u).volume) :=
          List.map_congr_left (fun u hu => by rw [hordne u (hK.mem u hu).2.2.2])
        rw [hlim2]
        simp only [List.map_append, List.sum_append, List.map_cons, List.map_nil,
          List.sum_cons, List.sum_nil, hordT, hmap]
        rw [hK.volEq]
        simp
      · rw [hlim2]
        simp only [List.nodup_append, List.nodup_cons, List.nodup_nil]
        refine ⟨hK.nodup, by simp, ?_⟩
        intro u hu
        simp only [List.mem_singleton]
        intro hh
        rw [hh] at hu
        exact absurd (hK.mem _ hu).2.2.2 (lt_irrefl _)
      · rw [hlim2]
        intro u hu
        simp only [List.mem_append, List.mem_singleton] at hu
        rcases hu with hu | hu
        · obtain ⟨hm1, hm2, hm3, hm4⟩ := hK.mem u hu
          refine ⟨hordpres u hm1, ?_, ?_, ?_⟩
          · rw [hordne u hm4]; exact hm2
          · rw [hordne u hm4]; exact hm3
          · rw [hnot]; omega
        · subst hu
          refine ⟨?_, ?_, ?_, ?_⟩
          · rw [hoh, alookup_cons_self]; simp
          · rw [hordT]
          · rw [hordT]
          · rw [hnot]; omega
    · refine LimOK_transfer hK (hlimne lt2 hne) ?_ ?_ ?_
      · exact hpres2 _ hK.present
      · intro u hu
        exact ⟨hordne u (hK.mem u hu).2.2.2, hordpres u (hK.mem u hu).1⟩
      · rw [hnot]; omega
  · rw [hlt]; exact h.liveNodup
  · intro lt2 hp
    rw [hpool] at hp
    obtain ⟨hp1, hp2, hp3, hp4⟩ := h.poolOK lt2 hp
    have hne : lt2 ≠ lt := by
      intro hh
      exact live_not_pool h hc (hh ▸ hp)
    rw [hlimne lt2 hne]
    exact ⟨hpres2 _ hp1, hp2, hp3, hp4⟩
  · rw [hlt, hnlt]; exact h.limBound
  · intro i t hit
    rw [hreg] at hit
    by_cases hi : i = o.id
    · subst hi
      rw [alookup_ainsert_self] at hit
      cases hit
      refine ⟨?_, ?_, ?_, ?_⟩
      · rw [hoh, alookup_cons_self]; simp
      · rw [hordT]
      · rw [hnot]; omega
      · intro lt2 hl2
        rw [hordT] at hl2
        simp only at hl2
        cases hl2
        rw [hordT]
        simp only
        constructor
        · rw [hsc, hlim2]
          simp only
          rw [hKold.priceEq]
          exact hc
        · rw [hlim2]
          simp
    · rw [alookup_ainsert_ne hi] at hit
      obtain ⟨hr1, hr2, hr3, hr4⟩ := h.regOK i t hit
      refine ⟨hordpres t hr1, ?_, ?_, ?_⟩
      · rw [hordne t hr3]; exact hr2
      · rw [hnot]; omega
      · intro lt2 hl2
        rw [hordne t hr3] at hl2
        obtain ⟨hr5, hr6⟩ := hr4 lt2 hl2
        rw [hordne t hr3, hsc]
        by_cases hne : lt2 = lt
        · subst hne
          rw [hlim2]
          simp only
          refine ⟨hr5, ?_⟩
          simp [hr6]
        · rw [hlimne lt2 hne]
          exact ⟨hr5, hr6⟩

theorem Inv_Add_found {b : Book} {p : Int} {o : Order} {lt : Nat} (h : Inv b)
    (hc : alookup p (sideCache b o.bidOrAsk) = some lt) : Inv (Add b p o) := by
  rw [Add_found hc]
  exact Inv_Add_found_gen h hc rfl rfl rfl rfl rfl rfl rfl rfl rfl rfl

theorem Inv_Add_new_gen {b b2 : Book} {o : Order} {p : Int} {lt : Nat} (h : Inv b)
    (hmiss : alookup p (sideCache b o.bidOrAsk) = none)
    (hnotlive : ∀ s q, alookup q (sideCache b s) ≠ some lt)
    (hbids : b2.bids = if o.bidOrAsk then treePut p lt b.bids else b.bids)
    (hasks : b2.asks = if o.bidOrAsk then b.asks else treePut p lt b.asks)
    (hbc : b2.bidLimitsCache =
      if o.bidOrAsk then ainsert p lt b.bidLimitsCache else b.bidLimitsCache)
    (hac : b2.askLimitsCache =
      if o.bidOrAsk then b.askLimitsCache else ainsert p lt b.askLimitsCache)
    (hreg : b2.idToOrderMap = ainsert o.id b.nextOrderTag b.idToOrderMap)
    (hoh : b2.ordersHeap = (b.nextOrderTag, {o with limit := some lt}) :: b.ordersHeap)
    (hlimself : limAt b2 lt = ⟨p, [b.nextOrderTag], 1, o.volume⟩)
    (hpresself : alookup lt b2.limitsHeap ≠ none)
    (hlimne : ∀ lt2, lt2 ≠ lt → limAt b2 lt2 = limAt b lt2)
    (hpres2 : ∀ lt2, lt2 ≠ lt → alookup lt2 b.limitsHeap ≠ none →
      alookup lt2 b2.limitsHeap ≠ none)
    (hnot : b2.nextOrderTag = b.nextOrderTag + 1)
    (hpoolmem : ∀ x ∈ b2.pool, x ∈ b.pool ∧ x ≠ lt)
    (hlive : (limTags b2).Nodup)
    (hbound : ∀ x ∈ limTags b2, x < b2.nextLimitTag) :
    Inv b2 := by
  have hstree : ∀ s, sideTree b2 s =
      if s = o.bidOrAsk then treePut p lt (sideTree b s) else sideTree b s := by
    intro s; cases s <;> cases hob : o.bidOrAsk <;> simp [sideTree, hbids, hasks, hob]
  have hscache : ∀ s, sideCache b2 s =
      if s = o.bidOrAsk then ainsert p lt (sideCache b s) else sideCache b s := by
    intro s; cases s <;> cases hob : o.bidOrAsk <;> simp [sideCache, hbc, hac, hob]
  have hordne : ∀ u, u < b.nextOrderTag → ordAt b2 u = ordAt b u := by
    intro u hu
    rw [ordAt, hoh, alookup_cons_ne _ _ (Nat.ne_of_gt hu), ordAt]
  have hordpres : ∀ u, alookup u b.ordersHeap ≠ none → alookup u b2.ordersHeap ≠ none := by
    intro u hp
    rw [hoh]
    by_cases hu : u = b.nextOrderTag
    · subst hu; rw [alookup_cons_self]; simp
    · rw [alookup_cons_ne _ _ (fun hh => hu hh.symm)]; exact hp
  have hordT : ordAt b2 b.nextOrderTag = {o with limit := some lt} := by
    rw [ordAt, hoh, alookup_cons_self]
    rfl
  have htransfer : ∀ s q lt2, alookup q (sideCache b s) = some lt2 → LimOK b2 s q lt2 := by
    intro s q lt2 hcl
    have hK := h.lims s q lt2 hcl
    have hne : lt2 ≠ lt := fun hh => hnotlive s q (hh ▸ hcl)
    refine LimOK_transfer hK (hlimne lt2 hne) (hpres2 lt2 hne hK.present) ?_ ?_
    · intro u hu
      exact ⟨hordne u (hK.mem u hu).2.2.2, hordpres u (hK.mem u hu).1⟩
    · rw [hnot]; omega
  refine ⟨?_, ?_, ?_, ?_, ?_, ?_, ?_, ?_⟩
  · intro s
    rw [hstree]
    by_cases hs : s = o.bidOrAsk
    · rw [if_pos hs]; exact treePut_sorted (h.sorted s)
    · rw [if_neg hs]; exact h.sorted s
  · intro s q
    rw [hstree, hscache]
    by_cases hs : s = o.bidOrAsk
    · rw [if_pos hs, if_pos hs]
      by_cases hq : q = p
      · subst hq
        rw [alookup_ainsert_self, alookup_treePut_self]
      · rw [alookup_ainsert_ne hq, alookup_treePut_ne hq]
        exact h.mirror s q
    · rw [if_neg hs, if_neg hs]; exact h.mirror s q
  · intro s
    rw [hscache]
    by_cases hs : s = o.bidOrAsk
    · rw [if_pos hs]; exact keysOf_Nodup_ainsert p lt (h.cacheNodup s)
    · rw [if_neg hs]; exact h.cacheNodup s
  · intro s q lt2 hcl
    rw [hscache] at hcl
    by_cases hs : s = o.bidOrAsk
    · rw [if_pos hs] at hcl
      by_cases hq : q = p
      · subst hq
        rw [alookup_ainsert_self] at hcl
        cases hcl
        refine ⟨hpresself, ?_, ?_, ?_, ?_, ?_⟩
        · rw [hlimself]
        · rw [hlimself]; rfl
        · rw [hlimself]
          simp [hordT]
        · rw [hlimself]; simp
        · rw [hlimself]
          intro u hu
          simp only [List.mem_singleton] at hu
          subst hu
          refine ⟨?_, ?_, ?_, ?_⟩
          · rw [hoh, alookup_cons_self]; simp
          · rw [hordT]
          · rw [hordT, hs]
          · rw [hnot]; omega
      · rw [alookup_ainsert_ne hq] at hcl
        exact htransfer s q lt2 hcl
    · rw [if_neg hs] at hcl
      exact htransfer s q lt2 hcl
  · exact hlive
  · intro x hx
    obtain ⟨hxb, hxne⟩ := hpoolmem x hx
    obtain ⟨hp1, hp2, hp3, hp4⟩ := h.poolOK x hxb
    rw [hlimne x hxne]
    exact ⟨hpres2 x hxne hp1, hp2, hp3, hp4⟩
  · exact hbound
  · intro i t hit
    rw [hreg] at hit
    by_cases hi : i = o.id
    · subst hi
      rw [alookup_ainsert_self] at hit
      cases hit
      refine ⟨?_, ?_, ?_, ?_⟩
      · rw [hoh, alookup_cons_self]; simp
      · rw [hordT]
      · rw [hnot]; omega
      · intro lt2 hl2
        rw [hordT] at hl2
        simp only at hl2
        cases hl2
        rw [hordT]
        simp only
        constructor
        · rw [hscache, if_pos rfl, hlimself]
          simp only
          rw [alookup_ainsert_self]
        · rw [hlimself]
          simp
    · rw [alookup_ainsert_ne hi] at hit
      obtain ⟨hr1, hr2, hr3, hr4⟩ := h.regOK i t hit
      refine ⟨hordpres t hr1, ?_, ?_, ?_⟩
      · rw [hordne t hr3]; exact hr2
      · rw [hnot]; omega
      · intro lt2 hl2
        rw [hordne t hr3] at hl2
        obtain ⟨hr5, hr6⟩ := hr4 lt2 hl2
        have hne : lt2 ≠ lt := fun hh =>
          hnotlive (ordAt b t).bidOrAsk ((limAt b lt2).price) (hh ▸ hr5)
        rw [hordne t hr3, hscache, hlimne lt2 hne]
        by_cases hs : (ordAt b t).bidOrAsk = o.bidOrAsk
        · rw [if_pos hs]
          have hqp : (limAt b lt2).price ≠ p := by
            intro hh
            rw [hh, hs] at hr5
            rw [hmiss] at hr5
            exact Option.noConfusion hr5
          rw [alookup_ainsert_ne hqp]
          exact ⟨hr5, hr6⟩
        · rw [if_neg hs]
          exact ⟨hr5, hr6⟩

theorem perm_cons_out_mid {α : Type} (A B C : List α) (x : α) :
    (A ++ (x :: B) ++ C).Perm (x :: (A ++ B ++ C)) := by
  rw [List.append_assoc, List.append_assoc]
  have h1 : (A ++ x :: (B ++ C)).Perm (x :: (A ++ (B ++ C))) := List.perm_middle
  exact h1

theorem perm_cons_out_right {α : Type} (A B C : List α) (x : α) :
    (A ++ B ++ (x :: C)).Perm (x :: (A ++ B ++ C)) := by
  have h1 : ((A ++ B) ++ x :: C).Perm (x :: ((A ++ B) ++ C)) := List.perm_middle
  exact h1

theorem vals_ainsert_of_none {α β : Type} [DecidableEq α] {k : α} {l : List (α × β)} (v : β)
    (h : alookup k l = none) : valsOf (ainsert k v l) = v :: valsOf l := by
  rw [ainsert, aerase_of_none h]
  rfl

theorem Inv_Add_newpool {b : Book} {p : Int} {o : Order} {lt : Nat} {rest : List Nat}
    (h : Inv b)
    (hmiss : alookup p (sideCache b o.bidOrAsk) = none)
    (hpool : b.pool = lt :: rest) : Inv (Add b p o) := by
  have hltmem : lt ∈ b.pool := by rw [hpool]; exact List.mem_cons_self _ _
  obtain ⟨hp1, hp2, hp3, hp4⟩ := h.poolOK lt hltmem
  have hperm : (valsOf (if o.bidOrAsk then ainsert p lt b.bidLimitsCache
        else b.bidLimitsCache) ++
      valsOf (if o.bidOrAsk then b.askLimitsCache
        else ainsert p lt b.askLimitsCache) ++
      rest).Perm (limTags b) := by
    rw [limTags, hpool]
    cases hob : o.bidOrAsk
    · rw [hob] at hmiss
      simp only [sideCache_false] at hmiss
      rw [if_neg (by simp), if_neg (by simp), vals_ainsert_of_none lt hmiss]
      exact (perm_cons_out_mid _ _ _ _).trans (perm_cons_out_right _ _ _ _).symm
    · rw [hob] at hmiss
      simp only [sideCache_true] at hmiss
      rw [if_pos rfl, if_pos rfl, vals_ainsert_of_none lt hmiss]
      have hl : ((lt :: valsOf b.bidLimitsCache) ++ valsOf b.askLimitsCache ++ rest)
          = lt :: (valsOf b.bidLimitsCache ++ valsOf b.askLimitsCache ++ rest) := by simp
      rw [hl]
      exact (perm_cons_out_right _ _ _ _).symm
  rw [Add_new_pool hmiss hpool hp1]
  refine Inv_Add_new_gen h hmiss ?_ rfl rfl rfl rfl rfl rfl ?_ ?_ ?_ ?_ rfl ?_ ?_ ?_
  · intro s q hq
    exact live_not_pool h hq hltmem
  · rw [limAt]
    simp only
    rw [alookup_aupdate_self _ hp1]
    simp only [Option.getD_some]
    rw [hp2, hp3, hp4]
    simp
  · exact (aupdate_present _).mpr hp1
  · intro lt2 hne
    rw [limAt, limAt]
    simp only
    rw [alookup_aupdate_ne hne]
    rfl
  · intro lt2 hne hpr
    exact (aupdate_present _).mpr hpr
  · intro x hx
    simp only at hx
    have hnd := (liveNodup_parts h).2.2.1
    rw [hpool, List.nodup_cons] at hnd
    constructor
    · rw [hpool]; exact List.mem_cons_of_mem _ hx
    · intro hh; exact hnd.1 (hh ▸ hx)
  · show (limTags _).Nodup
    rw [limTags]
    simp only
    exact (List.Perm.nodup_iff hperm).mpr h.liveNodup
  · intro x hx
    rw [limTags] at hx
    simp only at hx
    exact h.limBound x (hperm.mem_iff.mp hx)

theorem Inv_Add_fresh {b : Book} {p : Int} {o : Order}
    (h : Inv b)
    (hmiss : alookup p (sideCache b o.bidOrAsk) = none)
    (hpool : b.pool = []) : Inv (Add b p o) := by
  have hnotlive : ∀ s q, alookup q (sideCache b s) ≠ some b.nextLimitTag := by
    intro s q hq
    exact absurd (h.limBound _ (mem_limTags_cache hq)) (lt_irrefl _)
  have hfresh : b.nextLimitTag ∉ limTags b := by
    intro hh
    exact absurd (h.limBound _ hh) (lt_irrefl _)
  have hperm : (valsOf (if o.bidOrAsk then ainsert p b.nextLimitTag b.bidLimitsCache
        else b.bidLimitsCache) ++
      valsOf (if o.bidOrAsk then b.askLimitsCache
        else ainsert p b.nextLimitTag b.askLimitsCache) ++
      b.pool).Perm (b.nextLimitTag :: limTags b) := by
    rw [limTags]
    cases hob : o.bidOrAsk
    · rw [hob] at hmiss
      simp only [sideCache_false] at hmiss
      rw [if_neg (by simp), if_neg (by simp), vals_ainsert_of_none _ hmiss]
      exact perm_cons_out_mid _ _ _ _
    · rw [hob] at hmiss
      simp only [sideCache_true] at hmiss
      rw [if_pos rfl, if_pos rfl, vals_ainsert_of_none _ hmiss]
      simp
  rw [Add_new_fresh hmiss hpool]
  refine Inv_Add_new_gen h hmiss hnotlive rfl rfl rfl rfl rfl rfl ?_ ?_ ?_ ?_ rfl ?_ ?_ ?_
  · rw [limAt]
    simp only
    rw [alookup_cons_self]
    rfl
  · rw [alookup_cons_self]
    simp
  · intro lt2 hne
    rw [limAt, limAt]
    simp only
    rw [alookup_cons_ne _ _ (fun hh => hne hh.symm)]
  · intro lt2 hne hpr
    rw [alookup_cons_ne _ _ (fun hh => hne hh.symm)]
    exact hpr
  · intro x hx
    simp only at hx
    rw [hpool] at hx
    simp at hx
  · show (limTags _).Nodup
    rw [limTags]
    simp only
    refine (List.Perm.nodup_iff hperm).mpr ?_
    rw [List.nodup_cons]
    exact ⟨hfresh, h.liveNodup⟩
  · intro x hx
    rw [limTags] at hx
    simp only at hx
    rcases List.mem_cons.mp (hperm.mem_iff.mp hx) with hh | hh
    · rw [hh]
      show b.nextLimitTag < b.nextLimitTag + 1
      omega
    · have := h.limBound x hh
      show x < b.nextLimitTag + 1
      omega

theorem Inv_Add {b : Book} (h : Inv b) (p : Int) (o : Order) : Inv (Add b p o) := by
  cases hc : alookup p (sideCache b o.bidOrAsk) with
  | some lt => exact Inv_Add_found h hc
  | none =>
    cases hpool : b.pool with
    | nil => exact Inv_Add_fresh h hc hpool
    | cons lt rest => exact Inv_Add_newpool h hc hpool

theorem Inv_Cancel_stays_gen {b b2 : Book} {t lt : Nat} (h : Inv b)
    (hlive : alookup ((limAt b lt).price) (sideCache b (ordAt b t).bidOrAsk) = some lt)
    (htofs : t ∈ (limAt b lt).orders)
    (hbids : b2.bids = b.bids) (hasks : b2.asks = b.asks)
    (hbc : b2.bidLimitsCache = b.bidLimitsCache) (hac : b2.askLimitsCache = b.askLimitsCache)
    (hreg : b2.idToOrderMap = aerase (ordAt b t).id b.idToOrderMap)
    (hoh : b2.ordersHeap = aupdate t {ordAt b t with limit := none} b.ordersHeap)
    (hlh : b2.limitsHeap = aupdate lt {limAt b lt with
      orders := (limAt b lt).orders.erase t,
      size := (limAt b lt).size - 1,
      totalVolume := (limAt b lt).totalVolume - (ordAt b t).volume} b.limitsHeap)
    (hpool : b2.pool = b.pool)
    (hnot : b2.nextOrderTag = b.nextOrderTag)
    (hnlt : b2.nextLimitTag = b.nextLimitTag) :
    Inv b2 := by
  have hK := h.lims _ _ _ hlive
  have hpres := hK.present
  have hsc : ∀ s, sideCache b2 s = sideCache b s := by
    intro s; cases s <;> simp [sideCache, hbc, hac]
  have hst : ∀ s, sideTree b2 s = sideTree b s := by
    intro s; cases s <;> simp [sideTree, hbids, hasks]
  have hlim2 : limAt b2 lt = {limAt b lt with
      orders := (limAt b lt).orders.erase t,
      size := (limAt b lt).size - 1,
      totalVolume := (limAt b lt).totalVolume - (ordAt b t).volume} := by
    rw [limAt, hlh, alookup_aupdate_self _ hpres]
    rfl
  have hlimne : ∀ lt2, lt2 ≠ lt → limAt b2 lt2 = limAt b lt2 := by
    intro lt2 hne
    rw [limAt, hlh, alookup_aupdate_ne hne, limAt]
  have hpres2 : ∀ lt2, alookup lt2 b.limitsHeap ≠ none → alookup lt2 b2.limitsHeap ≠ none := by
    intro lt2 hp
    rw [hlh]
    exact (aupdate_present _).mpr hp
  have hordne : ∀ u, u ≠ t → ordAt b2 u = ordAt b u := by
    intro u hu
    rw [ordAt, hoh, alookup_aupdate_ne hu, ordAt]
  have hordpres : ∀ u, alookup u b.ordersHeap ≠ none → alookup u b2.ordersHeap ≠ none := by
    intro u hp
    rw [hoh]
    exact (aupdate_present _).mpr hp
  have htno : t ∉ (limAt b lt).orders.erase t := hK.nodup.not_mem_erase
  have hmemerase : ∀ u ∈ (limAt b lt).orders.erase t, u ∈ (limAt b lt).orders ∧ u ≠ t := by
    intro u hu
    refine ⟨(List.erase_sublist t (limAt b lt).orders).mem hu, ?_⟩
    intro hh
    exact htno (hh ▸ hu)
  have hlimt : (ordAt b t).limit = some lt := (hK.mem t htofs).2.1
  have hlt : limTags b2 = limTags b := by
    rw [limTags, limTags, hbc, hac, hpool]
  refine ⟨?_, ?_, ?_, ?_, ?_, ?_, ?_, ?_⟩
  · intro s; rw [hst]; exact h.sorted s
  · intro s q; rw [hsc, hst]; exact h.mirror s q
  · intro s; rw [hsc]; exact h.cacheNodup s
  · intro s2 p2 lt2 hcl
    rw [hsc] at hcl
    have hK2 := h.lims _ _ _ hcl
    by_cases hne : lt2 = lt
    · subst hne
      obtain ⟨hs2, hp2⟩ := live_tag_inj h hcl hlive
      subst hs2; subst hp2
      refine ⟨hpres2 _ hpres, ?_, ?_, ?_, ?_, ?_⟩
      · rw [hlim2]
      · rw [hlim2]
        simp only
        rw [List.length_erase_of_mem htofs, hK.sizeEq]
        have hpos : 0 < (limAt b lt2).orders.length := List.length_pos_of_mem htofs
        omega
      · have hperm2 : (limAt b lt2).orders.Perm (t :: (limAt b lt2).orders.erase t) :=
          List.perm_cons_erase htofs
        have hsum : ((limAt b lt2).orders.map (fun u => (ordAt b u).volume)).sum
            = (ordAt b t).volume +
              (((limAt b lt2).orders.erase t).map (fun u => (ordAt b u).volume)).sum := by
          have h5 := (hperm2.map (fun u => (ordAt b u).volume)).sum_eq
          simpa using h5
        have hmap : ((limAt b lt2).orders.erase t).map (fun u => (ordAt b2 u).volume)
            = ((limAt b lt2).orders.erase t).map (fun u => (ordAt b u).volume) :=
          List.map_congr_left (fun u hu => by rw [hordne u (hmemerase u hu).2])
        rw [hlim2]
        simp only [hmap]
        rw [hK.volEq, hsum]
        ring
      · rw [hlim2]
        simp only
        exact hK.nodup.erase t
      · rw [hlim2]
        intro u hu
        simp only at hu
        obtain ⟨hm, hune⟩ := hmemerase u hu
        obtain ⟨hm1, hm2, hm3, hm4⟩ := hK.mem u hm
        refine ⟨hordpres u hm1, ?_, ?_, ?_⟩
        · rw [hordne u hune]; exact hm2
        · rw [hordne u hune]; exact hm3
        · rw [hnot]; exact hm4
    · refine LimOK_transfer hK2 (hlimne lt2 hne) (hpres2 _ hK2.present) ?_ ?_
      · intro u hu
        have hune : u ≠ t := by
          intro hh
          rw [hh] at hu
          have := (hK2.mem t hu).2.1
          rw [hlimt] at this
          exact hne (Option.some.inj this).symm
        exact ⟨hordne u hune, hordpres u (hK2.mem u hu).1⟩
      · rw [hnot]
  · rw [hlt]; exact h.liveNodup
  · intro x hx
    rw [hpool] at hx
    obtain ⟨hp1, hp2, hp3, hp4⟩ := h.poolOK x hx
    have hne : x ≠ lt := fun hh => live_not_pool h hlive (hh ▸ hx)
    rw [hlimne x hne]
    exact ⟨hpres2 _ hp1, hp2, hp3, hp4⟩
  · rw [hlt, hnlt]; exact h.limBound
  · intro i t2 hit
    rw [hreg] at hit
    have hine : i ≠ (ordAt b t).id := by
      intro hh
      rw [hh, alookup_aerase_self] at hit
      exact Option.noConfusion hit
    rw [alookup_aerase_ne hine] at hit
    obtain ⟨hr1, hr2, hr3, hr4⟩ := h.regOK i t2 hit
    have ht2ne : t2 ≠ t := by
      intro hh
      rw [hh] at hr2
      exact hine hr2.symm
    refine ⟨hordpres t2 hr1, ?_, ?_, ?_⟩
    · rw [hordne t2 ht2ne]; exact hr2
    · rw [hnot]; exact hr3
    · intro lt2 hl2
      rw [hordne t2 ht2ne] at hl2
      obtain ⟨hr5, hr6⟩ := hr4 lt2 hl2
      rw [hordne t2 ht2ne, hsc]
      by_cases hne : lt2 = lt
      · subst hne
        constructor
        · rw [hlim2]
          exact hr5
        · rw [hlim2]
          simp only
          exact (List.mem_erase_of_ne ht2ne).mpr hr6
      · rw [hlimne lt2 hne]
        exact ⟨hr5, hr6⟩

theorem limTags_perm_droplevel {b : Book} {s : Bool} {P : Int} {lt : Nat} (h : Inv b)
    (hlive : alookup P (sideCache b s) = some lt) :
    (valsOf (if s then aerase P b.bidLimitsCache else b.bidLimitsCache) ++
      valsOf (if s then b.askLimitsCache else aerase P b.askLimitsCache) ++
      (lt :: b.pool)).Perm (limTags b) := by
  rw [limTags]
  cases s
  · simp only [sideCache_false] at hlive
    rw [if_neg (by simp), if_neg (by simp)]
    have hv : (valsOf b.askLimitsCache).Perm (lt :: valsOf (aerase P b.askLimitsCache)) := by
      have hp := perm_cons_aerase (h.cacheNodup false) hlive
      have := hp.map Prod.snd
      simpa [valsOf] using this
    have h1 : (valsOf b.bidLimitsCache ++ valsOf (aerase P b.askLimitsCache) ++
        (lt :: b.pool)).Perm
        (lt :: (valsOf b.bidLimitsCache ++ valsOf (aerase P b.askLimitsCache) ++ b.pool)) :=
      perm_cons_out_right _ _ _ _
    have h2 : (valsOf b.bidLimitsCache ++ valsOf b.askLimitsCache ++ b.pool).Perm
        (valsOf b.bidLimitsCache ++ (lt :: valsOf (aerase P b.askLimitsCache)) ++ b.pool) :=
      (List.Perm.append_left (valsOf b.bidLimitsCache) hv).append_right b.pool
    exact h1.trans (h2.trans (perm_cons_out_mid _ _ _ _)).symm
  · simp only [sideCache_true] at hlive
    rw [if_pos rfl, if_pos rfl]
    have hv : (valsOf b.bidLimitsCache).Perm (lt :: valsOf (aerase P b.bidLimitsCache)) := by
      have hp := perm_cons_aerase (h.cacheNodup true) hlive
      have := hp.map Prod.snd
      simpa [valsOf] using this
    have h1 : (valsOf (aerase P b.bidLimitsCache) ++ valsOf b.askLimitsCache ++
        (lt :: b.pool)).Perm
        (lt :: (valsOf (aerase P b.bidLimitsCache) ++ valsOf b.askLimitsCache ++ b.pool)) :=
      perm_cons_out_right _ _ _ _
    have h2 : (valsOf b.bidLimitsCache ++ valsOf b.askLimitsCache ++ b.pool).Perm
        ((lt :: valsOf (aerase P b.bidLimitsCache)) ++ valsOf b.askLimitsCache ++ b.pool) :=
      (hv.append_right _).append_right _
    have h3 : ((lt :: valsOf (aerase P b.bidLimitsCache)) ++ valsOf b.askLimitsCache ++ b.pool)
        = lt :: (valsOf (aerase P b.bidLimitsCache) ++ valsOf b.askLimitsCache ++ b.pool) := by
      simp
    exact h1.trans (h3 ▸ h2).symm

theorem Inv_drop_empty_gen {b b2 : Book} {s : Bool} {P : Int} {lt : Nat} (h : Inv b)
    (hlive : alookup P (sideCache b s) = some lt)
    (hempty : (limAt b lt).orders = [])
    (hbids : b2.bids = if s then treeDelete P b.bids else b.bids)
    (hasks : b2.asks = if s then b.asks else treeDelete P b.asks)
    (hbc : b2.bidLimitsCache = if s then aerase P b.bidLimitsCache else b.bidLimitsCache)
    (hac : b2.askLimitsCache = if s then b.askLimitsCache else aerase P b.askLimitsCache)
    (hreg : b2.idToOrderMap = b.idToOrderMap)
    (hoh : b2.ordersHeap = b.ordersHeap)
    (hlh : b2.limitsHeap = b.limitsHeap)
    (hpool : b2.pool = lt :: b.pool)
    (hnot : b2.nextOrderTag = b.nextOrderTag)
    (hnlt : b2.nextLimitTag = b.nextLimitTag) :
    Inv b2 := by
  have hK := h.lims _ _ _ hlive
  have hsz : (limAt b lt).size = 0 := by rw [hK.sizeEq, hempty]; rfl
  have htv : (limAt b lt).totalVolume = 0 := by rw [hK.volEq, hempty]; rfl
  have hscache : ∀ s2, sideCache b2 s2 =
      if s2 = s then aerase P (sideCache b s2) else sideCache b s2 := by
    intro s2; cases s <;> cases s2 <;> simp [sideCache, hbc, hac]
  have hstree : ∀ s2, sideTree b2 s2 =
      if s2 = s then treeDelete P (sideTree b s2) else sideTree b s2 := by
    intro s2; cases s <;> cases s2 <;> simp [sideTree, hbids, hasks]
  have hlim : ∀ x, limAt b2 x = limAt b x := by
    intro x; rw [limAt, hlh, limAt]
  have hord : ∀ u, ordAt b2 u = ordAt b u := by
    intro u; rw [ordAt, hoh, ordAt]
  have hlpres : ∀ x, alookup x b.limitsHeap ≠ none → alookup x b2.limitsHeap ≠ none := by
    intro x hp; rw [hlh]; exact hp
  have hopres : ∀ u, alookup u b.ordersHeap ≠ none → alookup u b2.ordersHeap ≠ none := by
    intro u hp; rw [hoh]; exact hp
  have hperm := limTags_perm_droplevel h hlive
  have hlt2 : limTags b2 = valsOf (if s then aerase P b.bidLimitsCache else b.bidLimitsCache) ++
      valsOf (if s then b.askLimitsCache else aerase P b.askLimitsCache) ++ (lt :: b.pool) := by
    rw [limTags, hpool]
    cases s <;> rw [hbc, hac]
  refine ⟨?_, ?_, ?_, ?_, ?_, ?_, ?_, ?_⟩
  · intro s2
    rw [hstree]
    by_cases hs2 : s2 = s
    · rw [if_pos hs2]
      exact List.Pairwise.sublist (aerase_sublist P (sideTree b s2)) (h.sorted s2)
    · rw [if_neg hs2]; exact h.sorted s2
  · intro s2 q
    rw [hstree, hscache]
    by_cases hs2 : s2 = s
    · rw [if_pos hs2, if_pos hs2]
      by_cases hq : q = P
      · subst hq
        rw [treeDelete, alookup_aerase_self, alookup_aerase_self]
      · rw [treeDelete, alookup_aerase_ne hq, alookup_aerase_ne hq]
        exact h.mirror s2 q
    · rw [if_neg hs2, if_neg hs2]; exact h.mirror s2 q
  · intro s2
    rw [hscache]
    by_cases hs2 : s2 = s
    · rw [if_pos hs2]; exact keysOf_Nodup_aerase P (h.cacheNodup s2)
    · rw [if_neg hs2]; exact h.cacheNodup s2
  · intro s2 q lt2 hcl
    rw [hscache] at hcl
    have hcl2 : alookup q (sideCache b s2) = some lt2 := by
      by_cases hs2 : s2 = s
      · rw [if_pos hs2] at hcl
        by_cases hq : q = P
        · rw [hq, alookup_aerase_self] at hcl
          exact Option.noConfusion hcl
        · rw [alookup_aerase_ne hq] at hcl
          exact hcl
      · rw [if_neg hs2] at hcl
        exact hcl
    have hK2 := h.lims _ _ _ hcl2
    refine LimOK_transfer hK2 (hlim lt2) (hlpres _ hK2.present) ?_ ?_
    · intro u hu
      exact ⟨hord u, hopres u (hK2.mem u hu).1⟩
    · rw [hnot]
  · rw [hlt2]
    exact (List.Perm.nodup_iff hperm).mpr h.liveNodup
  · intro x hx
    rw [hpool] at hx
    rcases List.mem_cons.mp hx with hh | hh
    · subst hh
      rw [hlim x]
      exact ⟨hlpres _ hK.present, hempty, hsz, htv⟩
    · obtain ⟨hp1, hp2, hp3, hp4⟩ := h.poolOK x hh
      rw [hlim x]
      exact ⟨hlpres _ hp1, hp2, hp3, hp4⟩
  · intro x hx
    rw [hlt2] at hx
    rw [hnlt]
    exact h.limBound x (hperm.mem_iff.mp hx)
  · intro i t2 hit
    rw [hreg] at hit
    obtain ⟨hr1, hr2, hr3, hr4⟩ := h.regOK i t2 hit
    refine ⟨hopres t2 hr1, ?_, ?_, ?_⟩
    · rw [hord t2]; exact hr2
    · rw [hnot]; exact hr3
    · intro lt2 hl2
      rw [hord t2] at hl2
      obtain ⟨hr5, hr6⟩ := hr4 lt2 hl2
      have hne : lt2 ≠ lt := by
        intro hh
        rw [hh] at hr6
        rw [hempty] at hr6
        simp at hr6
      rw [hord t2, hlim lt2, hscache]
      by_cases hs2 : (ordAt b t2).bidOrAsk = s
      · rw [if_pos hs2]
        have hqP : (limAt b lt2).price ≠ P := by
          intro hh
          rw [hh, hs2] at hr5
          rw [hlive] at hr5
          exact hne (Option.some.inj hr5).symm
        rw [alookup_aerase_ne hqP]
        exact ⟨hr5, hr6⟩
      · rw [if_neg hs2]
        exact ⟨hr5, hr6⟩

theorem Inv_Cancel {b : Book} (h : Inv b) (order : Order) {b2 : Book}
    (hc : Cancel b order = some b2) : Inv b2 := by
  cases hreg : alookup order.id b.idToOrderMap with
  | none =>
    rw [Cancel_notfound hreg] at hc
    cases hc
    exact h
  | some t =>
    cases hlim : (ordAt b t).limit with
    | none =>
      rw [Cancel_detached hreg hlim] at hc
      exact Option.noConfusion hc
    | some lt =>
      obtain ⟨hr1, hr2, hr3, hr4⟩ := h.regOK _ _ hreg
      obtain ⟨hr5, hr6⟩ := hr4 lt hlim
      have hK := h.lims _ _ _ hr5
      have hpres := hK.present
      rw [Cancel_found hreg hlim hpres] at hc
      by_cases hsz : (limAt b lt).size - 1 = 0
      · rw [if_pos hsz] at hc
        cases hc
        have hlen1 : (limAt b lt).orders.length = 1 := by
          have h1 := hK.sizeEq
          omega
        have herase0 : (limAt b lt).orders.erase t = [] := by
          have hl2 := List.length_erase_of_mem hr6
          rw [hlen1] at hl2
          simp only [Nat.sub_self] at hl2
          exact List.length_eq_zero.mp hl2
        refine Inv_drop_empty_gen (b := {b with
            idToOrderMap := aerase (ordAt b t).id b.idToOrderMap,
            ordersHeap := aupdate t {ordAt b t with limit := none} b.ordersHeap,
            limitsHeap := aupdate lt {limAt b lt with
              orders := (limAt b lt).orders.erase t,
              size := (limAt b lt).size - 1,
              totalVolume := (limAt b lt).totalVolume - (ordAt b t).volume} b.limitsHeap})
          ?_ ?_ ?_ rfl rfl rfl rfl rfl rfl rfl rfl rfl rfl
        · exact Inv_Cancel_stays_gen h hr5 hr6 rfl rfl rfl rfl rfl rfl rfl rfl rfl rfl
        · exact hr5
        · have hlm : limAt {b with
              idToOrderMap := aerase (ordAt b t).id b.idToOrderMap,
              ordersHeap := aupdate t {ordAt b t with limit := none} b.ordersHeap,
              limitsHeap := aupdate lt {limAt b lt with
                orders := (limAt b lt).orders.erase t,
                size := (limAt b lt).size - 1,
                totalVolume := (limAt b lt).totalVolume - (ordAt b t).volume} b.limitsHeap} lt
              = {limAt b lt with
                orders := (limAt b lt).orders.erase t,
                size := (limAt b lt).size - 1,
                totalVolume := (limAt b lt).totalVolume - (ordAt b t).volume} := by
            rw [limAt]
            simp only
            rw [alookup_aupdate_self _ hpres]
            rfl
          rw [hlm]
          exact herase0
      · rw [if_neg hsz] at hc
        cases hc
        exact Inv_Cancel_stays_gen h hr5 hr6 rfl rfl rfl rfl rfl rfl rfl rfl rfl rfl

theorem Inv_LimClear {b : Book} {s : Bool} {P : Int} {lt : Nat} (h : Inv b)
    (hlive : alookup P (sideCache b s) = some lt) : Inv (LimClear b lt) := by
  have hK := h.lims _ _ _ hlive
  have hfr := limClear_frame b lt
  have hlh : (LimClear b lt).limitsHeap =
      aupdate lt {limAt b lt with orders := [], size := 0, totalVolume := 0} b.limitsHeap := by
    rw [LimClear]
    simp [setLim, (detachAll_frame (limAt b lt).orders b).2.2.2.2.2.1]
  have hoh := limClear_ordersHeap b lt
  have hlpres : ∀ x, alookup x b.limitsHeap ≠ none →
      alookup x (LimClear b lt).limitsHeap ≠ none := by
    intro x hp; rw [hlh]; exact (aupdate_present _).mpr hp
  have hopres : ∀ u, alookup u b.ordersHeap ≠ none →
      alookup u (LimClear b lt).ordersHeap ≠ none := by
    intro u hp; rw [hoh]; exact detachAll_present.mpr hp
  have hordmem : ∀ u ∈ (limAt b lt).orders,
      ordAt (LimClear b lt) u = {ordAt b u with limit := none} := by
    intro u hu
    have h1 := ordAt_detachAll_mem hu (hK.mem u hu).1
    rw [ordAt, hoh]
    rw [ordAt] at h1
    exact h1
  have hordnot : ∀ u, u ∉ (limAt b lt).orders → ordAt (LimClear b lt) u = ordAt b u := by
    intro u hu
    have h1 := @ordAt_detachAll_notmem (limAt b lt).orders b u hu
    rw [ordAt, hoh]
    rw [ordAt] at h1
    exact h1
  have hlself := limAt_limClear_self hK.present
  have hsc : ∀ s2, sideCache (LimClear b lt) s2 = sideCache b s2 := by
    intro s2; cases s2 <;> simp [sideCache, hfr.2.2.2.1, hfr.2.2.2.2.1]
  have hst : ∀ s2, sideTree (LimClear b lt) s2 = sideTree b s2 := by
    intro s2; cases s2 <;> simp [sideTree, hfr.1, hfr.2.1]
  have hltags : limTags (LimClear b lt) = limTags b := by
    rw [limTags, limTags, hfr.2.2.2.1, hfr.2.2.2.2.1, hfr.2.2.2.2.2.1]
  refine ⟨?_, ?_, ?_, ?_, ?_, ?_, ?_, ?_⟩
  · intro s2; rw [hst]; exact h.sorted s2
  · intro s2 q; rw [hsc, hst]; exact h.mirror s2 q
  · intro s2; rw [hsc]; exact h.cacheNodup s2
  · intro s2 q lt2 hcl
    rw [hsc] at hcl
    have hK2 := h.lims _ _ _ hcl
    by_cases hne : lt2 = lt
    · rw [hne] at hcl
      obtain ⟨hs2, hq⟩ := live_tag_inj h hcl hlive
      rw [hne]
      refine ⟨hlpres _ hK.present, ?_, ?_, ?_, ?_, ?_⟩
      · rw [hlself]
        show (limAt b lt).price = q
        rw [hq]
        exact hK.priceEq
      · rw [hlself]; rfl
      · rw [hlself]; rfl
      · rw [hlself]; simp
      · rw [hlself]
        intro u hu
        simp at hu
    · refine LimOK_transfer hK2 (limAt_limClear_ne hne) (hlpres _ hK2.present) ?_ ?_
      · intro u hu
        have hunot : u ∉ (limAt b lt).orders := by
          intro hmem
          have h1 := (hK.mem u hmem).2.1
          have h2 := (hK2.mem u hu).2.1
          rw [h1] at h2
          exact hne (Option.some.inj h2).symm
        exact ⟨hordnot u hunot, hopres u (hK2.mem u hu).1⟩
      · rw [hfr.2.2.2.2.2.2.2.2.1]
  · rw [hltags]; exact h.liveNodup
  · intro x hx
    rw [hfr.2.2.2.2.2.1] at hx
    obtain ⟨hp1, hp2, hp3, hp4⟩ := h.poolOK x hx
    have hne : x ≠ lt := fun hh => live_not_pool h hlive (hh ▸ hx)
    rw [limAt_limClear_ne hne]
    exact ⟨hlpres _ hp1, hp2, hp3, hp4⟩
  · rw [hltags, hfr.2.2.2.2.2.2.2.2.2]; exact h.limBound
  · intro i t2 hit
    rw [hfr.2.2.1] at hit
    obtain ⟨hr1, hr2, hr3, hr4⟩ := h.regOK i t2 hit
    by_cases hmem : t2 ∈ (limAt b lt).orders
    · refine ⟨hopres t2 hr1, ?_, ?_, ?_⟩
      · rw [hordmem t2 hmem]; exact hr2
      · rw [hfr.2.2.2.2.2.2.2.2.1]; exact hr3
      · intro lt2 hl2
        rw [hordmem t2 hmem] at hl2
        simp at hl2
    · refine ⟨hopres t2 hr1, ?_, ?_, ?_⟩
      · rw [hordnot t2 hmem]; exact hr2
      · rw [hfr.2.2.2.2.2.2.2.2.1]; exact hr3
      · intro lt2 hl2
        rw [hordnot t2 hmem] at hl2
        obtain ⟨hr5, hr6⟩ := hr4 lt2 hl2
        have hne : lt2 ≠ lt := by
          intro hh
          rw [hh] at hr6
          exact hmem hr6
        rw [hordnot t2 hmem, hsc, limAt_limClear_ne hne]
        exact ⟨hr5, hr6⟩

theorem Inv_clearLimit {b : Book} (h : Inv b) {p : Int} {s : Bool} {b2 : Book}
    (hc : clearLimit b p s = some b2) : Inv b2 := by
  cases hfound : alookup p (sideCache b s) with
  | none => rw [clearLimit, hfound] at hc; exact Option.noConfusion hc
  | some lt =>
    rw [clearLimit, hfound] at hc
    cases hc
    exact Inv_LimClear h hfound

theorem limClear_bids (b : Book) (lt : Nat) : (LimClear b lt).bids = b.bids :=
  (limClear_frame b lt).1

theorem limClear_asks (b : Book) (lt : Nat) : (LimClear b lt).asks = b.asks :=
  (limClear_frame b lt).2.1

theorem limClear_reg (b : Book) (lt : Nat) : (LimClear b lt).idToOrderMap = b.idToOrderMap :=
  (limClear_frame b lt).2.2.1

theorem limClear_bcache (b : Book) (lt : Nat) :
    (LimClear b lt).bidLimitsCache = b.bidLimitsCache :=
  (limClear_frame b lt).2.2.2.1

theorem limClear_acache (b : Book) (lt : Nat) :
    (LimClear b lt).askLimitsCache = b.askLimitsCache :=
  (limClear_frame b lt).2.2.2.2.1

theorem limClear_pool (b : Book) (lt : Nat) : (LimClear b lt).pool = b.pool :=
  (limClear_frame b lt).2.2.2.2.2.1

theorem limClear_tbv (b : Book) (lt : Nat) :
    (LimClear b lt).totalBuyVolume = b.totalBuyVolume :=
  (limClear_frame b lt).2.2.2.2.2.2.1

theorem limClear_tsv (b : Book) (lt : Nat) :
    (LimClear b lt).totalSellVolume = b.totalSellVolume :=
  (limClear_frame b lt).2.2.2.2.2.2.2.1

theorem limClear_not (b : Book) (lt : Nat) : (LimClear b lt).nextOrderTag = b.nextOrderTag :=
  (limClear_frame b lt).2.2.2.2.2.2.2.2.1

theorem limClear_nlt (b : Book) (lt : Nat) : (LimClear b lt).nextLimitTag = b.nextLimitTag :=
  (limClear_frame b lt).2.2.2.2.2.2.2.2.2

theorem limClear_limitsHeap (b : Book) (lt : Nat) :
    (LimClear b lt).limitsHeap =
      aupdate lt {limAt b lt with orders := [], size := 0, totalVolume := 0} b.limitsHeap := by
  rw [LimClear]
  simp [setLim, (detachAll_frame (limAt b lt).orders b).2.2.2.2.2.1]

theorem detachAll_ordersHeap_congr (ts : List Nat) (b1 b2 : Book)
    (h : b1.ordersHeap = b2.ordersHeap) :
    (detachAll ts b1).ordersHeap = (detachAll ts b2).ordersHeap := by
  induction ts generalizing b1 b2 with
  | nil => exact h
  | cons t0 rest ih =>
    simp only [detachAll, List.foldl_cons]
    simp only [detachAll] at ih
    have h2 : (setOrd b1 t0 {ordAt b1 t0 with limit := none}).ordersHeap =
        (setOrd b2 t0 {ordAt b2 t0 with limit := none}).ordersHeap := by
      simp [setOrd, ordAt, h]
    exact ih _ _ h2

theorem deleteLimit_true (b : Book) (p : Int) :
    deleteLimit b p true = {b with bids := treeDelete p b.bids} := by
  simp [deleteLimit]

theorem deleteLimit_false (b : Book) (p : Int) :
    deleteLimit b p false = {b with asks := treeDelete p b.asks} := by
  simp [deleteLimit]

theorem Inv_DeleteBidLimit {b : Book} (h : Inv b) (p : Int) : Inv (DeleteBidLimit b p) := by
  cases hfound : alookup p b.bidLimitsCache with
  | none => simp only [DeleteBidLimit, hfound]; exact h
  | some lt =>
    have hlive : alookup p (sideCache b true) = some lt := by simpa [sideCache] using hfound
    have hK := h.lims _ _ _ hlive
    have hI := Inv_LimClear h hlive
    have hlive2 : alookup p (sideCache (LimClear b lt) true) = some lt := by
      simpa [sideCache, limClear_bcache] using hfound
    have hempty : (limAt (LimClear b lt) lt).orders = [] := by
      rw [limAt_limClear_self hK.present]
    refine Inv_drop_empty_gen hI hlive2 hempty ?_ ?_ ?_ ?_ ?_ ?_ ?_ ?_ ?_ ?_
    · simp [DeleteBidLimit, hfound, deleteLimit_true, limClear_bids]
    · simp [DeleteBidLimit, hfound, deleteLimit_true, limClear_asks]
    · simp [DeleteBidLimit, hfound, deleteLimit_true, limClear_bcache]
    · simp [DeleteBidLimit, hfound, deleteLimit_true, limClear_acache]
    · simp [DeleteBidLimit, hfound, deleteLimit_true, limClear_reg]
    · simp only [DeleteBidLimit, hfound, deleteLimit_true]
      rw [limClear_ordersHeap, limClear_ordersHeap]
      exact detachAll_ordersHeap_congr _ _ _ rfl
    · simp only [DeleteBidLimit, hfound, deleteLimit_true]
      rw [limClear_limitsHeap, limClear_limitsHeap]
      rfl
    · simp [DeleteBidLimit, hfound, deleteLimit_true, limClear_pool]
    · simp [DeleteBidLimit, hfound, deleteLimit_true, limClear_not]
    · simp [DeleteBidLimit, hfound, deleteLimit_true, limClear_nlt]

theorem Inv_DeleteAskLimit {b : Book} (h : Inv b) (p : Int) : Inv (DeleteAskLimit b p) := by
  cases hfound : alookup p b.askLimitsCache with
  | none => simp only [DeleteAskLimit, hfound]; exact h
  | some lt =>
    have hlive : alookup p (sideCache b false) = some lt := by simpa [sideCache] using hfound
    have hK := h.lims _ _ _ hlive
    have hI := Inv_LimClear h hlive
    have hlive2 : alookup p (sideCache (LimClear b lt) false) = some lt := by
      simpa [sideCache, limClear_acache] using hfound
    have hempty : (limAt (LimClear b lt) lt).orders = [] := by
      rw [limAt_limClear_self hK.present]
    refine Inv_drop_empty_gen hI hlive2 hempty ?_ ?_ ?_ ?_ ?_ ?_ ?_ ?_ ?_ ?_
    · simp [DeleteAskLimit, hfound, deleteLimit_false, limClear_bids]
    · simp [DeleteAskLimit, hfound, deleteLimit_false, limClear_asks]
    · simp [DeleteAskLimit, hfound, deleteLimit_false, limClear_bcache]
    · simp [DeleteAskLimit, hfound, deleteLimit_false, limClear_acache]
    · simp [DeleteAskLimit, hfound, deleteLimit_false, limClear_reg]
    · simp only [DeleteAskLimit, hfound, deleteLimit_false]
      rw [limClear_ordersHeap, limClear_ordersHeap]
      exact detachAll_ordersHeap_congr _ _ _ rfl
    · simp only [DeleteAskLimit, hfound, deleteLimit_false]
      rw [limClear_limitsHeap, limClear_limitsHeap]
      rfl
    · simp [DeleteAskLimit, hfound, deleteLimit_false, limClear_pool]
    · simp [DeleteAskLimit, hfound, deleteLimit_false, limClear_not]
    · simp [DeleteAskLimit, hfound, deleteLimit_false, limClear_nlt]

theorem Inv_Modify {b : Book} (h : Inv b) (price : Int) (o : Order) {b2 : Book}
    (hc : Modify b price o = some b2) : Inv b2 := by
  simp only [Modify] at hc
  cases hreg : alookup o.id b.idToOrderMap with
  | none =>
    simp only [hreg] at hc
    cases hc
    exact h
  | some t =>
    simp only [hreg] at hc
    cases hcan : Cancel b (ordAt b t) with
    | none =>
      simp only [hcan] at hc
      exact Option.noConfusion hc
    | some b1 =>
      simp only [hcan] at hc
      cases hc
      exact Inv_Add (Inv_Cancel h _ hcan) _ _

theorem Inv_Execute {b : Book} (h : Inv b) (price : Int) (buyOrder sellOrder : Order)
    {b2 : Book} (hc : Execute b price buyOrder sellOrder = some b2) : Inv b2 := by
  simp only [Execute] at hc
  cases hreg1 : alookup buyOrder.id b.idToOrderMap with
  | none =>
    simp only [hreg1] at hc
    cases hreg2 : alookup sellOrder.id b.idToOrderMap with
    | none =>
      simp only [hreg2] at hc
      cases hc
      exact h
    | some t2 =>
      simp only [hreg2] at hc
      cases hcan2 : Cancel b (ordAt b t2) with
      | none =>
        simp only [hcan2] at hc
        exact Option.noConfusion hc
      | some bb =>
        simp only [hcan2] at hc
        by_cases hv : sellOrder.volume < (ordAt b t2).volume
        · rw [if_pos hv] at hc
          cases hc
          exact Inv_Add (Inv_Cancel h _ hcan2) _ _
        · rw [if_neg hv] at hc
          cases hc
          exact Inv_Cancel h _ hcan2
  | some t1 =>
    simp only [hreg1] at hc
    cases hcan1 : Cancel b (ordAt b t1) with
    | none =>
      simp only [hcan1] at hc
      exact Option.noConfusion hc
    | some c1 =>
      simp only [hcan1] at hc
      have hI1 : Inv c1 := Inv_Cancel h _ hcan1
      by_cases hv1 : buyOrder.volume < (ordAt b t1).volume
      · rw [if_pos hv1] at hc
        have hI2 : Inv (Add c1 price {buyOrder with volume := (ordAt b t1).volume - buyOrder.volume}) :=
          Inv_Add hI1 _ _
        cases hreg2 : alookup sellOrder.id
            (Add c1 price {buyOrder with volume := (ordAt b t1).volume - buyOrder.volume}).idToOrderMap with
        | none =>
          simp only [hreg2] at hc
          cases hc
          exact hI2
        | some t2 =>
          simp only [hreg2] at hc
          cases hcan2 : Cancel
              (Add c1 price {buyOrder with volume := (ordAt b t1).volume - buyOrder.volume})
              (ordAt (Add c1 price {buyOrder with volume := (ordAt b t1).volume - buyOrder.volume}) t2) with
          | none =>
            simp only [hcan2] at hc
            exact Option.noConfusion hc
          | some bb =>
            simp only [hcan2] at hc
            by_cases hv2 : sellOrder.volume <
                (ordAt (Add c1 price {buyOrder with volume := (ordAt b t1).volume - buyOrder.volume}) t2).volume
            · rw [if_pos hv2] at hc
              cases hc
              exact Inv_Add (Inv_Cancel hI2 _ hcan2) _ _
            · rw [if_neg hv2] at hc
              cases hc
              exact Inv_Cancel hI2 _ hcan2
      · rw [if_neg hv1] at hc
        cases hreg2 : alookup sellOrder.id c1.idToOrderMap with
        | none =>
          simp only [hreg2] at hc
          cases hc
          exact hI1
        | some t2 =>
          simp only [hreg2] at hc
          cases hcan2 : Cancel c1 (ordAt c1 t2) with
          | none =>
            simp only [hcan2] at hc
            exact Option.noConfusion hc
          | some bb =>
            simp only [hcan2] at hc
            by_cases hv2 : sellOrder.volume < (ordAt c1 t2).volume
            · rw [if_pos hv2] at hc
              cases hc
              exact Inv_Add (Inv_Cancel hI1 _ hcan2) _ _
            · rw [if_neg hv2] at hc
              cases hc
              exact Inv_Cancel hI1 _ hcan2

theorem Inv_stepOp {b : Book} (h : Inv b) (op : Op) {b2 : Book}
    (hc : stepOp b op = some b2) : Inv b2 := by
  cases op with
  | add price id s v =>
    simp only [stepOp] at hc
    cases hc
    exact Inv_Add h _ _
  | cancel id =>
    simp only [stepOp] at hc
    exact Inv_Cancel h _ hc
  | modify price id s v =>
    simp only [stepOp] at hc
    exact Inv_Modify h _ _ hc
  | execute price bid bs bv sid ss sv =>
    simp only [stepOp] at hc
    exact Inv_Execute h _ _ _ hc
  | clearBid price =>
    simp only [stepOp, ClearBidLimit] at hc
    exact Inv_clearLimit h hc
  | clearAsk price =>
    simp only [stepOp, ClearAskLimit] at hc
    exact Inv_clearLimit h hc
  | deleteBid price =>
    simp only [stepOp] at hc
    cases hc
    exact Inv_DeleteBidLimit h _
  | deleteAsk price =>
    simp only [stepOp] at hc
    cases hc
    exact Inv_DeleteAskLimit h _

theorem Inv_run {b : Book} (h : Inv b) (ops : List Op) : Inv (run b ops) := by
  induction ops generalizing b with
  | nil => exact h
  | cons op rest ih =>
    rw [run]
    apply ih
    cases hc : stepOp b op with
    | none => simpa [hc] using h
    | some bb => simpa [hc] using Inv_stepOp h op hc

theorem reachable_inv {b : Book} (h : Reachable b) : Inv b := by
  obtain ⟨ops, hops⟩ := h
  rw [← hops]
  exact Inv_run Inv_new ops

theorem TSorted_keys_nodup {l : List (Int × Nat)} (h : TSorted l) : (keysOf l).Nodup := by
  rw [keysOf, List.Nodup, List.pairwise_map]
  exact h.imp (fun hlt => ne_of_lt hlt)

theorem sumTV_eq (b : Book) (l : List (Int × Nat)) :
    sumTV b l = ((valsOf l).map (fun x => (limAt b x).totalVolume)).sum := by
  rw [sumTV, valsOf, List.map_map]
  rfl

theorem sumTV_congr {b b2 : Book} {l : List (Int × Nat)}
    (h : ∀ x ∈ valsOf l, limAt b2 x = limAt b x) : sumTV b2 l = sumTV b l := by
  rw [sumTV_eq, sumTV_eq]
  exact congrArg List.sum (List.map_congr_left fun x hx => by rw [h x hx])

theorem sumTV_perm {b : Book} {l l2 : List (Int × Nat)} (h : l.Perm l2) :
    sumTV b l = sumTV b l2 := by
  unfold sumTV
  exact (h.map _).sum_eq

theorem sum_map_update (f g : Nat → Int) {l : List Nat} {t : Nat} {d : Int}
    (hnd : l.Nodup) (hmem : t ∈ l)
    (hg : ∀ x ∈ l, x ≠ t → g x = f x) (hgt : g t = f t + d) :
    (l.map g).sum = (l.map f).sum + d := by
  induction l with
  | nil => cases hmem
  | cons a r ih =>
    rcases List.mem_cons.mp hmem with hat | hr
    · have hra : a ∉ r := (List.nodup_cons.mp hnd).1
      have hmap : r.map g = r.map f :=
        List.map_congr_left (fun x hx => hg x (List.mem_cons_of_mem a hx)
          (fun hxt => by rw [hxt, hat] at hx; exact hra hx))
      rw [List.map_cons, List.map_cons, List.sum_cons, List.sum_cons, hmap, ← hat, hgt]
      ring
    · have hat : a ≠ t := fun hh => (List.nodup_cons.mp hnd).1 (hh ▸ hr)
      rw [List.map_cons, List.map_cons, List.sum_cons, List.sum_cons,
        hg a (List.mem_cons_self a r) hat,
        ih (List.nodup_cons.mp hnd).2 hr (fun x hx hxt => hg x (List.mem_cons_of_mem a hx) hxt)]
      ring

theorem vals_nodup_of_key_inj {α β : Type} [DecidableEq α] {l : List (α × β)}
    (hk : (keysOf l).Nodup)
    (hinj : ∀ e1 ∈ l, ∀ e2 ∈ l, e1.2 = e2.2 → e1.1 = e2.1) :
    (valsOf l).Nodup := by
  induction l with
  | nil => simp [valsOf]
  | cons e r ih =>
    simp only [keysOf, List.map_cons, List.nodup_cons] at hk
    rw [valsOf, List.map_cons, List.nodup_cons]
    constructor
    · intro hmemv
      obtain ⟨e2, he2, hv⟩ := List.mem_map.mp hmemv
      have hkey := hinj e2 (List.mem_cons_of_mem e he2) e (List.mem_cons_self e r) hv
      exact hk.1 (List.mem_map.mpr ⟨e2, he2, hkey⟩)
    · exact ih hk.2 (fun e1 h1 e2 h2 hv =>
        hinj e1 (List.mem_cons_of_mem e h1) e2 (List.mem_cons_of_mem e h2) hv)

theorem tree_val_live {b : Book} (h : Inv b) {s : Bool} {x : Nat}
    (hx : x ∈ valsOf (sideTree b s)) : ∃ q, alookup q (sideCache b s) = some x := by
  obtain ⟨e, he, hev⟩ := List.mem_map.mp hx
  refine ⟨e.1, ?_⟩
  rw [h.mirror, ← hev]
  exact alookup_of_mem_nodup (TSorted_keys_nodup (h.sorted s)) (by simpa using he)

theorem tree_vals_nodup {b : Book} (h : Inv b) (s : Bool) :
    (valsOf (sideTree b s)).Nodup := by
  apply vals_nodup_of_key_inj (TSorted_keys_nodup (h.sorted s))
  intro e1 h1 e2 h2 hv
  have ha1 : alookup e1.1 (sideCache b s) = some e1.2 := by
    rw [h.mirror]
    exact alookup_of_mem_nodup (TSorted_keys_nodup (h.sorted s)) (by simpa using h1)
  have ha2 : alookup e2.1 (sideCache b s) = some e2.2 := by
    rw [h.mirror]
    exact alookup_of_mem_nodup (TSorted_keys_nodup (h.sorted s)) (by simpa using h2)
  rw [hv] at ha1
  exact (live_tag_inj h ha1 ha2).2

theorem tree_val_ne_of_other {b : Book} (h : Inv b) {s s2 : Bool} {P : Int} {lt x : Nat}
    (hlive : alookup P (sideCache b s) = some lt) (hne : ¬ s2 = s)
    (hx : x ∈ valsOf (sideTree b s2)) : x ≠ lt := by
  intro hxe
  obtain ⟨q, hq⟩ := tree_val_live h hx
  rw [hxe] at hq
  exact hne (live_tag_inj h hq hlive).1

theorem limAt_update_self {b b2 : Book} {lt : Nat} {q : LimitOrder}
    (hlh : b2.limitsHeap = aupdate lt q b.limitsHeap)
    (hpres : alookup lt b.limitsHeap ≠ none) : limAt b2 lt = q := by
  rw [limAt, hlh, alookup_aupdate_self _ hpres]
  rfl

theorem limAt_update_ne {b b2 : Book} {lt x : Nat} {q : LimitOrder}
    (hlh : b2.limitsHeap = aupdate lt q b.limitsHeap) (hne : x ≠ lt) :
    limAt b2 x = limAt b x := by
  rw [limAt, hlh, alookup_aupdate_ne hne, limAt]

theorem limAt_cons_self {b b2 : Book} {lt : Nat} {q : LimitOrder}
    (hlh : b2.limitsHeap = (lt, q) :: b.limitsHeap) : limAt b2 lt = q := by
  rw [limAt, hlh, alookup_cons_self]
  rfl

theorem limAt_cons_ne {b b2 : Book} {lt x : Nat} {q : LimitOrder}
    (hlh : b2.limitsHeap = (lt, q) :: b.limitsHeap) (hne : x ≠ lt) :
    limAt b2 x = limAt b x := by
  rw [limAt, hlh, alookup_cons_ne _ _ (Ne.symm hne), limAt]

theorem treePut_perm_new {P : Int} (lt : Nat) {l : List (Int × Nat)}
    (h : alookup P l = none) : (treePut P lt l).Perm ((P, lt) :: l) := by
  induction l with
  | nil => exact List.Perm.refl _
  | cons e r ih =>
    rw [alookup] at h
    by_cases he : e.1 = P
    · rw [if_pos he] at h
      exact Option.noConfusion h
    · rw [if_neg he] at h
      simp only [treePut]
      by_cases hlt : P < e.1
      · rw [if_pos hlt]
      · rw [if_neg hlt, if_neg (fun hh : P = e.1 => he hh.symm)]
        exact ((ih h).cons e).trans (List.Perm.swap _ _ _)

theorem sumTV_cons (b : Book) (P : Int) (lt : Nat) (l : List (Int × Nat)) :
    sumTV b ((P, lt) :: l) = (limAt b lt).totalVolume + sumTV b l := by
  simp [sumTV]

theorem VC_iff_sides (b : Book) :
    VolConsistent b ↔ ∀ s, sideTotal b s = sumTV b (sideTree b s) := by
  constructor
  · intro hv s
    cases s
    · exact hv.2
    · exact hv.1
  · intro hh
    exact ⟨hh true, hh false⟩

theorem VC_bump_level {b b2 : Book} {s : Bool} {P : Int} {lt : Nat} {q : LimitOrder} {v : Int}
    (h : Inv b) (hv : VolConsistent b)
    (hlive : alookup P (sideCache b s) = some lt)
    (hbids : b2.bids = b.bids) (hasks : b2.asks = b.asks)
    (hlh : b2.limitsHeap = aupdate lt q b.limitsHeap)
    (hrec : q.totalVolume = (limAt b lt).totalVolume + v)
    (htb : b2.totalBuyVolume = if s then b.totalBuyVolume + v else b.totalBuyVolume)
    (hts : b2.totalSellVolume = if s then b.totalSellVolume else b.totalSellVolume + v) :
    VolConsistent b2 := by
  have hpres := (h.lims _ _ _ hlive).present
  have hself := limAt_update_self hlh hpres
  have hne : ∀ x, x ≠ lt → limAt b2 x = limAt b x :=
    fun x hxe => limAt_update_ne hlh hxe
  rw [VC_iff_sides] at hv ⊢
  intro s2
  have htree : sideTree b2 s2 = sideTree b s2 := by
    cases s2 <;> simp [sideTree, hbids, hasks]
  rw [htree]
  by_cases hs2 : s2 = s
  · subst hs2
    have h1 : sideTotal b2 s2 = sideTotal b s2 + v := by
      cases s2 <;> simp [sideTotal, htb, hts]
    rw [h1, hv s2]
    have htl : alookup P (sideTree b s2) = some lt := by
      rw [← h.mirror]
      exact hlive
    have hmem : lt ∈ valsOf (sideTree b s2) := mem_valsOf_of_alookup htl
    have hupd := sum_map_update (fun x => (limAt b x).totalVolume)
      (fun x => (limAt b2 x).totalVolume) (tree_vals_nodup h s2) hmem
      (fun x hx hxne => by
        show (limAt b2 x).totalVolume = (limAt b x).totalVolume
        rw [hne x hxne])
      (by
        show (limAt b2 lt).totalVolume = (limAt b lt).totalVolume + v
        rw [hself, hrec])
    rw [sumTV_eq, sumTV_eq, hupd]
  · have h1 : sideTotal b2 s2 = sideTotal b s2 := by
      cases s2 <;> cases s <;> first
        | exact absurd rfl hs2
        | simp [sideTotal, htb, hts]
    rw [h1, hv s2]
    refine (sumTV_congr ?_).symm
    intro x hx
    exact hne x (tree_val_ne_of_other h hlive hs2 hx)

theorem VC_new_level {b b2 : Book} {s : Bool} {P : Int} {lt : Nat} {v : Int}
    (h : Inv b) (hv : VolConsistent b)
    (hmiss : alookup P (sideCache b s) = none)
    (hnotlive : ∀ s2, lt ∉ valsOf (sideCache b s2))
    (hbids : b2.bids = if s then treePut P lt b.bids else b.bids)
    (hasks : b2.asks = if s then b.asks else treePut P lt b.asks)
    (hself : (limAt b2 lt).totalVolume = v)
    (hne : ∀ x, x ≠ lt → limAt b2 x = limAt b x)
    (htb : b2.totalBuyVolume = if s then b.totalBuyVolume + v else b.totalBuyVolume)
    (hts : b2.totalSellVolume = if s then b.totalSellVolume else b.totalSellVolume + v) :
    VolConsistent b2 := by
  have hxne : ∀ s2, ∀ x ∈ valsOf (sideTree b s2), x ≠ lt := by
    intro s2 x hx hxe
    obtain ⟨q2, hq⟩ := tree_val_live h hx
    rw [hxe] at hq
    exact hnotlive s2 (mem_valsOf_of_alookup hq)
  rw [VC_iff_sides] at hv ⊢
  intro s2
  have htree : sideTree b2 s2 =
      if s2 = s then treePut P lt (sideTree b s2) else sideTree b s2 := by
    cases s <;> cases s2 <;> simp [sideTree, hbids, hasks]
  by_cases hs2 : s2 = s
  · rw [htree, if_pos hs2]
    subst hs2
    have h1 : sideTotal b2 s2 = sideTotal b s2 + v := by
      cases s2 <;> simp [sideTotal, htb, hts]
    have hmissT : alookup P (sideTree b s2) = none := by
      rw [← h.mirror]
      exact hmiss
    rw [h1, hv s2, sumTV_perm (treePut_perm_new lt hmissT), sumTV_cons, hself,
      sumTV_congr (fun x hx => hne x (hxne s2 x hx))]
    ring
  · rw [htree, if_neg hs2]
    have h1 : sideTotal b2 s2 = sideTotal b s2 := by
      cases s2 <;> cases s <;> first
        | exact absurd rfl hs2
        | simp [sideTotal, htb, hts]
    rw [h1, hv s2]
    exact (sumTV_congr (fun x hx => hne x (hxne s2 x hx))).symm

theorem VC_drop_level {b b2 : Book} {s : Bool} {P : Int} {lt : Nat} {v : Int}
    (h : Inv b) (hv : VolConsistent b)
    (hlive : alookup P (sideCache b s) = some lt)
    (hveq : (limAt b lt).totalVolume = v)
    (hbids : b2.bids = if s then treeDelete P b.bids else b.bids)
    (hasks : b2.asks = if s then b.asks else treeDelete P b.asks)
    (hne : ∀ x, x ≠ lt → limAt b2 x = limAt b x)
    (htb : b2.totalBuyVolume = if s then b.totalBuyVolume - v else b.totalBuyVolume)
    (hts : b2.totalSellVolume = if s then b.totalSellVolume else b.totalSellVolume - v) :
    VolConsistent b2 := by
  rw [VC_iff_sides] at hv ⊢
  intro s2
  have htree : sideTree b2 s2 =
      if s2 = s then treeDelete P (sideTree b s2) else sideTree b s2 := by
    cases s <;> cases s2 <;> simp [sideTree, hbids, hasks]
  by_cases hs2 : s2 = s
  · rw [htree, if_pos hs2]
    subst hs2
    have h1 : sideTotal b2 s2 = sideTotal b s2 - v := by
      cases s2 <;> simp [sideTotal, htb, hts]
    have htl : alookup P (sideTree b s2) = some lt := by
      rw [← h.mirror]
      exact hlive
    have hperm := perm_cons_aerase (TSorted_keys_nodup (h.sorted s2)) htl
    have hvperm : (valsOf (sideTree b s2)).Perm
        (lt :: valsOf (aerase P (sideTree b s2))) := by
      have := hperm.map Prod.snd
      simpa [valsOf] using this
    have hltnot : lt ∉ valsOf (aerase P (sideTree b s2)) :=
      (List.nodup_cons.mp ((List.Perm.nodup_iff hvperm).mp (tree_vals_nodup h s2))).1
    have hsum1 : sumTV b (sideTree b s2) = v + sumTV b (aerase P (sideTree b s2)) := by
      rw [sumTV_perm hperm, sumTV_cons, hveq]
    have h3 : sumTV b2 (aerase P (sideTree b s2)) = sumTV b (aerase P (sideTree b s2)) :=
      sumTV_congr (fun x hx => hne x (fun hxe => hltnot (hxe ▸ hx)))
    rw [h1, hv s2, treeDelete, h3, hsum1]
    ring
  · rw [htree, if_neg hs2]
    have h1 : sideTotal b2 s2 = sideTotal b s2 := by
      cases s2 <;> cases s <;> first
        | exact absurd rfl hs2
        | simp [sideTotal, htb, hts]
    rw [h1, hv s2]
    refine (sumTV_congr ?_).symm
    intro x hx
    exact hne x (tree_val_ne_of_other h hlive hs2 hx)

theorem VC_new : VolConsistent NewOrderbook := by
  constructor <;> rfl

theorem VC_Add {b : Book} (h : Inv b) (hv : VolConsistent b) (p : Int) (o : Order) :
    VolConsistent (Add b p o) := by
  cases hfound : alookup p (sideCache b o.bidOrAsk) with
  | some lt =>
    rw [Add_found hfound]
    exact VC_bump_level h hv hfound rfl rfl rfl rfl rfl rfl
  | none =>
    cases hpool : b.pool with
    | cons lt rest =>
      have hpm : lt ∈ b.pool := by
        rw [hpool]
        exact List.mem_cons_self lt rest
      obtain ⟨hp1, hp2, hp3, hp4⟩ := h.poolOK lt hpm
      have hnotlive : ∀ s2, lt ∉ valsOf (sideCache b s2) := by
        intro s2 hmem
        obtain ⟨hA, hB, hP2, hAB, hAP, hBP⟩ := liveNodup_parts h
        cases s2
        · exact hBP (by simpa [sideCache] using hmem) hpm
        · exact hAP (by simpa [sideCache] using hmem) hpm
      rw [Add_new_pool hfound hpool hp1]
      refine VC_new_level h hv hfound hnotlive rfl rfl ?_ ?_ rfl rfl
      · rw [limAt_update_self rfl hp1]
        show (limAt b lt).totalVolume + o.volume = o.volume
        rw [hp4]
        ring
      · intro x hxe
        exact limAt_update_ne rfl hxe
    | nil =>
      have hnotlive : ∀ s2, b.nextLimitTag ∉ valsOf (sideCache b s2) := by
        intro s2 hmem
        have hin : b.nextLimitTag ∈ limTags b := by
          cases s2
          · simp only [sideCache] at hmem
            simp [limTags]
            right
            left
            simpa using hmem
          · simp only [sideCache] at hmem
            simp [limTags]
            left
            simpa using hmem
        exact absurd (h.limBound _ hin) (lt_irrefl _)
      rw [Add_new_fresh hfound hpool]
      refine VC_new_level h hv hfound hnotlive rfl rfl ?_ ?_ rfl rfl
      · rw [limAt_cons_self rfl]
      · intro x hxe
        exact limAt_cons_ne rfl hxe

theorem VC_Cancel {b : Book} (h : Inv b) (hv : VolConsistent b) (o : Order) {b2 : Book}
    (hc : Cancel b o = some b2) : VolConsistent b2 := by
  cases hreg : alookup o.id b.idToOrderMap with
  | none =>
    rw [Cancel_notfound hreg] at hc
    cases hc
    exact hv
  | some t =>
    cases hlim : (ordAt b t).limit with
    | none =>
      rw [Cancel_detached hreg hlim] at hc
      exact Option.noConfusion hc
    | some lt =>
      obtain ⟨hr1, hr2, hr3, hr4⟩ := h.regOK _ _ hreg
      obtain ⟨hr5, hr6⟩ := hr4 lt hlim
      have hK := h.lims _ _ _ hr5
      rw [Cancel_found hreg hlim hK.present] at hc
      by_cases hsz : (limAt b lt).size - 1 = 0
      · rw [if_pos hsz] at hc
        cases hc
        have hlen : (limAt b lt).orders.length = 1 := by
          have h1 : ((limAt b lt).orders.length : Int) = 1 := by
            rw [← hK.sizeEq]
            omega
          exact_mod_cast h1
        have horders : (limAt b lt).orders = [t] := by
          obtain ⟨u, hu⟩ := List.length_eq_one.mp hlen
          rw [hu] at hr6
          simp at hr6
          rw [hu, hr6]
        have hveq : (limAt b lt).totalVolume = (ordAt b t).volume := by
          rw [hK.volEq, horders]
          simp
        exact VC_drop_level h hv hr5 hveq rfl rfl
          (fun x hxe => limAt_update_ne rfl hxe) rfl rfl
      · rw [if_neg hsz] at hc
        cases hc
        refine VC_bump_level (v := -(ordAt b t).volume) h hv hr5 rfl rfl rfl ?_ ?_ ?_
        · show (limAt b lt).totalVolume - (ordAt b t).volume =
            (limAt b lt).totalVolume + -(ordAt b t).volume
          ring
        · cases hs : (ordAt b t).bidOrAsk <;> simp [hs, sub_eq_add_neg]
        · cases hs : (ordAt b t).bidOrAsk <;> simp [hs, sub_eq_add_neg]

theorem VC_Modify {b : Book} (h : Inv b) (hv : VolConsistent b) (price : Int) (o : Order)
    {b2 : Book} (hc : Modify b price o = some b2) : VolConsistent b2 := by
  simp only [Modify] at hc
  cases hreg : alookup o.id b.idToOrderMap with
  | none =>
    simp only [hreg] at hc
    cases hc
    exact hv
  | some t =>
    simp only [hreg] at hc
    cases hcan : Cancel b (ordAt b t) with
    | none =>
      simp only [hcan] at hc
      exact Option.noConfusion hc
    | some b1 =>
      simp only [hcan] at hc
      cases hc
      exact VC_Add (Inv_Cancel h _ hcan) (VC_Cancel h hv _ hcan) _ _

theorem VC_Execute {b : Book} (h : Inv b) (hv : VolConsistent b) (price : Int)
    (buyOrder sellOrder : Order) {b2 : Book}
    (hc : Execute b price buyOrder sellOrder = some b2) : VolConsistent b2 := by
  simp only [Execute] at hc
  cases hreg1 : alookup buyOrder.id b.idToOrderMap with
  | none =>
    simp only [hreg1] at hc
    cases hreg2 : alookup sellOrder.id b.idToOrderMap with
    | none =>
      simp only [hreg2] at hc
      cases hc
      exact hv
    | some t2 =>
      simp only [hreg2] at hc
      cases hcan2 : Cancel b (ordAt b t2) with
      | none =>
        simp only [hcan2] at hc
        exact Option.noConfusion hc
      | some bb =>
        simp only [hcan2] at hc
        by_cases hv2 : sellOrder.volume < (ordAt b t2).volume
        · rw [if_pos hv2] at hc
          cases hc
          exact VC_Add (Inv_Cancel h _ hcan2) (VC_Cancel h hv _ hcan2) _ _
        · rw [if_neg hv2] at hc
          cases hc
          exact VC_Cancel h hv _ hcan2
  | some t1 =>
    simp only [hreg1] at hc
    cases hcan1 : Cancel b (ordAt b t1) with
    | none =>
      simp only [hcan1] at hc
      exact Option.noConfusion hc
    | some c1 =>
      simp only [hcan1] at hc
      have hI1 : Inv c1 := Inv_Cancel h _ hcan1
      have hV1 : VolConsistent c1 := VC_Cancel h hv _ hcan1
      by_cases hv1 : buyOrder.volume < (ordAt b t1).volume
      · rw [if_pos hv1] at hc
        have hI2 : Inv (Add c1 price
            {buyOrder with volume := (ordAt b t1).volume - buyOrder.volume}) :=
          Inv_Add hI1 _ _
        have hV2 : VolConsistent (Add c1 price
            {buyOrder with volume := (ordAt b t1).volume - buyOrder.volume}) :=
          VC_Add hI1 hV1 _ _
        cases hreg2 : alookup sellOrder.id
            (Add c1 price {buyOrder with
              volume := (ordAt b t1).volume - buyOrder.volume}).idToOrderMap with
        | none =>
          simp only [hreg2] at hc
          cases hc
          exact hV2
        | some t2 =>
          simp only [hreg2] at hc
          cases hcan2 : Cancel
              (Add c1 price {buyOrder with volume := (ordAt b t1).volume - buyOrder.volume})
              (ordAt (Add c1 price {buyOrder with
                volume := (ordAt b t1).volume - buyOrder.volume}) t2) with
          | none =>
            simp only [hcan2] at hc
            exact Option.noConfusion hc
          | some bb =>
            simp only [hcan2] at hc
            by_cases hv2 : sellOrder.volume < (ordAt (Add c1 price {buyOrder with
                volume := (ordAt b t1).volume - buyOrder.volume}) t2).volume
            · rw [if_pos hv2] at hc
              cases hc
              exact VC_Add (Inv_Cancel hI2 _ hcan2) (VC_Cancel hI2 hV2 _ hcan2) _ _
            · rw [if_neg hv2] at hc
              cases hc
              exact VC_Cancel hI2 hV2 _ hcan2
      · rw [if_neg hv1] at hc
        cases hreg2 : alookup sellOrder.id c1.idToOrderMap with
        | none =>
          simp only [hreg2] at hc
          cases hc
          exact hV1
        | some t2 =>
          simp only [hreg2] at hc
          cases hcan2 : Cancel c1 (ordAt c1 t2) with
          | none =>
            simp only [hcan2] at hc
            exact Option.noConfusion hc
          | some bb =>
            simp only [hcan2] at hc
            by_cases hv2 : sellOrder.volume < (ordAt c1 t2).volume
            · rw [if_pos hv2] at hc
              cases hc
              exact VC_Add (Inv_Cancel hI1 _ hcan2) (VC_Cancel hI1 hV1 _ hcan2) _ _
            · rw [if_neg hv2] at hc
              cases hc
              exact VC_Cancel hI1 hV1 _ hcan2

theorem VC_stepOp {b : Book} (h : Inv b) (hv : VolConsistent b) {op : Op}
    (hw : isWipe op = false) {b2 : Book} (hc : stepOp b op = some b2) :
    VolConsistent b2 := by
  cases op with
  | add price id s v =>
    simp only [stepOp] at hc
    cases hc
    exact VC_Add h hv _ _
  | cancel id =>
    simp only [stepOp] at hc
    exact VC_Cancel h hv _ hc
  | modify price id s v =>
    simp only [stepOp] at hc
    exact VC_Modify h hv _ _ hc
  | execute price bid bs bv sid ss sv =>
    simp only [stepOp] at hc
    exact VC_Execute h hv _ _ _ hc
  | clearBid price => simp [isWipe] at hw
  | clearAsk price => simp [isWipe] at hw
  | deleteBid price => simp [isWipe] at hw
  | deleteAsk price => simp [isWipe] at hw

theorem VC_run {b : Book} (h : Inv b) (hv : VolConsistent b) {ops : List Op}
    (hw : ∀ op ∈ ops, isWipe op = false) : VolConsistent (run b ops) := by
  induction ops generalizing b with
  | nil => exact hv
  | cons op rest ih =>
    rw [run]
    cases hc : stepOp b op with
    | none =>
      refine ih ?_ ?_ (fun op2 hm => hw op2 (List.mem_cons_of_mem op hm))
      · simpa [hc] using h
      · simpa [hc] using hv
    | some bb =>
      refine ih ?_ ?_ (fun op2 hm => hw op2 (List.mem_cons_of_mem op hm))
      · simpa [hc] using Inv_stepOp h op hc
      · simpa [hc] using VC_stepOp h hv (hw op (List.mem_cons_self op rest)) hc

/-- C1 (counterexample): the wipe paths do not subtract the removed volume
from the per-side running totals.  After `add(100, id 1, BUY, 5)` and
`clear_bid_limit(100)` the book keeps `totalBuyVolume = 5` while the only
bid level's `totalVolume` is 0, so the sum invariant is broken. -/
theorem c1_wipe_counterexample :
    ¬ VolConsistent (run NewOrderbook [Op.add 100 1 true 5, Op.clearBid 100]) := by
  decide

/-- C1 (amended): after every sequence of public operations that uses no
wipe path (no clear_bid/ask and no delete_bid/ask), `totalBuyVolume` equals
the sum of `totalVolume` over the bid levels and `totalSellVolume` the sum
over the ask levels.  The unrestricted claim is false: the wipe paths
remove volume from a level without touching the running totals
(`c1_wipe_counterexample`). -/
theorem c1_volume_invariant {ops : List Op} (h : ∀ op ∈ ops, isWipe op = false) :
    VolConsistent (run NewOrderbook ops) :=
  VC_run Inv_new VC_new h

theorem c1_volume_invariant_witness :
    (∀ op ∈ [Op.add 100 1 true 5, Op.add 101 2 false 7, Op.cancel 1],
      isWipe op = false) ∧
    VolConsistent (run NewOrderbook
      [Op.add 100 1 true 5, Op.add 101 2 false 7, Op.cancel 1]) :=
  ⟨by decide, c1_volume_invariant (by decide)⟩

/-- C5: after every sequence of public operations, a price is a key of a
side's cache exactly when that side's tree has a node there, and the two
store the same `PriceLevel` (the same limit tag): the lookups agree as
options. -/
theorem c5_mirror_invariant {b : Book} (h : Reachable b) (s : Bool) (p : Int) :
    alookup p (sideCache b s) = alookup p (sideTree b s) :=
  (reachable_inv h).mirror s p

theorem c5_mirror_invariant_witness :
    alookup 100 (sideCache (run NewOrderbook [Op.add 100 1 true 5]) true) =
      alookup 100 (sideTree (run NewOrderbook [Op.add 100 1 true 5]) true) :=
  c5_mirror_invariant ⟨[Op.add 100 1 true 5], rfl⟩ true 100

/-- C6: clearing a price absent from the side's cache panics (`none`), and
the run semantics keep the book unchanged across the failed call. -/
theorem c6_clear_absent_panics {b : Book} {p : Int} {s : Bool}
    (h : alookup p (sideCache b s) = none) :
    clearLimit b p s = none ∧
    run b [if s then Op.clearBid p else Op.clearAsk p] = b := by
  have h1 : clearLimit b p s = none := by rw [clearLimit, h]
  refine ⟨h1, ?_⟩
  cases s
  · show run b [Op.clearAsk p] = b
    simp [run, stepOp, ClearAskLimit, h1]
  · show run b [Op.clearBid p] = b
    simp [run, stepOp, ClearBidLimit, h1]

theorem c6_clear_absent_panics_witness :
    alookup (500 : Int) (sideCache NewOrderbook true) = none ∧
    (clearLimit NewOrderbook 500 true = none ∧
      run NewOrderbook [if true then Op.clearBid 500 else Op.clearAsk 500] =
        NewOrderbook) :=
  ⟨rfl, c6_clear_absent_panics (b := NewOrderbook) (p := 500) (s := true) rfl⟩

/-- C7: cancel of an unregistered id, modify of an unregistered id, and
delete of an absent price each return normally with the book unchanged. -/
theorem c7_silent_noop {b : Book} (o : Order) (q p1 p2 : Int)
    (h1 : alookup o.id b.idToOrderMap = none)
    (h2 : alookup p1 b.bidLimitsCache = none)
    (h3 : alookup p2 b.askLimitsCache = none) :
    Cancel b o = some b ∧ Modify b q o = some b ∧
    DeleteBidLimit b p1 = b ∧ DeleteAskLimit b p2 = b := by
  refine ⟨Cancel_notfound h1, ?_, ?_, ?_⟩
  · simp [Modify, h1]
  · simp [DeleteBidLimit, h2]
  · simp [DeleteAskLimit, h3]

theorem c7_silent_noop_witness :
    alookup (mkOrder 7 true 3).id NewOrderbook.idToOrderMap = none ∧
    alookup (50 : Int) NewOrderbook.bidLimitsCache = none ∧
    alookup (60 : Int) NewOrderbook.askLimitsCache = none ∧
    (Cancel NewOrderbook (mkOrder 7 true 3) = some NewOrderbook ∧
      Modify NewOrderbook 100 (mkOrder 7 true 3) = some NewOrderbook ∧
      DeleteBidLimit NewOrderbook 50 = NewOrderbook ∧
      DeleteAskLimit NewOrderbook 60 = NewOrderbook) :=
  ⟨rfl, rfl, rfl, c7_silent_noop (mkOrder 7 true 3) 100 50 60 rfl rfl rfl⟩

theorem depth_foldl_spec (b : Book) (p : Int) (s : Bool) (l : List (Int × Nat))
    (dr : DepthRank) :
    l.foldl
      (fun dr2 e =>
        let lim := limAt b e.2
        let dr1 := {dr2 with totalVolume := dr2.totalVolume + lim.totalVolume,
                             totalDepth := dr2.totalDepth + 1}
        if (if s then p ≤ lim.price else lim.price ≤ p) then
          {dr1 with volumeAhead := dr1.volumeAhead + lim.totalVolume,
                    depthLevel := dr1.depthLevel + 1}
        else dr1) dr =
    { volumeAhead := dr.volumeAhead +
        ((l.filter (fun e =>
          if s then p ≤ (limAt b e.2).price else (limAt b e.2).price ≤ p)).map
          (fun e => (limAt b e.2).totalVolume)).sum,
      totalVolume := dr.totalVolume + (l.map (fun e => (limAt b e.2).totalVolume)).sum,
      depthLevel := dr.depthLevel +
        ((l.filter (fun e =>
          if s then p ≤ (limAt b e.2).price else (limAt b e.2).price ≤ p)).length : Int),
      totalDepth := dr.totalDepth + (l.length : Int) } := by
  induction l generalizing dr with
  | nil => simp
  | cons e r ih =>
    rw [List.foldl_cons, ih]
    cases s
    · by_cases hf : (limAt b e.2).price ≤ p
      · simp [hf, List.filter_cons, DepthRank.mk.injEq]
        all_goals omega
      · simp [hf, List.filter_cons, DepthRank.mk.injEq]
        all_goals omega
    · by_cases hf : p ≤ (limAt b e.2).price
      · simp [hf, List.filter_cons, DepthRank.mk.injEq]
        all_goals omega
      · simp [hf, List.filter_cons, DepthRank.mk.injEq]
        all_goals omega

/-- C4: for every book state, side and price (present in the book or not),
`GetDepthRank` walks the whole side and returns: `totalDepth` = the number
of levels on that side, `totalVolume` = the sum of their `totalVolume`,
`depthLevel` = the number of levels whose price is at least as favorable
as the probe (`≥` for bids, `≤` for asks), and `volumeAhead` = the sum of
`totalVolume` over exactly those levels. -/
theorem c4_depth_rank_correct (b : Book) (p : Int) (s : Bool) :
    GetDepthRank b p s =
      { volumeAhead := (((sideWalk b s).filter (fun e =>
            if s then p ≤ (limAt b e.2).price else (limAt b e.2).price ≤ p)).map
            (fun e => (limAt b e.2).totalVolume)).sum,
        totalVolume := ((sideWalk b s).map (fun e => (limAt b e.2).totalVolume)).sum,
        depthLevel := (((sideWalk b s).filter (fun e =>
            if s then p ≤ (limAt b e.2).price else (limAt b e.2).price ≤ p)).length : Int),
        totalDepth := ((sideWalk b s).length : Int) } := by
  rw [GetDepthRank, depth_foldl_spec]
  simp

theorem range_map_get {α β : Type} (f : α → β) (d : β) (l : List α) (n : Nat) :
    (List.range n).map (fun i =>
      match l.get? i with
      | some a => f a
      | none => d) =
    (l.map f).take n ++ List.replicate (n - l.length) d := by
  induction l generalizing n with
  | nil =>
    show (List.range n).map (fun _ => d) = ([] : List β).take n ++ List.replicate (n - 0) d
    simp [List.map_const']
  | cons a l ih =>
    cases n with
    | zero => simp
    | succ n =>
      rw [List.range_succ_eq_map, List.map_cons, List.map_map]
      show (match (a :: l).get? 0 with | some x => f x | none => d) ::
          (List.range n).map (fun i =>
            match l.get? i with | some x => f x | none => d) = _
      rw [ih n]
      simp [Nat.succ_sub_succ]

theorem pairwise_sideWalk {b : Book} (h : Inv b) (s : Bool) :
    (sideWalk b s).Pairwise (fun e1 e2 =>
      if s then e2.1 < e1.1 else e1.1 < e2.1) := by
  cases s
  · have := h.sorted false
    rw [TSorted] at this
    simpa [sideWalk] using this
  · have := h.sorted true
    rw [TSorted] at this
    rw [sideWalk]
    simp only [if_pos]
    rw [List.pairwise_reverse]
    simpa using this

/-- C3: for every reachable book, side and requested count, the depth read
is the best-to-worst walk's rows truncated to `n` and padded with the
default row `{0, 0, 0}`; in particular it has exactly `n` rows, and the
walked rows carry strictly worsening prices (descending for bids,
ascending for asks). -/
theorem c3_nbest_correct {b : Book} (h : Reachable b) (n : Nat) (s : Bool) :
    (getBest20 b n s).length = n ∧
    getBest20 b n s =
      ((sideWalk b s).map (fun e => depthOfLimit (limAt b e.2))).take n ++
        List.replicate (n - (sideWalk b s).length) ⟨0, 0, 0⟩ ∧
    ((sideWalk b s).map (fun e => depthOfLimit (limAt b e.2))).Pairwise
      (fun r1 r2 => if s then r2.price < r1.price else r1.price < r2.price) := by
  have hI := reachable_inv h
  refine ⟨by simp [getBest20], ?_, ?_⟩
  · rw [getBest20]
    generalize sideWalk b s = l
    induction l generalizing n with
    | nil =>
      show (List.range n).map (fun _ => (⟨0, 0, 0⟩ : OrderDepth)) = _
      simp [List.map_const']
    | cons a l ih =>
      cases n with
      | zero => simp
      | succ n =>
        rw [List.range_succ_eq_map, List.map_cons, List.map_map]
        show (match (a :: l).get? 0 with
              | some e => depthOfLimit (limAt b e.2)
              | none => ⟨0, 0, 0⟩) ::
            (List.range n).map (fun i =>
              match l.get? i with
              | some e => depthOfLimit (limAt b e.2)
              | none => ⟨0, 0, 0⟩) = _
        rw [ih n]
        simp [Nat.succ_sub_succ]
  · rw [List.pairwise_map]
    have hpw := pairwise_sideWalk hI s
    refine hpw.imp_of_mem ?_
    intro e1 e2 h1 h2 hlt
    have h1t : e1 ∈ sideTree b s := by
      cases s <;> simpa [sideWalk, sideTree] using h1
    have h2t : e2 ∈ sideTree b s := by
      cases s <;> simpa [sideWalk, sideTree] using h2
    have hp1 : (limAt b e1.2).price = e1.1 := by
      have hkey : alookup e1.1 (sideCache b s) = some e1.2 := by
        rw [hI.mirror]
        exact alookup_of_mem_nodup (TSorted_keys_nodup (hI.sorted s)) (by simpa using h1t)
      exact (hI.lims _ _ _ hkey).priceEq
    have hp2 : (limAt b e2.2).price = e2.1 := by
      have hkey : alookup e2.1 (sideCache b s) = some e2.2 := by
        rw [hI.mirror]
        exact alookup_of_mem_nodup (TSorted_keys_nodup (hI.sorted s)) (by simpa using h2t)
      exact (hI.lims _ _ _ hkey).priceEq
    cases s
    · simpa [depthOfLimit, hp1, hp2] using hlt
    · simpa [depthOfLimit, hp1, hp2] using hlt

theorem c3_nbest_correct_witness :
    ((getBest20 (run NewOrderbook
        [Op.add 100 1 true 5, Op.add 101 2 true 7, Op.add 99 3 true 2]) 3 true).length = 3 ∧
      getBest20 (run NewOrderbook
        [Op.add 100 1 true 5, Op.add 101 2 true 7, Op.add 99 3 true 2]) 3 true =
        ((sideWalk (run NewOrderbook
            [Op.add 100 1 true 5, Op.add 101 2 true 7, Op.add 99 3 true 2]) true).map
          (fun e => depthOfLimit (limAt (run NewOrderbook
            [Op.add 100 1 true 5, Op.add 101 2 true 7, Op.add 99 3 true 2]) e.2))).take 3 ++
          List.replicate (3 - (sideWalk (run NewOrderbook
            [Op.add 100 1 true 5, Op.add 101 2 true 7, Op.add 99 3 true 2]) true).length)
            ⟨0, 0, 0⟩ ∧
      ((sideWalk (run NewOrderbook
          [Op.add 100 1 true 5, Op.add 101 2 true 7, Op.add 99 3 true 2]) true).map
        (fun e => depthOfLimit (limAt (run NewOrderbook
          [Op.add 100 1 true 5, Op.add 101 2 true 7, Op.add 99 3 true 2]) e.2))).Pairwise
        (fun r1 r2 => if true then r2.price < r1.price else r1.price < r2.price)) ∧
    getBest20 (run NewOrderbook
        [Op.add 100 1 true 5, Op.add 101 2 true 7, Op.add 99 3 true 2]) 3 true =
      [⟨101, 7, 1⟩, ⟨100, 5, 1⟩, ⟨99, 2, 1⟩] :=
  ⟨c3_nbest_correct
    ⟨[Op.add 100 1 true 5, Op.add 101 2 true 7, Op.add 99 3 true 2], rfl⟩ 3 true,
   by decide⟩

/-- C2: `Execute` is exactly the spec's per-side procedure applied first to
the buy order and then (on the resulting book) to the sell order: each
registered id has its resting order cancelled and, when the resting volume
strictly exceeds the passed-in volume, the passed-in order re-added at
`price` with the residual volume under its original id; an unregistered id
leaves that side untouched. -/
theorem c2_execute_correct (b : Book) (price : Int) (buyOrder sellOrder : Order) :
    Execute b price buyOrder sellOrder =
      (executeSideSpec b price buyOrder).bind
        (fun b1 => executeSideSpec b1 price sellOrder) := by
  simp only [Execute, executeSideSpec]
  cases hreg1 : alookup buyOrder.id b.idToOrderMap with
  | none => simp only [hreg1, Option.some_bind]
  | some t1 =>
    simp only [hreg1]
    cases hcan1 : Cancel b (ordAt b t1) with
    | none => simp only [hcan1, Option.none_bind]
    | some c1 =>
      simp only [hcan1]
      by_cases hv1 : buyOrder.volume < (ordAt b t1).volume
      · rw [if_pos hv1]
        simp only [Option.some_bind]
      · rw [if_neg hv1]
        simp only [Option.some_bind]

theorem ordAt_consB_self {b b2 : Book} {t : Nat} {o : Order}
    (hoh : b2.ordersHeap = (t, o) :: b.ordersHeap) : ordAt b2 t = o := by
  rw [ordAt, hoh, alookup_cons_self]
  rfl

theorem ordAt_consB_ne {b b2 : Book} {t x : Nat} {o : Order}
    (hoh : b2.ordersHeap = (t, o) :: b.ordersHeap) (hne : x ≠ t) :
    ordAt b2 x = ordAt b x := by
  rw [ordAt, hoh, alookup_cons_ne _ _ (Ne.symm hne), ordAt]

theorem Add_registers {b : Book} (h : Inv b) (p : Int) (o : Order) :
    alookup o.id (Add b p o).idToOrderMap = some b.nextOrderTag ∧
    (ordAt (Add b p o) b.nextOrderTag).id = o.id ∧
    (ordAt (Add b p o) b.nextOrderTag).bidOrAsk = o.bidOrAsk ∧
    (ordAt (Add b p o) b.nextOrderTag).volume = o.volume ∧
    (∃ lt2, (ordAt (Add b p o) b.nextOrderTag).limit = some lt2 ∧
      alookup p (sideCache (Add b p o) o.bidOrAsk) = some lt2 ∧
      (limAt (Add b p o) lt2).price = p ∧
      (limAt (Add b p o) lt2).orders.getLast? = some b.nextOrderTag) ∧
    sideTotal (Add b p o) o.bidOrAsk = sideTotal b o.bidOrAsk + o.volume ∧
    sideTotal (Add b p o) (!o.bidOrAsk) = sideTotal b (!o.bidOrAsk) ∧
    (∀ x, x ≠ b.nextOrderTag → ordAt (Add b p o) x = ordAt b x) := by
  cases hfound : alookup p (sideCache b o.bidOrAsk) with
  | some lt =>
    have hK := h.lims _ _ _ hfound
    rw [Add_found hfound]
    refine ⟨alookup_ainsert_self _ _ _, by simp [ordAt, alookup], by simp [ordAt, alookup],
      by simp [ordAt, alookup], ⟨lt, by simp [ordAt, alookup], ?_, ?_, ?_⟩, ?_, ?_, ?_⟩
    · have hsc : ∀ s2, sideCache {b with
          idToOrderMap := ainsert o.id b.nextOrderTag b.idToOrderMap,
          ordersHeap := (b.nextOrderTag, {o with limit := some lt}) :: b.ordersHeap,
          limitsHeap := aupdate lt {limAt b lt with
            orders := (limAt b lt).orders ++ [b.nextOrderTag],
            size := (limAt b lt).size + 1,
            totalVolume := (limAt b lt).totalVolume + o.volume} b.limitsHeap,
          totalBuyVolume := if o.bidOrAsk then b.totalBuyVolume + o.volume
            else b.totalBuyVolume,
          totalSellVolume := if o.bidOrAsk then b.totalSellVolume
            else b.totalSellVolume + o.volume,
          nextOrderTag := b.nextOrderTag + 1} s2 = sideCache b s2 := by
        intro s2
        cases s2 <;> rfl
      rw [hsc]
      exact hfound
    · rw [limAt_update_self rfl hK.present]
      exact hK.priceEq
    · rw [limAt_update_self rfl hK.present]
      exact List.getLast?_concat _
    · cases hs : o.bidOrAsk <;> simp [sideTotal, hs]
    · cases hs : o.bidOrAsk <;> simp [sideTotal, hs]
    · intro x hxe
      exact ordAt_consB_ne rfl hxe
  | none =>
    cases hpool : b.pool with
    | cons lt rest =>
      have hpm : lt ∈ b.pool := by
        rw [hpool]
        exact List.mem_cons_self lt rest
      obtain ⟨hp1, hp2, hp3, hp4⟩ := h.poolOK lt hpm
      rw [Add_new_pool hfound hpool hp1]
      refine ⟨alookup_ainsert_self _ _ _, by simp [ordAt, alookup], by simp [ordAt, alookup],
        by simp [ordAt, alookup], ⟨lt, by simp [ordAt, alookup], ?_, ?_, ?_⟩, ?_, ?_, ?_⟩
      · cases hs : o.bidOrAsk
        · show alookup p (ainsert p lt b.askLimitsCache) = some lt
          exact alookup_ainsert_self _ _ _
        · show alookup p (ainsert p lt b.bidLimitsCache) = some lt
          exact alookup_ainsert_self _ _ _
      · rw [limAt_update_self rfl hp1]
      · rw [limAt_update_self rfl hp1]
        exact List.getLast?_concat _
      · cases hs : o.bidOrAsk <;> simp [sideTotal, hs]
      · cases hs : o.bidOrAsk <;> simp [sideTotal, hs]
      · intro x hxe
        exact ordAt_consB_ne rfl hxe
    | nil =>
      rw [Add_new_fresh hfound hpool]
      refine ⟨alookup_ainsert_self _ _ _, by simp [ordAt, alookup], by simp [ordAt, alookup],
        by simp [ordAt, alookup],
        ⟨b.nextLimitTag, by simp [ordAt, alookup], ?_, ?_, ?_⟩, ?_, ?_, ?_⟩
      · cases hs : o.bidOrAsk
        · show alookup p (ainsert p b.nextLimitTag b.askLimitsCache) = some b.nextLimitTag
          exact alookup_ainsert_self _ _ _
        · show alookup p (ainsert p b.nextLimitTag b.bidLimitsCache) = some b.nextLimitTag
          exact alookup_ainsert_self _ _ _
      · rw [limAt_cons_self rfl]
      · rw [limAt_cons_self rfl]
        rfl
      · cases hs : o.bidOrAsk <;> simp [sideTotal, hs]
      · cases hs : o.bidOrAsk <;> simp [sideTotal, hs]
      · intro x hxe
        exact ordAt_consB_ne rfl hxe

theorem Add_keeps_member {b : Book} (h : Inv b) {s : Bool} {P : Int} {lt1 t : Nat}
    (hlive : alookup P (sideCache b s) = some lt1) (hmem : t ∈ (limAt b lt1).orders)
    (p : Int) (o : Order) :
    t ∈ (limAt (Add b p o) lt1).orders ∧ ordAt (Add b p o) t = ordAt b t := by
  have hK := h.lims _ _ _ hlive
  have htne : t ≠ b.nextOrderTag := ne_of_lt (hK.mem t hmem).2.2.2
  cases hfound : alookup p (sideCache b o.bidOrAsk) with
  | some lt =>
    have hK2 := h.lims _ _ _ hfound
    rw [Add_found hfound]
    refine ⟨?_, ordAt_consB_ne rfl htne⟩
    by_cases hl : lt1 = lt
    · rw [hl, limAt_update_self rfl hK2.present]
      show t ∈ (limAt b lt).orders ++ [b.nextOrderTag]
      exact List.mem_append_left _ (hl ▸ hmem)
    · rw [limAt_update_ne rfl hl]
      exact hmem
  | none =>
    cases hpool : b.pool with
    | cons lt rest =>
      have hpm : lt ∈ b.pool := by
        rw [hpool]
        exact List.mem_cons_self lt rest
      obtain ⟨hp1, hp2, hp3, hp4⟩ := h.poolOK lt hpm
      have hl : lt1 ≠ lt := fun hh => live_not_pool h hlive (hh ▸ hpm)
      rw [Add_new_pool hfound hpool hp1]
      exact ⟨by rw [limAt_update_ne rfl hl]; exact hmem, ordAt_consB_ne rfl htne⟩
    | nil =>
      have hl : lt1 ≠ b.nextLimitTag :=
        ne_of_lt (h.limBound lt1 (mem_limTags_cache hlive))
      rw [Add_new_fresh hfound hpool]
      exact ⟨by rw [limAt_cons_ne rfl hl]; exact hmem, ordAt_consB_ne rfl htne⟩

theorem Cancel_effects {b : Book} (h : Inv b) {o : Order} {t : Nat} {b2 : Book}
    (hreg : alookup o.id b.idToOrderMap = some t)
    (hc : Cancel b o = some b2) :
    (∀ s2, sideTotal b2 s2 = if s2 = (ordAt b t).bidOrAsk
      then sideTotal b s2 - (ordAt b t).volume else sideTotal b s2) ∧
    b2.idToOrderMap = aerase o.id b.idToOrderMap ∧
    b2.nextOrderTag = b.nextOrderTag := by
  obtain ⟨hr1, hr2, hr3, hr4⟩ := h.regOK _ _ hreg
  cases hlim : (ordAt b t).limit with
  | none =>
    rw [Cancel_detached hreg hlim] at hc
    exact Option.noConfusion hc
  | some lt =>
    obtain ⟨hr5, hr6⟩ := hr4 lt hlim
    have hK := h.lims _ _ _ hr5
    rw [Cancel_found hreg hlim hK.present] at hc
    by_cases hsz : (limAt b lt).size - 1 = 0
    · rw [if_pos hsz] at hc
      cases hc
      refine ⟨?_, by rw [hr2], rfl⟩
      intro s2
      cases s2 <;> cases hs : (ordAt b t).bidOrAsk <;> simp [sideTotal, hs]
    · rw [if_neg hsz] at hc
      cases hc
      refine ⟨?_, by rw [hr2], rfl⟩
      intro s2
      cases s2 <;> cases hs : (ordAt b t).bidOrAsk <;> simp [sideTotal, hs]

/-- C9: a duplicate `add` while the id is still registered blindly
overwrites the registry entry with the new order (fresh tag), enqueues the
new order at the tail of the level at the new price, and grows the side's
running volume by the new order's volume, while the old resting order
stays linked, unchanged, in its original level's FIFO. -/
theorem c9_duplicate_add {b : Book} (h : Reachable b) (p2 : Int) (o2 : Order)
    {t lt1 : Nat} (hreg : alookup o2.id b.idToOrderMap = some t)
    (hlim : (ordAt b t).limit = some lt1) :
    alookup o2.id (Add b p2 o2).idToOrderMap = some b.nextOrderTag ∧
    (ordAt (Add b p2 o2) b.nextOrderTag).id = o2.id ∧
    (ordAt (Add b p2 o2) b.nextOrderTag).bidOrAsk = o2.bidOrAsk ∧
    (ordAt (Add b p2 o2) b.nextOrderTag).volume = o2.volume ∧
    (∃ lt2, (ordAt (Add b p2 o2) b.nextOrderTag).limit = some lt2 ∧
      alookup p2 (sideCache (Add b p2 o2) o2.bidOrAsk) = some lt2 ∧
      (limAt (Add b p2 o2) lt2).orders.getLast? = some b.nextOrderTag) ∧
    sideTotal (Add b p2 o2) o2.bidOrAsk = sideTotal b o2.bidOrAsk + o2.volume ∧
    t ∈ (limAt (Add b p2 o2) lt1).orders ∧
    ordAt (Add b p2 o2) t = ordAt b t := by
  have hI := reachable_inv h
  obtain ⟨hr1, hr2, hr3, hr4⟩ := hI.regOK _ _ hreg
  obtain ⟨hr5, hr6⟩ := hr4 lt1 hlim
  obtain ⟨ha1, ha2, ha3, ha4, ⟨lt2, hb1, hb2, hb3, hb4⟩, ha6, ha7, ha8⟩ :=
    Add_registers hI p2 o2
  obtain ⟨hm1, hm2⟩ := Add_keeps_member hI hr5 hr6 p2 o2
  exact ⟨ha1, ha2, ha3, ha4, ⟨lt2, hb1, hb2, hb4⟩, ha6, hm1, hm2⟩

theorem c9_duplicate_add_witness :
    alookup (mkOrder 1 true 4).id
        (Add (run NewOrderbook [Op.add 100 1 true 5]) 101 (mkOrder 1 true 4)).idToOrderMap =
      some (run NewOrderbook [Op.add 100 1 true 5]).nextOrderTag ∧
    (ordAt (Add (run NewOrderbook [Op.add 100 1 true 5]) 101 (mkOrder 1 true 4))
        (run NewOrderbook [Op.add 100 1 true 5]).nextOrderTag).id = (mkOrder 1 true 4).id ∧
    (ordAt (Add (run NewOrderbook [Op.add 100 1 true 5]) 101 (mkOrder 1 true 4))
        (run NewOrderbook [Op.add 100 1 true 5]).nextOrderTag).bidOrAsk =
      (mkOrder 1 true 4).bidOrAsk ∧
    (ordAt (Add (run NewOrderbook [Op.add 100 1 true 5]) 101 (mkOrder 1 true 4))
        (run NewOrderbook [Op.add 100 1 true 5]).nextOrderTag).volume =
      (mkOrder 1 true 4).volume ∧
    (∃ lt2, (ordAt (Add (run NewOrderbook [Op.add 100 1 true 5]) 101 (mkOrder 1 true 4))
        (run NewOrderbook [Op.add 100 1 true 5]).nextOrderTag).limit = some lt2 ∧
      alookup 101 (sideCache (Add (run NewOrderbook [Op.add 100 1 true 5]) 101
        (mkOrder 1 true 4)) (mkOrder 1 true 4).bidOrAsk) = some lt2 ∧
      (limAt (Add (run NewOrderbook [Op.add 100 1 true 5]) 101 (mkOrder 1 true 4))
        lt2).orders.getLast? =
          some (run NewOrderbook [Op.add 100 1 true 5]).nextOrderTag) ∧
    sideTotal (Add (run NewOrderbook [Op.add 100 1 true 5]) 101 (mkOrder 1 true 4))
        (mkOrder 1 true 4).bidOrAsk =
      sideTotal (run NewOrderbook [Op.add 100 1 true 5]) (mkOrder 1 true 4).bidOrAsk +
        (mkOrder 1 true 4).volume ∧
    0 ∈ (limAt (Add (run NewOrderbook [Op.add 100 1 true 5]) 101 (mkOrder 1 true 4))
        0).orders ∧
    ordAt (Add (run NewOrderbook [Op.add 100 1 true 5]) 101 (mkOrder 1 true 4)) 0 =
      ordAt (run NewOrderbook [Op.add 100 1 true 5]) 0 :=
  c9_duplicate_add ⟨[Op.add 100 1 true 5], rfl⟩ 101 (mkOrder 1 true 4)
    (by decide :
      alookup (mkOrder 1 true 4).id
        (run NewOrderbook [Op.add 100 1 true 5]).idToOrderMap = some 0)
    (by decide :
      (ordAt (run NewOrderbook [Op.add 100 1 true 5]) 0).limit = some 0)

/-- C10: `Modify` takes the destination side from the incoming order's own
side flag: after a modify of a registered id whose new order carries the
opposite flag, the registry maps the id to an order resting on the new
side at the new price, the old side's running total drops by the resting
volume, and the new side's running total grows by the new volume. -/
theorem c10_modify_side {b : Book} (h : Reachable b) {o : Order} {t : Nat} (p : Int)
    (hreg : alookup o.id b.idToOrderMap = some t) {c : Book}
    (hc : Modify b p o = some c)
    (hside : o.bidOrAsk = !(ordAt b t).bidOrAsk) :
    (∃ t2, alookup o.id c.idToOrderMap = some t2 ∧
      (ordAt c t2).bidOrAsk = o.bidOrAsk ∧ (ordAt c t2).volume = o.volume ∧
      ∃ lt2, (ordAt c t2).limit = some lt2 ∧
        alookup p (sideCache c o.bidOrAsk) = some lt2 ∧
        (limAt c lt2).price = p) ∧
    sideTotal c (ordAt b t).bidOrAsk =
      sideTotal b (ordAt b t).bidOrAsk - (ordAt b t).volume ∧
    sideTotal c o.bidOrAsk = sideTotal b o.bidOrAsk + o.volume := by
  have hI := reachable_inv h
  obtain ⟨hr1, hr2, hr3, hr4⟩ := hI.regOK _ _ hreg
  simp only [Modify, hreg] at hc
  cases hcan : Cancel b (ordAt b t) with
  | none =>
    simp only [hcan] at hc
    exact Option.noConfusion hc
  | some b1 =>
    simp only [hcan] at hc
    cases hc
    have hI1 : Inv b1 := Inv_Cancel hI _ hcan
    have hreg2 : alookup (ordAt b t).id b.idToOrderMap = some t := by
      rw [hr2]
      exact hreg
    obtain ⟨hct, hcr, hcn⟩ := Cancel_effects hI hreg2 hcan
    obtain ⟨ha1, ha2, ha3, ha4, ⟨lt2, hb1, hb2, hb3, hb4⟩, ha6, ha7, ha8⟩ :=
      Add_registers hI1 p o
    have hs1 : (ordAt b t).bidOrAsk = !o.bidOrAsk := by
      rw [hside, Bool.not_not]
    refine ⟨⟨b1.nextOrderTag, ha1, ha3, ha4, lt2, hb1, hb2, hb3⟩, ?_, ?_⟩
    · have h1 : sideTotal (Add b1 p o) (ordAt b t).bidOrAsk =
          sideTotal b1 (ordAt b t).bidOrAsk := by
        rw [hs1]
        exact ha7
      rw [h1, hct (ordAt b t).bidOrAsk, if_pos rfl]
    · have h2 : o.bidOrAsk ≠ (ordAt b t).bidOrAsk := by
        rw [hside]
        cases (ordAt b t).bidOrAsk <;> simp
      rw [ha6, hct o.bidOrAsk, if_neg h2]

theorem c10_modify_side_witness :
    (∃ t2, alookup (mkOrder 1 false 4).id
        ((Modify (run NewOrderbook [Op.add 100 1 true 5]) 200
          (mkOrder 1 false 4)).getD (run NewOrderbook [Op.add 100 1 true 5])).idToOrderMap =
        some t2 ∧
      (ordAt ((Modify (run NewOrderbook [Op.add 100 1 true 5]) 200
          (mkOrder 1 false 4)).getD (run NewOrderbook [Op.add 100 1 true 5])) t2).bidOrAsk =
        (mkOrder 1 false 4).bidOrAsk ∧
      (ordAt ((Modify (run NewOrderbook [Op.add 100 1 true 5]) 200
          (mkOrder 1 false 4)).getD (run NewOrderbook [Op.add 100 1 true 5])) t2).volume =
        (mkOrder 1 false 4).volume ∧
      ∃ lt2, (ordAt ((Modify (run NewOrderbook [Op.add 100 1 true 5]) 200
          (mkOrder 1 false 4)).getD (run NewOrderbook [Op.add 100 1 true 5])) t2).limit =
          some lt2 ∧
        alookup 200 (sideCache ((Modify (run NewOrderbook [Op.add 100 1 true 5]) 200
          (mkOrder 1 false 4)).getD (run NewOrderbook [Op.add 100 1 true 5]))
          (mkOrder 1 false 4).bidOrAsk) = some lt2 ∧
        (limAt ((Modify (run NewOrderbook [Op.add 100 1 true 5]) 200
          (mkOrder 1 false 4)).getD (run NewOrderbook [Op.add 100 1 true 5])) lt2).price =
          200) ∧
    sideTotal ((Modify (run NewOrderbook [Op.add 100 1 true 5]) 200
        (mkOrder 1 false 4)).getD (run NewOrderbook [Op.add 100 1 true 5]))
        (ordAt (run NewOrderbook [Op.add 100 1 true 5]) 0).bidOrAsk =
      sideTotal (run NewOrderbook [Op.add 100 1 true 5])
          (ordAt (run NewOrderbook [Op.add 100 1 true 5]) 0).bidOrAsk -
        (ordAt (run NewOrderbook [Op.add 100 1 true 5]) 0).volume ∧
    sideTotal ((Modify (run NewOrderbook [Op.add 100 1 true 5]) 200
        (mkOrder 1 false 4)).getD (run NewOrderbook [Op.add 100 1 true 5]))
        (mkOrder 1 false 4).bidOrAsk =
      sideTotal (run NewOrderbook [Op.add 100 1 true 5]) (mkOrder 1 false 4).bidOrAsk +
        (mkOrder 1 false 4).volume :=
  c10_modify_side ⟨[Op.add 100 1 true 5], rfl⟩ 200
    (by decide :
      alookup (mkOrder 1 false 4).id
        (run NewOrderbook [Op.add 100 1 true 5]).idToOrderMap = some 0)
    (rfl :
      Modify (run NewOrderbook [Op.add 100 1 true 5]) 200 (mkOrder 1 false 4) =
        some ((Modify (run NewOrderbook [Op.add 100 1 true 5]) 200
          (mkOrder 1 false 4)).getD (run NewOrderbook [Op.add 100 1 true 5])))
    (by decide :
      (mkOrder 1 false 4).bidOrAsk =
        !(ordAt (run NewOrderbook [Op.add 100 1 true 5]) 0).bidOrAsk)

theorem aerase_ainsert {α β : Type} [DecidableEq α] (k : α) (v : β) (l : List (α × β)) :
    aerase k (ainsert k v l) = aerase k l := by
  show aerase k ((k, v) :: aerase k l) = aerase k l
  simp [aerase, aerase_of_none (alookup_aerase_self k l)]

/-- C8 (counterexample to the unconditional round trip): after a clear
leaves an empty live level at price 100, a fresh `add` at 100 followed by
its `cancel` hits the wipe path and removes the pre-existing level from
the bids tree, so the book is not observationally equal to its pre-add
state. -/
theorem c8_roundtrip_counterexample :
    (run NewOrderbook
        [Op.add 100 1 true 5, Op.clearBid 100, Op.add 100 2 true 3, Op.cancel 2]).bids ≠
      (run NewOrderbook [Op.add 100 1 true 5, Op.clearBid 100]).bids := by
  decide

/-- C8 (amended): for a reachable book, a fresh order id, and a target
level that is either absent or has a non-empty FIFO, `add` then `cancel`
of that order restores the registry, both trees, both caches and both
running totals exactly, and leaves every originally live level's record
(price, FIFO, size, total volume) unchanged; only the heaps and free
list may differ (the recycled `PriceLevel`).  Without the level
hypothesis the claim fails (`c8_roundtrip_counterexample`): cancelling
into a pre-existing empty level deletes that level. -/
theorem c8_round_trip {b : Book} (h : Reachable b) (p : Int) (o : Order)
    (hfresh : alookup o.id b.idToOrderMap = none)
    (hlevel : alookup p (sideCache b o.bidOrAsk) = none ∨
      ∃ lt, alookup p (sideCache b o.bidOrAsk) = some lt ∧ (limAt b lt).orders ≠ []) :
    ∃ c, Cancel (Add b p o) o = some c ∧
      c.idToOrderMap = b.idToOrderMap ∧
      c.bids = b.bids ∧ c.asks = b.asks ∧
      c.bidLimitsCache = b.bidLimitsCache ∧ c.askLimitsCache = b.askLimitsCache ∧
      c.totalBuyVolume = b.totalBuyVolume ∧ c.totalSellVolume = b.totalSellVolume ∧
      ∀ s q lt, alookup q (sideCache b s) = some lt → limAt c lt = limAt b lt := by
  have hI := reachable_inv h
  rcases hlevel with hmiss | ⟨lt, hfound, hne⟩
  · cases hpool : b.pool with
    | cons lt rest =>
      have hpm : lt ∈ b.pool := by
        rw [hpool]
        exact List.mem_cons_self lt rest
      obtain ⟨hp1, hp2, hp3, hp4⟩ := hI.poolOK lt hpm
      rw [Add_new_pool hmiss hpool hp1]
      set B : Book := {b with
        bids := if o.bidOrAsk then treePut p lt b.bids else b.bids,
        asks := if o.bidOrAsk then b.asks else treePut p lt b.asks,
        bidLimitsCache := if o.bidOrAsk then ainsert p lt b.bidLimitsCache
          else b.bidLimitsCache,
        askLimitsCache := if o.bidOrAsk then b.askLimitsCache
          else ainsert p lt b.askLimitsCache,
        idToOrderMap := ainsert o.id b.nextOrderTag b.idToOrderMap,
        ordersHeap := (b.nextOrderTag, {o with limit := some lt}) :: b.ordersHeap,
        limitsHeap := aupdate lt {limAt b lt with
          price := p,
          orders := (limAt b lt).orders ++ [b.nextOrderTag],
          size := (limAt b lt).size + 1,
          totalVolume := (limAt b lt).totalVolume + o.volume} b.limitsHeap,
        pool := rest,
        totalBuyVolume := if o.bidOrAsk then b.totalBuyVolume + o.volume
          else b.totalBuyVolume,
        totalSellVolume := if o.bidOrAsk then b.totalSellVolume
          else b.totalSellVolume + o.volume,
        nextOrderTag := b.nextOrderTag + 1} with hB
      have hregB : alookup o.id B.idToOrderMap = some b.nextOrderTag := by
        rw [hB]
        exact alookup_ainsert_self _ _ _
      have hOB : ordAt B b.nextOrderTag = {o with limit := some lt} := by
        rw [hB]
        simp [ordAt, alookup]
      have hLB : limAt B lt = {limAt b lt with
          price := p,
          orders := (limAt b lt).orders ++ [b.nextOrderTag],
          size := (limAt b lt).size + 1,
          totalVolume := (limAt b lt).totalVolume + o.volume} := by
        rw [hB]
        exact limAt_update_self rfl hp1
      have hpresB : alookup lt B.limitsHeap ≠ none := by
        rw [hB]
        exact (aupdate_present _).mpr hp1
      have hlimB : (ordAt B b.nextOrderTag).limit = some lt := by rw [hOB]
      rw [Cancel_found hregB hlimB hpresB]
      have hsz : (limAt B lt).size - 1 = 0 := by
        rw [hLB]
        show (limAt b lt).size + 1 - 1 = 0
        rw [hp3]
        decide
      rw [if_pos hsz]
      refine ⟨_, rfl, ?_, ?_, ?_, ?_, ?_, ?_, ?_, ?_⟩
      · rw [hOB]
        show aerase o.id B.idToOrderMap = b.idToOrderMap
        rw [hB]
        show aerase o.id (ainsert o.id b.nextOrderTag b.idToOrderMap) = b.idToOrderMap
        rw [aerase_ainsert, aerase_of_none hfresh]
      · rw [hOB, hLB]
        show (if o.bidOrAsk then treeDelete p B.bids else B.bids) = b.bids
        rw [hB]
        cases ho : o.bidOrAsk
        · simp [ho]
        · rw [ho] at hmiss
          have htmiss : alookup p b.bids = none := by
            have h2 : alookup p (sideTree b true) = none := by
              rw [← hI.mirror]
              exact hmiss
            exact h2
          simp only [if_pos, if_true, treeDelete]
          show aerase p (treePut p lt b.bids) = b.bids
          exact aerase_treePut lt htmiss
      · rw [hOB]
        show (if o.bidOrAsk then B.asks else treeDelete (limAt B lt).price B.asks) = b.asks
        rw [hLB]
        show (if o.bidOrAsk then B.asks else treeDelete p B.asks) = b.asks
        rw [hB]
        cases ho : o.bidOrAsk
        · rw [ho] at hmiss
          have htmiss : alookup p b.asks = none := by
            have h2 : alookup p (sideTree b false) = none := by
              rw [← hI.mirror]
              exact hmiss
            exact h2
          simp only [Bool.false_eq_true, if_false, treeDelete]
          show aerase p (treePut p lt b.asks) = b.asks
          exact aerase_treePut lt htmiss
        · simp [ho]
      · rw [hOB, hLB]
        show (if o.bidOrAsk then aerase p B.bidLimitsCache else B.bidLimitsCache) =
          b.bidLimitsCache
        rw [hB]
        cases ho : o.bidOrAsk
        · simp [ho]
        · rw [ho] at hmiss
          have hcmiss : alookup p b.bidLimitsCache = none := hmiss
          simp only [if_pos, if_true]
          show aerase p (ainsert p lt b.bidLimitsCache) = b.bidLimitsCache
          rw [aerase_ainsert, aerase_of_none hcmiss]
      · rw [hOB, hLB]
        show (if o.bidOrAsk then B.askLimitsCache else aerase p B.askLimitsCache) =
          b.askLimitsCache
        rw [hB]
        cases ho : o.bidOrAsk
        · rw [ho] at hmiss
          have hcmiss : alookup p b.askLimitsCache = none := hmiss
          simp only [Bool.false_eq_true, if_false]
          show aerase p (ainsert p lt b.askLimitsCache) = b.askLimitsCache
          rw [aerase_ainsert, aerase_of_none hcmiss]
        · simp [ho]
      · rw [hOB]
        show (if o.bidOrAsk then B.totalBuyVolume - o.volume else B.totalBuyVolume) =
          b.totalBuyVolume
        rw [hB]
        cases ho : o.bidOrAsk <;> simp [ho]
      · rw [hOB]
        show (if o.bidOrAsk then B.totalSellVolume else B.totalSellVolume - o.volume) =
          b.totalSellVolume
        rw [hB]
        cases ho : o.bidOrAsk <;> simp [ho]
      · intro s2 q lt2 hq
        have hll : lt2 ≠ lt := fun hh => live_not_pool hI hq (hh ▸ hpm)
        rw [limAt_update_ne rfl hll, hB]
        exact limAt_update_ne rfl hll
    | nil =>
      rw [Add_new_fresh hmiss hpool]
      set B : Book := {b with
        bids := if o.bidOrAsk then treePut p b.nextLimitTag b.bids else b.bids,
        asks := if o.bidOrAsk then b.asks else treePut p b.nextLimitTag b.asks,
        bidLimitsCache := if o.bidOrAsk then ainsert p b.nextLimitTag b.bidLimitsCache
          else b.bidLimitsCache,
        askLimitsCache := if o.bidOrAsk then b.askLimitsCache
          else ainsert p b.nextLimitTag b.askLimitsCache,
        idToOrderMap := ainsert o.id b.nextOrderTag b.idToOrderMap,
        ordersHeap := (b.nextOrderTag, {o with limit := some b.nextLimitTag}) :: b.ordersHeap,
        limitsHeap := (b.nextLimitTag, ⟨p, [b.nextOrderTag], 1, o.volume⟩) :: b.limitsHeap,
        totalBuyVolume := if o.bidOrAsk then b.totalBuyVolume + o.volume
          else b.totalBuyVolume,
        totalSellVolume := if o.bidOrAsk then b.totalSellVolume
          else b.totalSellVolume + o.volume,
        nextOrderTag := b.nextOrderTag + 1,
        nextLimitTag := b.nextLimitTag + 1} with hB
      have hregB : alookup o.id B.idToOrderMap = some b.nextOrderTag := by
        rw [hB]
        exact alookup_ainsert_self _ _ _
      have hOB : ordAt B b.nextOrderTag = {o with limit := some b.nextLimitTag} := by
        rw [hB]
        simp [ordAt, alookup]
      have hLB : limAt B b.nextLimitTag = ⟨p, [b.nextOrderTag], 1, o.volume⟩ := by
        rw [hB]
        exact limAt_cons_self rfl
      have hpresB : alookup b.nextLimitTag B.limitsHeap ≠ none := by
        rw [hB]
        simp [alookup]
      have hlimB : (ordAt B b.nextOrderTag).limit = some b.nextLimitTag := by rw [hOB]
      rw [Cancel_found hregB hlimB hpresB]
      have hsz : (limAt B b.nextLimitTag).size - 1 = 0 := by
        rw [hLB]
        show (1 : Int) - 1 = 0
        decide
      rw [if_pos hsz]
      refine ⟨_, rfl, ?_, ?_, ?_, ?_, ?_, ?_, ?_, ?_⟩
      · rw [hOB]
        show aerase o.id B.idToOrderMap = b.idToOrderMap
        rw [hB]
        show aerase o.id (ainsert o.id b.nextOrderTag b.idToOrderMap) = b.idToOrderMap
        rw [aerase_ainsert, aerase_of_none hfresh]
      · rw [hOB, hLB]
        show (if o.bidOrAsk then treeDelete p B.bids else B.bids) = b.bids
        rw [hB]
        cases ho : o.bidOrAsk
        · simp [ho]
        · rw [ho] at hmiss
          have htmiss : alookup p b.bids = none := by
            have h2 : alookup p (sideTree b true) = none := by
              rw [← hI.mirror]
              exact hmiss
            exact h2
          simp only [if_pos, if_true, treeDelete]
          show aerase p (treePut p b.nextLimitTag b.bids) = b.bids
          exact aerase_treePut b.nextLimitTag htmiss
      · rw [hOB, hLB]
        show (if o.bidOrAsk then B.asks else treeDelete p B.asks) = b.asks
        rw [hB]
        cases ho : o.bidOrAsk
        · rw [ho] at hmiss
          have htmiss : alookup p b.asks = none := by
            have h2 : alookup p (sideTree b false) = none := by
              rw [← hI.mirror]
              exact hmiss
            exact h2
          simp only [Bool.false_eq_true, if_false, treeDelete]
          show aerase p (treePut p b.nextLimitTag b.asks) = b.asks
          exact aerase_treePut b.nextLimitTag htmiss
        · simp [ho]
      · rw [hOB, hLB]
        show (if o.bidOrAsk then aerase p B.bidLimitsCache else B.bidLimitsCache) =
          b.bidLimitsCache
        rw [hB]
        cases ho : o.bidOrAsk
        · simp [ho]
        · rw [ho] at hmiss
          have hcmiss : alookup p b.bidLimitsCache = none := hmiss
          simp only [if_pos, if_true]
          show aerase p (ainsert p b.nextLimitTag b.bidLimitsCache) = b.bidLimitsCache
          rw [aerase_ainsert, aerase_of_none hcmiss]
      · rw [hOB, hLB]
        show (if o.bidOrAsk then B.askLimitsCache else aerase p B.askLimitsCache) =
          b.askLimitsCache
        rw [hB]
        cases ho : o.bidOrAsk
        · rw [ho] at hmiss
          have hcmiss : alookup p b.askLimitsCache = none := hmiss
          simp only [Bool.false_eq_true, if_false]
          show aerase p (ainsert p b.nextLimitTag b.askLimitsCache) = b.askLimitsCache
          rw [aerase_ainsert, aerase_of_none hcmiss]
        · simp [ho]
      · rw [hOB]
        show (if o.bidOrAsk then B.totalBuyVolume - o.volume else B.totalBuyVolume) =
          b.totalBuyVolume
        rw [hB]
        cases ho : o.bidOrAsk <;> simp [ho]
      · rw [hOB]
        show (if o.bidOrAsk then B.totalSellVolume else B.totalSellVolume - o.volume) =
          b.totalSellVolume
        rw [hB]
        cases ho : o.bidOrAsk <;> simp [ho]
      · intro s2 q lt2 hq
        have hll : lt2 ≠ b.nextLimitTag :=
          ne_of_lt (hI.limBound lt2 (mem_limTags_cache hq))
        rw [limAt_update_ne rfl hll, hB]
        exact limAt_cons_ne rfl hll
  · have hK := hI.lims _ _ _ hfound
    rw [Add_found hfound]
    set B : Book := {b with
      idToOrderMap := ainsert o.id b.nextOrderTag b.idToOrderMap,
      ordersHeap := (b.nextOrderTag, {o with limit := some lt}) :: b.ordersHeap,
      limitsHeap := aupdate lt {limAt b lt with
        orders := (limAt b lt).orders ++ [b.nextOrderTag],
        size := (limAt b lt).size + 1,
        totalVolume := (limAt b lt).totalVolume + o.volume} b.limitsHeap,
      totalBuyVolume := if o.bidOrAsk then b.totalBuyVolume + o.volume
        else b.totalBuyVolume,
      totalSellVolume := if o.bidOrAsk then b.totalSellVolume
        else b.totalSellVolume + o.volume,
      nextOrderTag := b.nextOrderTag + 1} with hB
    have hregB : alookup o.id B.idToOrderMap = some b.nextOrderTag := by
      rw [hB]
      exact alookup_ainsert_self _ _ _
    have hOB : ordAt B b.nextOrderTag = {o with limit := some lt} := by
      rw [hB]
      simp [ordAt, alookup]
    have hLB : limAt B lt = {limAt b lt with
        orders := (limAt b lt).orders ++ [b.nextOrderTag],
        size := (limAt b lt).size + 1,
        totalVolume := (limAt b lt).totalVolume + o.volume} := by
      rw [hB]
      exact limAt_update_self rfl hK.present
    have hpresB : alookup lt B.limitsHeap ≠ none := by
      rw [hB]
      exact (aupdate_present _).mpr hK.present
    have hlimB : (ordAt B b.nextOrderTag).limit = some lt := by rw [hOB]
    rw [Cancel_found hregB hlimB hpresB]
    have hlen : (limAt b lt).orders.length ≠ 0 := fun hh => hne (List.length_eq_zero.mp hh)
    have hsz : ¬((limAt B lt).size - 1 = 0) := by
      rw [hLB]
      show ¬((limAt b lt).size + 1 - 1 = 0)
      rw [hK.sizeEq]
      omega
    rw [if_neg hsz]
    refine ⟨_, rfl, ?_, ?_, ?_, ?_, ?_, ?_, ?_, ?_⟩
    · rw [hOB]
      show aerase o.id B.idToOrderMap = b.idToOrderMap
      rw [hB]
      show aerase o.id (ainsert o.id b.nextOrderTag b.idToOrderMap) = b.idToOrderMap
      rw [aerase_ainsert, aerase_of_none hfresh]
    · rw [hB]
    · rw [hB]
    · rw [hB]
    · rw [hB]
    · rw [hOB]
      show (if o.bidOrAsk then B.totalBuyVolume - o.volume else B.totalBuyVolume) =
        b.totalBuyVolume
      rw [hB]
      cases ho : o.bidOrAsk <;> simp [ho]
    · rw [hOB]
      show (if o.bidOrAsk then B.totalSellVolume else B.totalSellVolume - o.volume) =
        b.totalSellVolume
      rw [hB]
      cases ho : o.bidOrAsk <;> simp [ho]
    · intro s2 q lt2 hq
      by_cases hll : lt2 = lt
      · subst hll
        have hnotin : b.nextOrderTag ∉ (limAt b lt2).orders :=
          fun hmem => absurd ((hK.mem _ hmem).2.2.2) (lt_irrefl _)
        have hor : ((limAt b lt2).orders ++ [b.nextOrderTag]).erase b.nextOrderTag =
            (limAt b lt2).orders := by
          rw [List.erase_append_right _ hnotin]
          simp
        rw [limAt_update_self rfl hpresB, hLB, hOB]
        show ({ price := (limAt b lt2).price,
                orders := ((limAt b lt2).orders ++ [b.nextOrderTag]).erase b.nextOrderTag,
                size := (limAt b lt2).size + 1 - 1,
                totalVolume := (limAt b lt2).totalVolume + o.volume - o.volume } :
            LimitOrder) = limAt b lt2
        rw [hor, add_sub_cancel_right, add_sub_cancel_right]
      · rw [limAt_update_ne rfl hll, hB]
        exact limAt_update_ne rfl hll

theorem c8_round_trip_witness :
    alookup (mkOrder 2 true 3).id
        (run NewOrderbook [Op.add 100 1 true 5]).idToOrderMap = none ∧
    (∃ c, Cancel (Add (run NewOrderbook [Op.add 100 1 true 5]) 100 (mkOrder 2 true 3))
          (mkOrder 2 true 3) = some c ∧
        c.idToOrderMap = (run NewOrderbook [Op.add 100 1 true 5]).idToOrderMap ∧
        c.bids = (run NewOrderbook [Op.add 100 1 true 5]).bids ∧
        c.asks = (run NewOrderbook [Op.add 100 1 true 5]).asks ∧
        c.bidLimitsCache = (run NewOrderbook [Op.add 100 1 true 5]).bidLimitsCache ∧
        c.askLimitsCache = (run NewOrderbook [Op.add 100 1 true 5]).askLimitsCache ∧
        c.totalBuyVolume = (run NewOrderbook [Op.add 100 1 true 5]).totalBuyVolume ∧
        c.totalSellVolume = (run NewOrderbook [Op.add 100 1 true 5]).totalSellVolume ∧
        ∀ s q lt, alookup q (sideCache (run NewOrderbook [Op.add 100 1 true 5]) s) =
            some lt →
          limAt c lt = limAt (run NewOrderbook [Op.add 100 1 true 5]) lt) :=
  ⟨rfl,
   c8_round_trip ⟨[Op.add 100 1 true 5], rfl⟩ 100 (mkOrder 2 true 3) rfl
     (Or.inr ⟨0, by decide, by decide⟩)⟩

end Hft
